import Mathlib

/-!
# Funding-rate arbitrage detector and hedged execution: a verification development

Shallow embedding of `app/exchanges/arbitrage.js`, of `app/exchanges/exchangeFactory.js`
(adapter and symbol lookup, `fetchFundingRates`), of the order and funding-rate methods
of the adapters (`BaseExchange.js`, `GateExchange.js`, `BitgetExchange.js`,
`HyperliquidExchange.js`), of the routes `app/api/arbitrage/execute/route.js` and
`app/api/data/route.js`, and of the grouping in `app/components/OpenPositions.js`.

Conventions of the embedding.

* A JavaScript number is a rational (`ℚ`): arithmetic is exact, `NaN` and the
  infinities have no value of their own.  A field that may be absent is an
  `Option`; `a || b` on numbers keeps `a` unless it is absent or `0`.
* A rate or price that may be a number or a string is a `JsScalar`.  The rows that
  `fetchFundingRates` hands to `calculateArbitrageOpportunities` are of that kind, and
  the definitions under `Scalar.` are the detector on such rows: `<` compares two
  strings as text, `-` converts them to numbers.  The definitions without that mark
  are the detectors on rows whose rates are numbers.
* An `async` handler is a `Handler`: calls of adapter methods, which return their
  promise at once, and an `await`, which suspends the handler until the awaited promise
  has settled; `runHandler` lists what happens, tick by tick.
* `Array.prototype.sort` with a comparator is stable; a stable sort by a total
  preorder has one possible result, which `List.insertionSort` computes.
* The library object behind an adapter (`this.exchange`) is a record of functions that
  answer each call with a value or an exception; an adapter method returns its result
  together with the list of venue calls it made, in order.
* A `Map` is an association list in insertion order.  A plain object used as a
  dictionary is an association list as well, but its lookups also see the
  properties inherited from `Object.prototype`, and `Object.entries` lists the
  keys that are array indices first, in ascending numeric order.
-/

namespace FundingArb

/-! ## Data model -/

/-- One funding-rate row as handed to the detectors (`fundingRates` / `allRates`), with
the fields the detectors read, for rows whose rates and prices are numbers.  `ScalarRow`
is the row whose rates and prices may also be strings. -/
structure FundingRow where
  exchange : String
  symbol : String
  fundingRate : Option ℚ
  rate : Option ℚ
  fundingTimestamp : Option ℕ
  fundingDatetime : Option String
  markPrice : Option ℚ
  indexPrice : Option ℚ
deriving DecidableEq

/-- The object `normalizedRate` of `calculateArbitrageOpportunities`: the row's own
fields with `rate` overwritten, plus the two `nextFunding...` fields. -/
structure NormalizedRate where
  exchange : String
  symbol : String
  fundingRate : Option ℚ
  fundingTimestamp : Option ℕ
  fundingDatetime : Option String
  markPrice : Option ℚ
  indexPrice : Option ℚ
  rate : ℚ
  nextFundingTime : Option ℕ
  nextFundingDatetime : Option String
deriving DecidableEq

/-- The object `normalizedItem` of `filterArbitrageOpportunities`: the row's own
fields with `rate` overwritten. -/
structure NormalizedItem where
  exchange : String
  symbol : String
  fundingRate : Option ℚ
  fundingTimestamp : Option ℕ
  fundingDatetime : Option String
  markPrice : Option ℚ
  indexPrice : Option ℚ
  rate : ℚ
deriving DecidableEq

/-- The object pushed by `calculateArbitrageOpportunities` (lines 56-76). -/
structure Opportunity where
  symbol : String
  longExchange : String
  shortExchange : String
  longRate : ℚ
  shortRate : ℚ
  rateDifference : ℚ
  longExchangeNextFunding : Option ℕ
  longExchangeNextFundingDatetime : Option String
  shortExchangeNextFunding : Option ℕ
  shortExchangeNextFundingDatetime : Option String
  longExchangeData : NormalizedRate
  shortExchangeData : NormalizedRate
  longMarkPrice : Option ℚ
  longIndexPrice : Option ℚ
  shortMarkPrice : Option ℚ
  shortIndexPrice : Option ℚ
deriving DecidableEq

/-- The object pushed by `filterArbitrageOpportunities` (lines 125-135). -/
structure FilteredOpportunity where
  symbol : String
  rateDifference : ℚ
  longExchange : String
  longRate : ℚ
  longExchangeData : NormalizedItem
  shortExchange : String
  shortRate : ℚ
  shortExchangeData : NormalizedItem
  timestamp : ℕ
deriving DecidableEq

/-! ## JavaScript primitives -/

deriving instance DecidableEq for Except

/-- The expression `a || d` for a numeric field `a` that may be absent: `a` when it is
present and not `0`, else `d`. -/
def jsOrNum (a : Option ℚ) (d : ℚ) : ℚ :=
  match a with
  | some x => if x = 0 then d else x
  | none => d

/-- The expression `t || null` for a timestamp that may be absent. -/
def jsOrNullNat (t : Option ℕ) : Option ℕ :=
  match t with
  | some x => if x = 0 then none else some x
  | none => none

/-- The expression `s || null` for a string that may be absent. -/
def jsOrNullStr (s : Option String) : Option String :=
  match s with
  | some x => if x = "" then none else some x
  | none => none

/-- The expression `rate.fundingRate || rate.rate || 0`. -/
def normalizedRateOf (r : FundingRow) : ℚ :=
  jsOrNum r.fundingRate (jsOrNum r.rate 0)

/-- The method `xs.sort((a, b) => key b - key a)`: stable, descending by `key`. -/
def sortDesc {α : Type} (key : α → ℚ) (xs : List α) : List α :=
  List.insertionSort (fun a b => key b ≤ key a) xs

/-- The abstract operation ToIntegerOrInfinity on a finite number: truncation
towards zero. -/
def toIntegerOrInfinity (x : ℚ) : ℤ :=
  if 0 ≤ x then ⌊x⌋ else ⌈x⌉

/-- The method `xs.slice(0, end)`: a negative `end` counts from the end of the array. -/
def sliceFromZero {α : Type} (xs : List α) (e : ℚ) : List α :=
  let rel := toIntegerOrInfinity e
  if rel < 0 then xs.take ((xs.length : ℤ) + rel).toNat else xs.take rel.toNat

/-- The two statements `if (!m.has(k)) m.set(k, []); m.get(k).push(v)` on a `Map`
kept in insertion order. -/
def mapPush {β : Type} (m : List (String × List β)) (k : String) (v : β) :
    List (String × List β) :=
  match m with
  | [] => [(k, [v])]
  | (k', vs) :: rest =>
    if k' = k then (k', vs ++ [v]) :: rest else (k', vs) :: mapPush rest k v

/-! ## `calculateArbitrageOpportunities` -/

/-- The object `normalizedRate` built at lines 17-22. -/
def normalizeRate (r : FundingRow) : NormalizedRate where
  exchange := r.exchange
  symbol := r.symbol
  fundingRate := r.fundingRate
  fundingTimestamp := r.fundingTimestamp
  fundingDatetime := r.fundingDatetime
  markPrice := r.markPrice
  indexPrice := r.indexPrice
  rate := normalizedRateOf r
  nextFundingTime := jsOrNullNat r.fundingTimestamp
  nextFundingDatetime := jsOrNullStr r.fundingDatetime

/-- The first `forEach` (lines 12-24): the `symbolMap`. -/
def symbolMap (fundingRates : List FundingRow) : List (String × List NormalizedRate) :=
  fundingRates.foldl (fun m r => mapPush m r.symbol (normalizeRate r)) []

/-- The body of the inner loop (lines 32-76) for `rate1 = rates[i]`, `rate2 = rates[j]`. -/
def pairOpportunity (symbol : String) (rate1 rate2 : NormalizedRate) : Opportunity :=
  let rateDifference := rate1.rate - rate2.rate
  let long := if rate1.rate < rate2.rate then rate1 else rate2
  let short := if rate1.rate < rate2.rate then rate2 else rate1
  { symbol := symbol
    longExchange := long.exchange
    shortExchange := short.exchange
    longRate := long.rate
    shortRate := short.rate
    rateDifference := |rateDifference|
    longExchangeNextFunding := long.nextFundingTime
    longExchangeNextFundingDatetime := long.nextFundingDatetime
    shortExchangeNextFunding := short.nextFundingTime
    shortExchangeNextFundingDatetime := short.nextFundingDatetime
    longExchangeData := long
    shortExchangeData := short
    longMarkPrice := long.markPrice
    longIndexPrice := long.indexPrice
    shortMarkPrice := short.markPrice
    shortIndexPrice := short.indexPrice }

/-- The two nested loops (lines 30-78): `i` ascending, and for each `i` every `j > i`
ascending. -/
def pairLoop (symbol : String) : List NormalizedRate → List Opportunity
  | [] => []
  | rate1 :: rest => rest.map (pairOpportunity symbol rate1) ++ pairLoop symbol rest

/-- The callback of `symbolMap.forEach` (lines 27-79) for one entry. -/
def groupOpportunities (entry : String × List NormalizedRate) : List Opportunity :=
  if entry.2.length < 2 then [] else pairLoop entry.1 entry.2

/-- The array `opportunities` when the second `forEach` has finished: the detector's
encounter order. -/
def pairCandidates (fundingRates : List FundingRow) : List Opportunity :=
  (symbolMap fundingRates).flatMap groupOpportunities

/-- The function `calculateArbitrageOpportunities(fundingRates, limit = 10)` on rows
whose rates are numbers; `none` is a call without the second argument.
`Scalar.calculateArbitrageOpportunities` is the function on rows whose rates may be
strings, and on rows of numbers the two return the same. -/
def calculateArbitrageOpportunities (fundingRates : List FundingRow) (limit : Option ℚ) :
    List Opportunity :=
  sliceFromZero (sortDesc Opportunity.rateDifference (pairCandidates fundingRates))
    (limit.getD 10)

/-! ## `filterArbitrageOpportunities` -/

/-- The names every plain object inherits from `Object.prototype`: a lookup
`symbolGroups[k]` with one of these finds the inherited member, which is truthy and
has no `push`. -/
def objectPrototypeKeys : List String :=
  ["constructor", "__defineGetter__", "__defineSetter__", "hasOwnProperty",
   "__lookupGetter__", "__lookupSetter__", "isPrototypeOf", "propertyIsEnumerable",
   "toString", "valueOf", "__proto__", "toLocaleString"]

/-- The value of a string of decimal digits, read left to right onto `acc`. -/
def digitsValue? : List Char → ℕ → Option ℕ
  | [], acc => some acc
  | c :: cs, acc =>
    if '0' ≤ c ∧ c ≤ '9' then digitsValue? cs (10 * acc + (c.toNat - 48)) else none

/-- The array index a property key denotes, if any: the key is the canonical decimal
form of an integer below `2^32 - 1`. -/
def arrayIndex? (key : String) : Option ℕ :=
  match key.data with
  | [] => none
  | c :: cs =>
    if c = '0' ∧ cs ≠ [] then none
    else
      match digitsValue? (c :: cs) 0 with
      | some n => if n < 4294967295 then some n else none
      | none => none

/-- The call `Object.entries(o)` for a plain object whose own properties were created
in the order of `o`: array-index keys first, ascending, then the other keys in
creation order. -/
def objectEntries {β : Type} (o : List (String × β)) : List (String × β) :=
  List.insertionSort (fun a b => (arrayIndex? a.1).getD 0 ≤ (arrayIndex? b.1).getD 0)
      (o.filter (fun e => (arrayIndex? e.1).isSome))
    ++ o.filter (fun e => (arrayIndex? e.1).isNone)

/-- The object `normalizedItem` built at lines 102-105. -/
def normalizeItem (r : FundingRow) : NormalizedItem where
  exchange := r.exchange
  symbol := r.symbol
  fundingRate := r.fundingRate
  fundingTimestamp := r.fundingTimestamp
  fundingDatetime := r.fundingDatetime
  markPrice := r.markPrice
  indexPrice := r.indexPrice
  rate := normalizedRateOf r

/-- The first `forEach` (lines 97-107) run on the rows still to come, `groups` being
the own properties of `symbolGroups` so far.  For a symbol that names a member of
`Object.prototype` the test `!symbolGroups[item.symbol]` is false, no array is
created, and the call of `push` on the inherited member throws. -/
def symbolGroupsFrom (groups : List (String × List NormalizedItem)) :
    List FundingRow → Except String (List (String × List NormalizedItem))
  | [] => .ok groups
  | item :: rest =>
    if item.symbol ∈ objectPrototypeKeys then
      .error "TypeError: symbolGroups[item.symbol].push is not a function"
    else symbolGroupsFrom (mapPush groups item.symbol (normalizeItem item)) rest

/-- The callback of `Object.entries(symbolGroups).forEach` (lines 112-137) for one
entry: what it pushes onto `opportunities`. -/
def extremalOpportunity (threshold : ℚ) (now : ℕ)
    (entry : String × List NormalizedItem) : List FilteredOpportunity :=
  if entry.2.length < 2 then []
  else
    let sorted := sortDesc NormalizedItem.rate entry.2
    match sorted.head?, sorted.getLast? with
    | some highest, some lowest =>
      let rateDifference := highest.rate - lowest.rate
      if threshold ≤ rateDifference then
        [{ symbol := entry.1
           rateDifference := rateDifference
           longExchange := lowest.exchange
           longRate := lowest.rate
           longExchangeData := lowest
           shortExchange := highest.exchange
           shortRate := highest.rate
           shortExchangeData := highest
           timestamp := now }]
      else []
    | _, _ => []

/-- The function `filterArbitrageOpportunities(allRates, threshold = 0.0001)`; `none`
is a call without the second argument, `now` is what `Date.now()` returns, and an
`error` is a thrown exception. -/
def filterArbitrageOpportunities (allRates : List FundingRow) (threshold : Option ℚ)
    (now : ℕ) : Except String (List FilteredOpportunity) :=
  match symbolGroupsFrom [] allRates with
  | .error e => .error e
  | .ok symbolGroups =>
    .ok (sortDesc FilteredOpportunity.rateDifference
      ((objectEntries symbolGroups).flatMap
        (extremalOpportunity (threshold.getD (1 / 10000)) now)))

/-! ## `exchangeFactory.js`: adapter and symbol lookup -/

/-- The adapters `getExchangeApi` can bind a name to. -/
inductive ExchangeId where
  | hyperliquid
  | gate
  | bitget
deriving DecidableEq

/-- What `getExchangeApi` can return: an adapter, or, for a name that `exchanges[name]`
finds on `Object.prototype`, that inherited member. -/
inductive ApiHandle where
  | adapter (id : ExchangeId)
  | prototypeMember (key : String)
deriving DecidableEq

/-- String conversion of a value that may be `undefined`, as in a template literal or a
property key. -/
def jsString (s : Option String) : String :=
  s.getD "undefined"

/-- The function `getExchangeApi(name)`.  The cache `exchanges` is a plain object that
only ever receives the three adapters under their own names, so the result does not
depend on what has been cached. -/
def getExchangeApi (name : Option String) : Except String ApiHandle :=
  if jsString name ∈ objectPrototypeKeys then .ok (.prototypeMember (jsString name))
  else
    match name with
    | some "hyperliquid" => .ok (.adapter .hyperliquid)
    | some "gate" => .ok (.adapter .gate)
    | some "bitget" => .ok (.adapter .bitget)
    | _ => .error ("不支持的交易所: " ++ jsString name)

/-- The method `toLowerCase` on ASCII letters.  No character outside ASCII lower-cases
to a letter of the three exchange names, so the `switch` of `getExchangeSymbol` cannot
tell the difference. -/
def toLowerCase (s : String) : String :=
  String.mk (s.data.map Char.toLower)

/-- The function `getExchangeSymbol(baseToken, exchange)`. -/
def getExchangeSymbol (baseToken exchange : Option String) : Except String String :=
  match exchange with
  | none => .error "TypeError: Cannot read properties of undefined (reading toLowerCase)"
  | some e =>
    if toLowerCase e = "gate" then .ok (jsString baseToken ++ "/USDT:USDT")
    else if toLowerCase e = "hyperliquid" then .ok (jsString baseToken ++ "/USDC:USDC")
    else if toLowerCase e = "bitget" then .ok (jsString baseToken ++ "/USDT:USDT")
    else .error ("不支持的交易所: " ++ e)

/-! ## `exchangeFactory.js`: base token of a symbol -/

/-- The expression `s.split(sep)[0]` for a one-character separator: the part of `s` before
the first `sep`, all of `s` when it holds none. -/
def beforeFirst (sep : Char) (s : String) : String :=
  String.mk (s.data.takeWhile (fun c => c ≠ sep))

/-- The function `extractBaseToken(symbol)`. -/
def extractBaseToken (symbol : String) : String :=
  beforeFirst '/' (beforeFirst ':' symbol)


/-! ## `api/arbitrage/execute/route.js` -/

/-- The body of an execute request after `request.json()`; a missing field is `none`. -/
structure TradeIntent where
  symbol : Option String
  longExchange : Option String
  shortExchange : Option String
  positionSize : Option ℚ
  leverage : Option ℚ
  slippagePercent : Option ℚ
deriving DecidableEq

/-- The order confirmation a venue returns. -/
structure OrderResult where
  id : String
deriving DecidableEq

/-- How the promise of one leg settles: fulfilled with an order (`none` for a falsy
value) or rejected with an error of the given message. -/
inductive LegOutcome where
  | fulfilled (order : Option OrderResult)
  | rejected (message : String)
deriving DecidableEq

/-- The arguments of `executeLongOrder` / `executeShortOrder`. -/
structure LegCall where
  symbol : String
  positionSize : Option ℚ
  leverage : Option ℚ
  slippagePercent : Option ℚ
deriving DecidableEq

/-- The adapters as the route sees them: how each leg settles, which of two rejections
comes first, and the clock. -/
structure ExecuteEnv where
  executeLongOrder : ExchangeId → LegCall → LegOutcome
  executeShortOrder : ExchangeId → LegCall → LegOutcome
  shortSettlesFirst : Bool
  isoNow : String

/-- The JSON body of the response. -/
inductive ExecuteBody where
  | success (symbol longExchange shortExchange : Option String)
      (longSymbol shortSymbol : String) (quantity : Option ℚ) (timestamp : String)
  | failure (error : String)
deriving DecidableEq

/-- The field `success` of the body. -/
def ExecuteBody.isSuccess : ExecuteBody → Bool
  | .success .. => true
  | .failure _ => false

/-- The field `quantity` of the body; `none` also stands for `null`, which is how JSON
writes a number that is not finite. -/
def ExecuteBody.quantity : ExecuteBody → Option ℚ
  | .success _ _ _ _ _ q _ => q
  | .failure _ => none

/-- A call of an adapter method made by the route. -/
inductive Dispatch where
  | long (id : ExchangeId) (call : LegCall)
  | short (id : ExchangeId) (call : LegCall)
deriving DecidableEq

/-- The response of the route with the adapter calls it made, in order. -/
structure ExecuteReport where
  status : ℕ
  body : ExecuteBody
  dispatched : List Dispatch
deriving DecidableEq

/-- The division `a / b` of two numbers that may be missing; `none` is a result that is
not finite (`NaN` or an infinity). -/
def jsDiv (a b : Option ℚ) : Option ℚ :=
  match a, b with
  | some x, some y => if y = 0 then none else some (x / y)
  | _, _ => none

/-- The `catch` block (lines 52-60). -/
def executeFailure (message : String) (dispatched : List Dispatch) : ExecuteReport :=
  { status := 500, body := .failure message, dispatched := dispatched }

/-- What `await Promise.all([long, short])` yields: both values, or the reason of the
rejection that happens first. -/
def promiseAll2 (long short : LegOutcome) (shortSettlesFirst : Bool) :
    Except String (Option OrderResult × Option OrderResult) :=
  match long, short with
  | .fulfilled a, .fulfilled b => .ok (a, b)
  | .rejected m, .fulfilled _ => .error m
  | .fulfilled _, .rejected m => .error m
  | .rejected ml, .rejected ms => .error (if shortSettlesFirst then ms else ml)

/-- The handler `POST(request)` of the execute route. -/
def POST (req : TradeIntent) (env : ExecuteEnv) : ExecuteReport :=
  match getExchangeApi req.longExchange with
  | .error m => executeFailure m []
  | .ok longExchangeApi =>
  match getExchangeApi req.shortExchange with
  | .error m => executeFailure m []
  | .ok shortExchangeApi =>
  match getExchangeSymbol req.symbol req.longExchange with
  | .error m => executeFailure m []
  | .ok longSymbol =>
  match getExchangeSymbol req.symbol req.shortExchange with
  | .error m => executeFailure m []
  | .ok shortSymbol =>
  let quantity := jsDiv req.positionSize req.leverage
  let longCall : LegCall := ⟨longSymbol, req.positionSize, req.leverage, req.slippagePercent⟩
  let shortCall : LegCall := ⟨shortSymbol, req.positionSize, req.leverage, req.slippagePercent⟩
  match longExchangeApi with
  | .prototypeMember _ =>
    executeFailure "longExchangeApi.executeLongOrder is not a function" []
  | .adapter longId =>
  match shortExchangeApi with
  | .prototypeMember _ =>
    executeFailure "shortExchangeApi.executeShortOrder is not a function"
      [.long longId longCall]
  | .adapter shortId =>
  let dispatched := [Dispatch.long longId longCall, Dispatch.short shortId shortCall]
  match promiseAll2 (env.executeLongOrder longId longCall)
      (env.executeShortOrder shortId shortCall) env.shortSettlesFirst with
  | .error m => executeFailure m dispatched
  | .ok (longResult, shortResult) =>
    if longResult.isSome && shortResult.isSome then
      { status := 200
        body := .success req.symbol req.longExchange req.shortExchange longSymbol
          shortSymbol quantity env.isoNow
        dispatched := dispatched }
    else executeFailure ("套利交易执行失败: " ++ jsString req.symbol) dispatched


/-! ## `api/arbitrage/execute/route.js`: the calls and the `await` in time -/

/-- How the promise that an adapter method returns behaves: the number of ticks after
the call at which it settles (`none`: it never settles), and how it settles then. -/
structure LegPromise where
  settlesAfter : Option ℕ
  outcome : LegOutcome
deriving DecidableEq

/-- The adapters as the event loop sees them: the promise each leg returns, and the
clock of `new Date().toISOString()`. -/
structure SchedulerEnv where
  executeLongOrder : ExchangeId → LegCall → LegPromise
  executeShortOrder : ExchangeId → LegCall → LegPromise
  isoNow : String

/-- A promise in flight: the tick at which the call that made it was made, and how it
behaves. -/
structure Promise where
  calledAt : ℕ
  behaviour : LegPromise
deriving DecidableEq

/-- The tick at which a promise settles, if it ever does. -/
def Promise.settlesAt (p : Promise) : Option ℕ :=
  p.behaviour.settlesAfter.map (fun ticks => p.calledAt + ticks)

/-- The statements of an `async` handler that matter for scheduling: a call of an
adapter method, which returns its promise at once; `await Promise.all([...])`, which
suspends the handler until the promises have settled; and the response. -/
inductive Handler where
  | respond (status : ℕ) (body : ExecuteBody)
  | call (d : Dispatch) (next : Promise → Handler)
  | awaitAll (promises : List Promise)
      (next : Except String (List (Option OrderResult)) → Handler)

/-- What an observer of the handler sees, with the tick of each event. -/
inductive RouteEvent where
  | called (time : ℕ) (d : Dispatch)
  | suspended (time : ℕ)
  | resumed (time : ℕ)
  | responded (time : ℕ) (status : ℕ) (body : ExecuteBody)
deriving DecidableEq

/-- The earliest rejection among promises, with its tick; of two rejections at the same
tick the one of the earlier array element counts. -/
def firstRejectionAt : List Promise → Option (ℕ × String)
  | [] => none
  | p :: rest =>
    match p.settlesAt, p.behaviour.outcome, firstRejectionAt rest with
    | some t, .rejected m, some (t', m') => if t' < t then some (t', m') else some (t, m)
    | some t, .rejected m, none => some (t, m)
    | _, _, later => later

/-- The values of promises that all fulfil, with the tick of the last fulfilment. -/
def allFulfilledAt : List Promise → Option (ℕ × List (Option OrderResult))
  | [] => some (0, [])
  | p :: rest =>
    match p.settlesAt, p.behaviour.outcome, allFulfilledAt rest with
    | some t, .fulfilled v, some (t', vs) => some (max t t', v :: vs)
    | _, _, _ => none

/-- When and how the promise of `Promise.all(promises)` settles: it rejects with the
first rejection, fulfils when every promise has fulfilled, and otherwise never settles. -/
def promiseAll (promises : List Promise) :
    Option (ℕ × Except String (List (Option OrderResult))) :=
  match firstRejectionAt promises with
  | some (t, m) => some (t, .error m)
  | none =>
    match allFulfilledAt promises with
    | some (t, vs) => some (t, .ok vs)
    | none => none

/-- The promise an adapter method returns when it is called. -/
def promiseOf (env : SchedulerEnv) : Dispatch → LegPromise
  | .long id call => env.executeLongOrder id call
  | .short id call => env.executeShortOrder id call

/-- The run of a handler from the tick `now`: synchronous statements take no time, an
`await` suspends the handler until the awaited promise has settled, and a handler
suspended on a promise that never settles does nothing more. -/
def runHandler (env : SchedulerEnv) : Handler → ℕ → List RouteEvent
  | .respond status body, now => [.responded now status body]
  | .call d next, now => .called now d :: runHandler env (next ⟨now, promiseOf env d⟩) now
  | .awaitAll promises next, now =>
    match promiseAll promises with
    | none => [.suspended now]
    | some (t, result) =>
      .suspended now :: .resumed (max now t) :: runHandler env (next result) (max now t)

/-- The statements of `POST(request)` after `request.json()` (lines 18-60): the array
literal of line 32 calls both adapter methods, then the one `await` of the handler waits
for `Promise.all` of the two promises; `const [longResult, shortResult]` reads the first
two elements of the result. -/
def executeHandler (req : TradeIntent) (isoNow : String) : Handler :=
  match getExchangeApi req.longExchange with
  | .error m => .respond 500 (.failure m)
  | .ok longExchangeApi =>
  match getExchangeApi req.shortExchange with
  | .error m => .respond 500 (.failure m)
  | .ok shortExchangeApi =>
  match getExchangeSymbol req.symbol req.longExchange with
  | .error m => .respond 500 (.failure m)
  | .ok longSymbol =>
  match getExchangeSymbol req.symbol req.shortExchange with
  | .error m => .respond 500 (.failure m)
  | .ok shortSymbol =>
  let quantity := jsDiv req.positionSize req.leverage
  let longCall : LegCall := ⟨longSymbol, req.positionSize, req.leverage, req.slippagePercent⟩
  let shortCall : LegCall := ⟨shortSymbol, req.positionSize, req.leverage, req.slippagePercent⟩
  match longExchangeApi with
  | .prototypeMember _ =>
    .respond 500 (.failure "longExchangeApi.executeLongOrder is not a function")
  | .adapter longId =>
  .call (.long longId longCall) (fun longPromise =>
    match shortExchangeApi with
    | .prototypeMember _ =>
      .respond 500 (.failure "shortExchangeApi.executeShortOrder is not a function")
    | .adapter shortId =>
    .call (.short shortId shortCall) (fun shortPromise =>
      .awaitAll [longPromise, shortPromise] (fun settled =>
        match settled with
        | .error m => .respond 500 (.failure m)
        | .ok results =>
          let longResult := (results.get? 0).join
          let shortResult := (results.get? 1).join
          if longResult.isSome && shortResult.isSome then
            .respond 200 (.success req.symbol req.longExchange req.shortExchange longSymbol
              shortSymbol quantity isoNow)
          else .respond 500 (.failure ("套利交易执行失败: " ++ jsString req.symbol)))))


/-! ## The adapters: `BaseExchange.js`, `GateExchange.js`, `BitgetExchange.js`,
`HyperliquidExchange.js` -/

/-- The side of an order, `'buy'` or `'sell'`. -/
inductive OrderSide where
  | buy
  | sell
deriving DecidableEq

/-- The arguments of `exchange.createOrder(symbol, type, side, amount, price, params)`.
An `amount` or `price` of `none` is a value that is no finite number (`undefined`,
`NaN`, an infinity). -/
structure OrderRequest where
  symbol : String
  orderType : String
  side : OrderSide
  amount : Option ℚ
  price : Option ℚ
  reduceOnly : Bool
  timeInForce : Option String
deriving DecidableEq

/-- A position as a venue reports it, `exchange` being the tag that the positions route
adds. -/
structure Position where
  symbol : String
  side : String
  contracts : ℚ
  exchange : Option String
deriving DecidableEq

/-- The entries of a market description that the gate adapter reads. -/
structure Market where
  contractSize : Option ℚ
  amountMin : Option ℚ
deriving DecidableEq

/-- A call that reaches the venue. -/
inductive VenueCall where
  | fetchTicker (symbol : String)
  | setLeverage (leverage : ℚ) (symbol : String)
  | setPositionMode (symbol : String)
  | fetchPositions (symbol : String)
  | createOrder (req : OrderRequest)
deriving DecidableEq

/-- The library object `this.exchange` of an adapter: what each call answers, an `error`
being a thrown exception.  `fetchTicker` gives the field `last` of the ticker.  A venue
answers a call by its arguments. -/
structure Venue where
  market : String → Except String Market
  fetchTicker : String → Except String (Option ℚ)
  setLeverage : ℚ → String → Except String Unit
  fetchPositions : String → Except String (List Position)
  createOrder : OrderRequest → Except String (Option OrderResult)

/-- A number that need not be finite, for the one computation whose result is compared
after a division. -/
inductive ExtNum where
  | fin (q : ℚ)
  | posInf
  | negInf
  | nan
deriving DecidableEq

/-- A number that may be missing, as an operand: `undefined` gives `NaN`. -/
def ExtNum.ofOption : Option ℚ → ExtNum
  | some q => .fin q
  | none => .nan

/-- The division `a / b`, with `b` a finite number or missing. -/
def ExtNum.divBy (a : ExtNum) (b : Option ℚ) : ExtNum :=
  match a, b with
  | _, none => .nan
  | .nan, some _ => .nan
  | .fin x, some y =>
    if y = 0 then (if 0 < x then .posInf else if x < 0 then .negInf else .nan)
    else .fin (x / y)
  | .posInf, some y => if y < 0 then .negInf else .posInf
  | .negInf, some y => if y < 0 then .posInf else .negInf

/-- The function `Math.floor`. -/
def ExtNum.floor : ExtNum → ExtNum
  | .fin x => .fin (⌊x⌋ : ℤ)
  | x => x

/-- The comparison `a < m` with a finite `m`. -/
def ExtNum.ltFinite (a : ExtNum) (m : ℚ) : Bool :=
  match a with
  | .fin x => decide (x < m)
  | .negInf => true
  | _ => false

/-- The value as an order amount. -/
def ExtNum.toOption : ExtNum → Option ℚ
  | .fin x => some x
  | _ => none

/-- The prefix test behind `includes`. -/
def startsWithChars : List Char → List Char → Bool
  | _, [] => true
  | [], _ :: _ => false
  | c :: cs, d :: ds => c == d && startsWithChars cs ds

/-- The search behind `includes`. -/
def includesChars : List Char → List Char → Bool
  | [], sub => sub.isEmpty
  | c :: cs, sub => startsWithChars (c :: cs) sub || includesChars cs sub

/-- The method `s.includes(sub)`. -/
def jsIncludes (s sub : String) : Bool :=
  includesChars s.data sub.data

/-- The factor `side === 'buy' ? (1 + slippagePercent) : (1 - slippagePercent)`. -/
def slippageMultiplier (side : OrderSide) (slippagePercent : ℚ) : ℚ :=
  match side with
  | .buy => 1 + slippagePercent
  | .sell => 1 - slippagePercent

/-- The method `calculateSlippagePrice(symbol, side, slippagePercent)` of `BaseExchange`
and of `HyperliquidExchange`: the result and the venue calls made. -/
def calculateSlippagePrice (venue : Venue) (symbol : String) (side : OrderSide)
    (slippagePercent : ℚ) : Except String (Option ℚ) × List VenueCall :=
  match venue.fetchTicker symbol with
  | .error m => (.error m, [.fetchTicker symbol])
  | .ok currentPrice =>
    (.ok (currentPrice.map (fun p => p * slippageMultiplier side slippagePercent)),
      [.fetchTicker symbol])

/-- The method `setupLeverageAndPosition(symbol, leverage)`: an error whose message
holds `NO_CHANGE` counts as done. -/
def setupLeverageAndPosition (venue : Venue) (symbol : String) (leverage : ℚ) :
    Except String Unit × List VenueCall :=
  match venue.setLeverage leverage symbol with
  | .ok _ => (.ok (), [.setLeverage leverage symbol])
  | .error m =>
    if jsIncludes m "NO_CHANGE" then (.ok (), [.setLeverage leverage symbol])
    else (.error m, [.setLeverage leverage symbol])

/-- The method `BaseExchange.createMarketOrderWithSlippage`, which the hyperliquid
adapter inherits. -/
def baseCreateMarketOrderWithSlippage (venue : Venue) (symbol : String) (side : OrderSide)
    (positionSize : Option ℚ) (leverage slippagePercent : ℚ) :
    Except String (Option OrderResult) × List VenueCall :=
  match setupLeverageAndPosition venue symbol leverage with
  | (.error m, t1) => (.error m, t1)
  | (.ok _, t1) =>
    match calculateSlippagePrice venue symbol side slippagePercent with
    | (.error m, t2) => (.error m, t1 ++ t2)
    | (.ok slippagePrice, t2) =>
      let amount := jsDiv positionSize slippagePrice
      let req : OrderRequest :=
        { symbol := symbol, orderType := "market", side := side, amount := amount,
          price := slippagePrice, reduceOnly := false, timeInForce := some "IOC" }
      (venue.createOrder req, t1 ++ t2 ++ [.createOrder req])

/-- The method `BitgetExchange.createMarketOrderWithSlippage`; it reads its last
argument as a percentage and does not use `leverage`. -/
def bitgetCreateMarketOrderWithSlippage (venue : Venue) (symbol : String) (side : OrderSide)
    (positionSize : Option ℚ) (slippage : ℚ) :
    Except String (Option OrderResult) × List VenueCall :=
  match venue.fetchTicker symbol with
  | .error m => (.error m, [.fetchTicker symbol])
  | .ok none => (.error "无法获取市场价格", [.fetchTicker symbol])
  | .ok (some price) =>
    if price = 0 then (.error "无法获取市场价格", [.fetchTicker symbol])
    else
      let slippagePrice := price * slippageMultiplier side (slippage / 100)
      if slippagePrice ≤ 0 then (.error "无效的价格", [.fetchTicker symbol])
      else
        match positionSize with
        | none => (.error "无效的数量", [.fetchTicker symbol])
        | some size =>
          if size ≤ 0 then (.error "无效的数量", [.fetchTicker symbol])
          else
            let req : OrderRequest :=
              { symbol := symbol, orderType := "market", side := side,
                amount := some (size / slippagePrice), price := some slippagePrice,
                reduceOnly := false, timeInForce := some "IOC" }
            (venue.createOrder req,
              [.fetchTicker symbol, .setPositionMode symbol, .createOrder req])

/-- The contract count `Math.floor(positionSize / currentPrice / market.contractSize)` of
the gate adapter. -/
def gateContracts (positionSize currentPrice contractSize : Option ℚ) : ExtNum :=
  (((ExtNum.ofOption positionSize).divBy currentPrice).divBy contractSize).floor

/-- The method `GateExchange.createMarketOrderWithSlippage`.  The message of the size
error is given without the two numbers it quotes. -/
def gateCreateMarketOrderWithSlippage (venue : Venue) (symbol : String) (side : OrderSide)
    (positionSize : Option ℚ) (leverage : ℚ) :
    Except String (Option OrderResult) × List VenueCall :=
  match venue.market symbol with
  | .error m => (.error m, [])
  | .ok market =>
    let minAmount := jsOrNum market.amountMin 1
    match venue.fetchTicker symbol with
    | .error m => (.error m, [.fetchTicker symbol])
    | .ok currentPrice =>
      let contracts := gateContracts positionSize currentPrice market.contractSize
      if contracts.ltFinite minAmount then
        (.error "计算出的合约张数小于最小交易数量", [.fetchTicker symbol])
      else
        match setupLeverageAndPosition venue symbol leverage with
        | (.error m, t) => (.error m, .fetchTicker symbol :: t)
        | (.ok _, t) =>
          let req : OrderRequest :=
            { symbol := symbol, orderType := "market", side := side,
              amount := contracts.toOption, price := none, reduceOnly := false,
              timeInForce := some "IOC" }
          (venue.createOrder req, .fetchTicker symbol :: t ++ [.createOrder req])

/-- The method `createMarketOrderWithSlippage` of the adapter `id`. -/
def createMarketOrderWithSlippage (id : ExchangeId) (venue : Venue) (symbol : String)
    (side : OrderSide) (positionSize : Option ℚ) (leverage slippagePercent : ℚ) :
    Except String (Option OrderResult) × List VenueCall :=
  match id with
  | .hyperliquid =>
    baseCreateMarketOrderWithSlippage venue symbol side positionSize leverage slippagePercent
  | .gate => gateCreateMarketOrderWithSlippage venue symbol side positionSize leverage
  | .bitget => bitgetCreateMarketOrderWithSlippage venue symbol side positionSize slippagePercent

/-- The methods `executeLongOrder` / `executeShortOrder` of `BaseExchange`, which no
adapter overrides: `leverage` defaults to 1 and `slippagePercent` to 0.001. -/
def executeOrder (id : ExchangeId) (venue : Venue) (side : OrderSide) (call : LegCall) :
    Except String (Option OrderResult) × List VenueCall :=
  createMarketOrderWithSlippage id venue call.symbol side call.positionSize
    (call.leverage.getD 1) (call.slippagePercent.getD (1 / 1000))

/-- The side of the order that closes a position: `(pos.side === 'long') ? 'sell' : 'buy'`. -/
def closingSide (pos : Position) : OrderSide :=
  if pos.side = "long" then .sell else .buy

/-- The `for` loop of `BaseExchange.closeAllPositions` on the positions still to come;
an exception ends it. -/
def baseCloseLoop (venue : Venue) (symbol : String) :
    List Position → Except String Unit × List VenueCall
  | [] => (.ok (), [])
  | pos :: rest =>
    if 0 < pos.contracts then
      match calculateSlippagePrice venue symbol (closingSide pos) (1 / 1000) with
      | (.error m, t) => (.error m, t)
      | (.ok slippagePrice, t) =>
        let req : OrderRequest :=
          { symbol := symbol, orderType := "market", side := closingSide pos,
            amount := some pos.contracts, price := slippagePrice, reduceOnly := true,
            timeInForce := none }
        match venue.createOrder req with
        | .error m => (.error m, t ++ [.createOrder req])
        | .ok _ =>
          ((baseCloseLoop venue symbol rest).1,
            t ++ [.createOrder req] ++ (baseCloseLoop venue symbol rest).2)
    else baseCloseLoop venue symbol rest

/-- The method `BaseExchange.closeAllPositions(symbol)`, which the hyperliquid and
bitget adapters inherit: every exception is caught and logged. -/
def baseCloseAllPositions (venue : Venue) (symbol : String) :
    Except String Unit × List VenueCall :=
  match venue.fetchPositions symbol with
  | .error _ => (.ok (), [.fetchPositions symbol])
  | .ok positions => (.ok (), .fetchPositions symbol :: (baseCloseLoop venue symbol positions).2)

/-- The `for` loop of `GateExchange.closeAllPositions`. -/
def gateCloseLoop (venue : Venue) (symbol : String) :
    List Position → Except String Unit × List VenueCall
  | [] => (.ok (), [])
  | pos :: rest =>
    if 0 < pos.contracts then
      let req : OrderRequest :=
        { symbol := symbol, orderType := "market", side := closingSide pos,
          amount := some pos.contracts, price := none, reduceOnly := true,
          timeInForce := some "IOC" }
      match venue.createOrder req with
      | .error m => (.error m, [.createOrder req])
      | .ok _ =>
        ((gateCloseLoop venue symbol rest).1,
          .createOrder req :: (gateCloseLoop venue symbol rest).2)
    else gateCloseLoop venue symbol rest

/-- The method `GateExchange.closeAllPositions(symbol)`: an exception is logged and
thrown again. -/
def gateCloseAllPositions (venue : Venue) (symbol : String) :
    Except String Unit × List VenueCall :=
  match venue.fetchPositions symbol with
  | .error m => (.error m, [.fetchPositions symbol])
  | .ok positions =>
    ((gateCloseLoop venue symbol positions).1,
      .fetchPositions symbol :: (gateCloseLoop venue symbol positions).2)

/-- The method `closeAllPositions` of the adapter `id`. -/
def closeAllPositions (id : ExchangeId) (venue : Venue) (symbol : String) :
    Except String Unit × List VenueCall :=
  match id with
  | .gate => gateCloseAllPositions venue symbol
  | _ => baseCloseAllPositions venue symbol

/-- The order requests among the calls of a trace, in order. -/
def ordersOf (trace : List VenueCall) : List OrderRequest :=
  trace.filterMap (fun c => match c with
    | .createOrder req => some req
    | _ => none)


/-! ## `exchangeFactory.js`: the rate aggregator `fetchFundingRates` -/

/-- A value that is a number or a string, as the raw `info` of a venue holds them. -/
inductive JsScalar where
  | num (q : ℚ)
  | str (s : String)
deriving DecidableEq

/-- The fields of `rate.info` that the aggregator reads. -/
structure RawInfo where
  markPx : Option JsScalar
  oraclePx : Option JsScalar
  funding : Option JsScalar
deriving DecidableEq

/-- One value of the mapping that `getFundingRates` returns. -/
structure RawRate where
  symbol : String
  markPrice : Option ℚ
  indexPrice : Option ℚ
  fundingRate : Option ℚ
  rate : Option ℚ
  info : Option RawInfo
  fundingTimestamp : Option ℕ
  fundingDatetime : Option String
  interval : Option String
deriving DecidableEq

/-- The object `normalizedRate` of `fetchFundingRates` (lines 159-169). -/
structure AggregatedRate where
  baseToken : String
  symbol : String
  exchange : String
  markPrice : JsScalar
  indexPrice : JsScalar
  fundingRate : JsScalar
  fundingTimestamp : ℕ
  fundingDatetime : String
  interval : String
deriving DecidableEq

/-- Truthiness of a number or string. -/
def JsScalar.truthy : JsScalar → Bool
  | .num q => decide (q ≠ 0)
  | .str s => decide (s ≠ "")

/-- The chain `a || b || ... || 0` over values that may be absent. -/
def firstTruthy : List (Option JsScalar) → JsScalar
  | [] => .num 0
  | some v :: rest => if v.truthy then v else firstTruthy rest
  | none :: rest => firstTruthy rest

/-- What `this.exchange` answers to the calls of `getFundingRates`: whether the markets
are loaded, what `loadMarkets` does, the symbols of the markets with `swap === true`,
whether `fetchFundingRates` is a function, and what it answers, as the values of the
mapping in key order. -/
structure RatesVenue where
  marketsLoaded : Bool
  loadMarkets : Except String Unit
  swapSymbols : List String
  hasFetchFundingRates : Bool
  fetchFundingRates : Except String (List RawRate)

/-- How the promise of `getFundingRates` settles; the value `none` is `undefined`. -/
inductive RatesOutcome where
  | fulfilled (value : Option (List RawRate))
  | rejected (message : String)
deriving DecidableEq

/-- The method `BaseExchange.getFundingRates()`, which the hyperliquid and gate adapters
inherit.  The `catch` of the batch call only logs, and nothing follows it: the method
then ends without a `return`. -/
def baseGetFundingRates (v : RatesVenue) : RatesOutcome :=
  match (if v.marketsLoaded then .ok () else v.loadMarkets) with
  | .error m => .rejected m
  | .ok _ =>
    if v.swapSymbols.length = 0 then .fulfilled (some [])
    else if v.hasFetchFundingRates then
      match v.fetchFundingRates with
      | .ok response => .fulfilled (some response)
      | .error _ => .fulfilled none
    else .fulfilled none

/-- The method `BitgetExchange.getFundingRates()`: every exception is thrown again. -/
def bitgetGetFundingRates (v : RatesVenue) : RatesOutcome :=
  match (if v.marketsLoaded then .ok () else v.loadMarkets) with
  | .error m => .rejected m
  | .ok _ =>
    if v.hasFetchFundingRates then
      match v.fetchFundingRates with
      | .ok response => .fulfilled (some response)
      | .error m => .rejected m
    else .rejected "this.exchange.fetchFundingRates is not a function"

/-- The method `getFundingRates` of the adapter `id`. -/
def getFundingRates (id : ExchangeId) (v : RatesVenue) : RatesOutcome :=
  match id with
  | .bitget => bitgetGetFundingRates v
  | _ => baseGetFundingRates v

/-- The surroundings of the aggregator: the venues, the clock, and the number a string
spells (`none` when it spells none). -/
structure AggregatorEnv where
  rates : ExchangeId → RatesVenue
  now : ℕ
  isoNow : String
  numberOf : String → Option ℚ

/-- The `switch (exchange)` of `fetchFundingRates`: the promise made for one enabled
exchange; any other name gets `Promise.resolve([])`. -/
def ratePromise (env : AggregatorEnv) (exchange : String) : RatesOutcome :=
  if exchange = "hyperliquid" then getFundingRates .hyperliquid (env.rates .hyperliquid)
  else if exchange = "gate" then getFundingRates .gate (env.rates .gate)
  else if exchange = "bitget" then getFundingRates .bitget (env.rates .bitget)
  else .fulfilled (some [])

/-- The callback of `Object.values(result.value).map` (lines 155-172). -/
def normalizeAggregated (env : AggregatorEnv) (exchangeName : String) (rate : RawRate) :
    AggregatedRate :=
  { baseToken := extractBaseToken rate.symbol
    symbol := rate.symbol
    exchange := exchangeName
    markPrice := firstTruthy [rate.markPrice.map .num, rate.info.bind RawInfo.markPx]
    indexPrice := firstTruthy [rate.indexPrice.map .num, rate.info.bind RawInfo.oraclePx]
    fundingRate := firstTruthy
      [rate.fundingRate.map .num, rate.rate.map .num, rate.info.bind RawInfo.funding]
    fundingTimestamp := (jsOrNullNat rate.fundingTimestamp).getD env.now
    fundingDatetime := (jsOrNullStr rate.fundingDatetime).getD env.isoNow
    interval := (jsOrNullStr rate.interval).getD "8h" }

/-- The `reduce` over the settled results (lines 150-179), on the exchanges still to
come.  A fulfilled value of `undefined` makes `Object.values` throw. -/
def mergeRates (env : AggregatorEnv) (allRates : List AggregatedRate) :
    List String → Except String (List AggregatedRate)
  | [] => .ok allRates
  | exchange :: rest =>
    match ratePromise env exchange with
    | .fulfilled (some value) =>
      mergeRates env (allRates ++ value.map (normalizeAggregated env exchange)) rest
    | .fulfilled none => .error "TypeError: Cannot convert undefined or null to object"
    | .rejected _ => mergeRates env allRates rest

/-- A number or string as a number. -/
def JsScalar.toNumber (numberOf : String → Option ℚ) : JsScalar → Option ℚ
  | .num q => some q
  | .str s => numberOf s


/-! ## `arbitrage.js`: `calculateArbitrageOpportunities` on rows whose rates may be strings -/

/-- The UTF-16 code units of a character. -/
def utf16Units (c : Char) : List ℕ :=
  if c.toNat < 65536 then [c.toNat]
  else [55296 + (c.toNat - 65536) / 1024, 56320 + (c.toNat - 65536) % 1024]

/-- The comparison `<` of two sequences of code units: the first difference decides, and
a proper initial segment comes first. -/
def codeUnitsLt : List ℕ → List ℕ → Bool
  | _, [] => false
  | [], _ :: _ => true
  | a :: as, b :: bs => if a < b then true else if b < a then false else codeUnitsLt as bs

/-- The operator `a < b`: two strings are compared as text, by code units; otherwise both
sides are converted to numbers, and the test is false when one of them is no number. -/
def jsLess (numberOf : String → Option ℚ) (a b : JsScalar) : Bool :=
  match a, b with
  | .str s, .str t => codeUnitsLt (s.data.flatMap utf16Units) (t.data.flatMap utf16Units)
  | _, _ =>
    match a.toNumber numberOf, b.toNumber numberOf with
    | some x, some y => decide (x < y)
    | _, _ => false

/-- The operator `a - b`, which converts both sides to numbers; `none` is `NaN`. -/
def jsMinus (numberOf : String → Option ℚ) (a b : JsScalar) : Option ℚ :=
  match a.toNumber numberOf, b.toNumber numberOf with
  | some x, some y => some (x - y)
  | _, _ => none

/-- One row as `calculateArbitrageOpportunities` receives it in JavaScript: a rate or a
price is a number or a string.  `FundingRow` is the row whose rates and prices are all
numbers. -/
structure ScalarRow where
  exchange : String
  symbol : String
  fundingRate : Option JsScalar
  rate : Option JsScalar
  fundingTimestamp : Option ℕ
  fundingDatetime : Option String
  markPrice : Option JsScalar
  indexPrice : Option JsScalar
deriving DecidableEq

/-- The object `normalizedRate` of `calculateArbitrageOpportunities` for a `ScalarRow`. -/
structure ScalarRate where
  exchange : String
  symbol : String
  fundingRate : Option JsScalar
  fundingTimestamp : Option ℕ
  fundingDatetime : Option String
  markPrice : Option JsScalar
  indexPrice : Option JsScalar
  rate : JsScalar
  nextFundingTime : Option ℕ
  nextFundingDatetime : Option String
deriving DecidableEq

/-- The object pushed by `calculateArbitrageOpportunities` (lines 56-76) for rows that
are `ScalarRow`s; a `rateDifference` of `none` is `NaN`. -/
structure ScalarOpportunity where
  symbol : String
  longExchange : String
  shortExchange : String
  longRate : JsScalar
  shortRate : JsScalar
  rateDifference : Option ℚ
  longExchangeNextFunding : Option ℕ
  longExchangeNextFundingDatetime : Option String
  shortExchangeNextFunding : Option ℕ
  shortExchangeNextFundingDatetime : Option String
  longExchangeData : ScalarRate
  shortExchangeData : ScalarRate
  longMarkPrice : Option JsScalar
  longIndexPrice : Option JsScalar
  shortMarkPrice : Option JsScalar
  shortIndexPrice : Option JsScalar
deriving DecidableEq

/-- The object `normalizedRate` built at lines 17-22, for a `ScalarRow`. -/
def Scalar.normalizeRate (r : ScalarRow) : ScalarRate where
  exchange := r.exchange
  symbol := r.symbol
  fundingRate := r.fundingRate
  fundingTimestamp := r.fundingTimestamp
  fundingDatetime := r.fundingDatetime
  markPrice := r.markPrice
  indexPrice := r.indexPrice
  rate := firstTruthy [r.fundingRate, r.rate]
  nextFundingTime := jsOrNullNat r.fundingTimestamp
  nextFundingDatetime := jsOrNullStr r.fundingDatetime

/-- The first `forEach` (lines 12-24) on `ScalarRow`s. -/
def Scalar.symbolMap (fundingRates : List ScalarRow) : List (String × List ScalarRate) :=
  fundingRates.foldl (fun m r => mapPush m r.symbol (Scalar.normalizeRate r)) []

/-- The body of the inner loop (lines 32-76): the subtraction of line 34 converts the two
rates to numbers, the comparison of line 40 does not when both are strings. -/
def Scalar.pairOpportunity (numberOf : String → Option ℚ) (symbol : String)
    (rate1 rate2 : ScalarRate) : ScalarOpportunity :=
  let rateDifference := jsMinus numberOf rate1.rate rate2.rate
  let long := if jsLess numberOf rate1.rate rate2.rate then rate1 else rate2
  let short := if jsLess numberOf rate1.rate rate2.rate then rate2 else rate1
  { symbol := symbol
    longExchange := long.exchange
    shortExchange := short.exchange
    longRate := long.rate
    shortRate := short.rate
    rateDifference := rateDifference.map (fun d => |d|)
    longExchangeNextFunding := long.nextFundingTime
    longExchangeNextFundingDatetime := long.nextFundingDatetime
    shortExchangeNextFunding := short.nextFundingTime
    shortExchangeNextFundingDatetime := short.nextFundingDatetime
    longExchangeData := long
    shortExchangeData := short
    longMarkPrice := long.markPrice
    longIndexPrice := long.indexPrice
    shortMarkPrice := short.markPrice
    shortIndexPrice := short.indexPrice }

/-- The two nested loops (lines 30-78) on `ScalarRate`s. -/
def Scalar.pairLoop (numberOf : String → Option ℚ) (symbol : String) :
    List ScalarRate → List ScalarOpportunity
  | [] => []
  | rate1 :: rest =>
    rest.map (Scalar.pairOpportunity numberOf symbol rate1)
      ++ Scalar.pairLoop numberOf symbol rest

/-- The callback of `symbolMap.forEach` (lines 27-79) for one entry of `ScalarRate`s. -/
def Scalar.groupOpportunities (numberOf : String → Option ℚ)
    (entry : String × List ScalarRate) : List ScalarOpportunity :=
  if entry.2.length < 2 then [] else Scalar.pairLoop numberOf entry.1 entry.2

/-- The array `opportunities` when the second `forEach` has finished, for `ScalarRow`s. -/
def Scalar.pairCandidates (numberOf : String → Option ℚ) (fundingRates : List ScalarRow) :
    List ScalarOpportunity :=
  (Scalar.symbolMap fundingRates).flatMap (Scalar.groupOpportunities numberOf)

/-- The test "the comparator `(a, b) => b - a` does not put `b` before `a`": its value
is not positive, a value of `NaN` counting as `+0`. -/
def Scalar.staysBefore (a b : Option ℚ) : Bool :=
  match a, b with
  | some x, some y => decide (y ≤ x)
  | _, _ => true

/-- The method `xs.sort((a, b) => key b - key a)` for keys that may be `NaN`.  With a
`NaN` among the keys the comparator is not consistent and ECMAScript leaves the order to
the implementation; the order given here is that of a stable insertion sort. -/
def Scalar.sortDesc {α : Type} (key : α → Option ℚ) (xs : List α) : List α :=
  List.insertionSort (fun a b => Scalar.staysBefore (key a) (key b) = true) xs

/-- The function `calculateArbitrageOpportunities(fundingRates, limit = 10)` on rows as
JavaScript holds them, `numberOf` giving the number a string spells.  The definition of
the same name on `FundingRow`s is this function on rows whose rates are numbers. -/
def Scalar.calculateArbitrageOpportunities (numberOf : String → Option ℚ)
    (fundingRates : List ScalarRow) (limit : Option ℚ) : List ScalarOpportunity :=
  sliceFromZero
    (Scalar.sortDesc ScalarOpportunity.rateDifference
      (Scalar.pairCandidates numberOf fundingRates))
    (limit.getD 10)

/-- The row `{...rate, symbol: rate.baseToken}` handed to the detector (lines 183-186):
the fields of the aggregated rate as they are, a string in a rate or price included. -/
def detectorRow (rate : AggregatedRate) : ScalarRow :=
  { exchange := rate.exchange
    symbol := rate.baseToken
    fundingRate := some rate.fundingRate
    rate := none
    fundingTimestamp := some rate.fundingTimestamp
    fundingDatetime := some rate.fundingDatetime
    markPrice := some rate.markPrice
    indexPrice := some rate.indexPrice }

/-- The object that `fetchFundingRates` returns. -/
structure FetchResult where
  fundingRates : List AggregatedRate
  arbitrageOpportunities : List ScalarOpportunity
  lastUpdated : String
  exchangeNames : List String
deriving DecidableEq

/-- The function `fetchFundingRates(enabledExchanges)`; its `catch` logs and throws
again. -/
def fetchFundingRates (env : AggregatorEnv) (enabledExchanges : List String) :
    Except String FetchResult :=
  match mergeRates env [] enabledExchanges with
  | .error m => .error m
  | .ok allRates =>
    .ok { fundingRates := allRates
          arbitrageOpportunities :=
            Scalar.calculateArbitrageOpportunities env.numberOf (allRates.map detectorRow) none
          lastUpdated := env.isoNow
          exchangeNames := enabledExchanges }

/-- The rows an enabled exchange contributes when its promise holds a mapping. -/
def contributedRates (env : AggregatorEnv) (exchange : String) : List AggregatedRate :=
  match ratePromise env exchange with
  | .fulfilled (some value) => value.map (normalizeAggregated env exchange)
  | _ => []


/-! ## `components/OpenPositions.js`: the grouping of `fetchOpenPositions` -/

/-- One element of `groupedPositions` (lines 36-41). -/
structure PositionGroup where
  baseSymbol : String
  long : Option Position
  short : Option Position
  hasHedge : Bool
deriving DecidableEq

/-- The `reduce` of lines 23-30 on the positions still to come, `acc` being the own
properties of the accumulator so far.  As in `symbolGroupsFrom`, a key that names a
member of `Object.prototype` makes the call of `push` throw. -/
def positionsBySymbolFrom (acc : List (String × List Position)) :
    List Position → Except String (List (String × List Position))
  | [] => .ok acc
  | pos :: rest =>
    if beforeFirst '/' pos.symbol ∈ objectPrototypeKeys then
      .error "TypeError: acc[baseSymbol].push is not a function"
    else positionsBySymbolFrom (mapPush acc (beforeFirst '/' pos.symbol) pos) rest

/-- The callback of `Object.entries(positionsBySymbol).map` (lines 33-42). -/
def toPositionGroup (entry : String × List Position) : PositionGroup :=
  { baseSymbol := entry.1
    long := entry.2.find? (fun p => decide (p.side = "long"))
    short := entry.2.find? (fun p => decide (p.side = "short"))
    hasHedge := (entry.2.find? (fun p => decide (p.side = "long"))).isSome &&
      (entry.2.find? (fun p => decide (p.side = "short"))).isSome }

/-- The value handed to `setPositions` by `fetchOpenPositions` for the positions of a
successful response; an `error` is an exception, which the function catches and logs
without setting the state. -/
def groupOpenPositions (positions : List Position) : Except String (List PositionGroup) :=
  match positionsBySymbolFrom [] (positions.filter (fun pos => decide (0 < pos.contracts))) with
  | .error e => .error e
  | .ok positionsBySymbol => .ok ((objectEntries positionsBySymbol).map toPositionGroup)


/-! ## `api/data/route.js`: the snapshot cache -/

/-- One element of `normalizedFundingRates` (lines 59-69); a numeric field of `none` is
`NaN`. -/
structure SnapshotRate where
  baseSymbol : String
  symbol : String
  markPrice : Option ℚ
  indexPrice : Option ℚ
  fundingRate : Option ℚ
  fundingTimestamp : ℕ
  fundingDatetime : String
  interval : String
  exchange : String
deriving DecidableEq

/-- One element of `arbitrageOpportunities` of the snapshot (lines 87-92): the
opportunity of the pipeline spread into the object, with `shortRate`, `longRate` and
`rateDifference` replaced; a rate of `none` is `NaN`. -/
structure SnapshotOpportunity where
  opp : ScalarOpportunity
  shortRate : Option ℚ
  longRate : Option ℚ
  rateDifference : ℚ
deriving DecidableEq

/-- The object `data` (lines 77-102). -/
structure Snapshot where
  lastUpdated : ℕ
  fundingRates : List SnapshotRate
  arbitrageOpportunities : List SnapshotOpportunity
  exchangeNames : List String
  autoExecuteEnabled : Bool
  arbitrageThreshold : Option ℚ
  arbitrageExecuted : Bool
deriving DecidableEq

/-- The module-level constants read from the environment: `enabledExchanges`,
`EXCHANGE_NAMES`, `AUTO_EXECUTE` and `ARBITRAGE_THRESHOLD`. -/
structure DataConfig where
  enabledExchanges : List String
  exchangeNames : List String
  autoExecute : Bool
  arbitrageThreshold : Option ℚ

/-- The module-level variables `cachedData` and `lastUpdateTime`. -/
structure CacheSlot where
  cachedData : Option Snapshot
  lastUpdateTime : ℕ
deriving DecidableEq

/-- The response of the data route. -/
inductive DataResponse where
  | json (data : Snapshot)
  | failure (status : ℕ) (error : String)
deriving DecidableEq

/-- The response, the cache slot after the request, and whether the pipeline
`fetchFundingRates` was run. -/
structure DataResult where
  response : DataResponse
  slot : CacheSlot
  fetched : Bool
deriving DecidableEq

/-- The constant `CACHE_DURATION`, in milliseconds. -/
def CACHE_DURATION : ℤ := 60 * 1000

/-- The expression `s || 'unknown'`. -/
def orUnknown (s : String) : String :=
  if s = "" then "unknown" else s

/-- The expression `Number(v || 0)` for a number or string `v`. -/
def numberOrZero (numberOf : String → Option ℚ) (v : JsScalar) : Option ℚ :=
  if v.truthy then v.toNumber numberOf else some 0

/-- The callback of `fundingRates.map` (lines 42-74).  The rows of `fetchFundingRates`
have no `info`, so the second object is built. -/
def snapshotRate (env : AggregatorEnv) (rate : AggregatedRate) : SnapshotRate :=
  { baseSymbol := orUnknown (extractBaseToken rate.symbol)
    symbol := orUnknown rate.symbol
    markPrice := numberOrZero env.numberOf rate.markPrice
    indexPrice := numberOrZero env.numberOf rate.indexPrice
    fundingRate := numberOrZero env.numberOf rate.fundingRate
    fundingTimestamp := if rate.fundingTimestamp = 0 then env.now else rate.fundingTimestamp
    fundingDatetime := if rate.fundingDatetime = "" then env.isoNow else rate.fundingDatetime
    interval := if rate.interval = "" then "8h" else rate.interval
    exchange := orUnknown rate.exchange }

/-- The callback of `arbitrageOpportunities.map` (lines 81-97):
`Number(opp.rateDifference) || Math.abs(shortRate - longRate)` keeps a `rateDifference`
that is a number other than 0, and `isFinite(rateDiff) ? rateDiff : 0` turns `NaN`
into 0. -/
def snapshotOpportunity (env : AggregatorEnv) (opp : ScalarOpportunity) :
    SnapshotOpportunity :=
  let shortRate := numberOrZero env.numberOf opp.shortRate
  let longRate := numberOrZero env.numberOf opp.longRate
  let absolute : Option ℚ :=
    match shortRate, longRate with
    | some s, some l => some |s - l|
    | _, _ => none
  let rateDiff : Option ℚ :=
    match opp.rateDifference with
    | some d => if d = 0 then absolute else some d
    | none => absolute
  { opp := opp, shortRate := shortRate, longRate := longRate,
    rateDifference := rateDiff.getD 0 }

/-- The object `data` built from the result of the pipeline at the time `now`. -/
def buildSnapshot (config : DataConfig) (env : AggregatorEnv) (now : ℕ) (r : FetchResult) :
    Snapshot :=
  { lastUpdated := now
    fundingRates := r.fundingRates.map (snapshotRate env)
    arbitrageOpportunities := r.arbitrageOpportunities.map (snapshotOpportunity env)
    exchangeNames := config.exchangeNames
    autoExecuteEnabled := config.autoExecute
    arbitrageThreshold := config.arbitrageThreshold
    arbitrageExecuted := false }

/-- The part of `GET` after the cache test (lines 38-115). -/
def refreshSnapshot (config : DataConfig) (env : AggregatorEnv) (slot : CacheSlot)
    (now : ℕ) : DataResult :=
  match fetchFundingRates env config.enabledExchanges with
  | .error _ => { response := .failure 500 "获取数据时发生错误", slot := slot, fetched := true }
  | .ok r =>
    { response := .json (buildSnapshot config env now r)
      slot := { cachedData := some (buildSnapshot config env now r), lastUpdateTime := now }
      fetched := true }

/-- The handler `GET(request)` of the data route: `slot` is the cache before the
request, `forceRefresh` whether the URL says `refresh=true`, `now` what `Date.now()`
returns. -/
def GET (config : DataConfig) (env : AggregatorEnv) (slot : CacheSlot) (forceRefresh : Bool)
    (now : ℕ) : DataResult :=
  match slot.cachedData with
  | some cachedData =>
    if (now : ℤ) - (slot.lastUpdateTime : ℤ) < CACHE_DURATION ∧ forceRefresh = false then
      { response := .json cachedData, slot := slot, fetched := false }
    else refreshSnapshot config env slot now
  | none => refreshSnapshot config env slot now


/-! ## `exchangeFactory.js`: the enabled exchange list `EXCHANGE_NAMES` -/

/-- The method `split(sep)` for a one-character separator, on the characters of the
string: the empty string gives one empty piece. -/
def jsSplitChars (sep : Char) : List Char → List (List Char)
  | [] => [[]]
  | c :: cs =>
    if c = sep then [] :: jsSplitChars sep cs
    else
      match jsSplitChars sep cs with
      | [] => [[c]]
      | first :: rest => (c :: first) :: rest

/-- The method `s.split(sep)` for a one-character separator. -/
def jsSplit (sep : Char) (s : String) : List String :=
  (jsSplitChars sep s.data).map String.mk

/-- The expression `a || b` for an array `a`: an array is truthy, also when it is empty,
so the result is always `a`. -/
def jsOrArray {α : Type} (a _b : List α) : List α :=
  a

/-- The constant `defaultExchanges` (line 9). -/
def defaultExchanges : List String :=
  ["hyperliquid", "gate", "bitget"]

/-- The constant `EXCHANGE_NAMES` (lines 10-13), `enabled` being the environment variable
`ENABLED_EXCHANGES`, `none` when it is unset. -/
def EXCHANGE_NAMES (enabled : Option String) : List String :=
  jsOrArray
    (((jsSplit ',' (enabled.getD "")).filter
        (fun name => decide (name ≠ ""))).map (fun name => (toLowerCase name).trim))
    defaultExchanges


/-! ## `exchangeFactory.js`: `getAllExchangeApis`, and the position routes -/

/-- The assignment `o[k] = v` on the own properties of a plain object whose key is not
`__proto__`: an existing key keeps its place. -/
def objectSet {β : Type} (o : List (String × β)) (k : String) (v : β) : List (String × β) :=
  match o with
  | [] => [(k, v)]
  | (k', v') :: rest => if k' = k then (k', v) :: rest else (k', v') :: objectSet rest k v

/-- The assignment `o[k] = v` on a plain object: under the key `__proto__` it reaches the
setter inherited from `Object.prototype` and creates no own property. -/
def objectAssign {β : Type} (o : List (String × β)) (k : String) (v : β) :
    List (String × β) :=
  if k = "__proto__" then o else objectSet o k v

/-- The `reduce` of `getAllExchangeApis` on the names still to come. -/
def getAllExchangeApisFrom (apis : List (String × ApiHandle)) :
    List String → Except String (List (String × ApiHandle))
  | [] => .ok apis
  | name :: rest =>
    match getExchangeApi (some name) with
    | .error m => .error m
    | .ok api => getAllExchangeApisFrom (objectAssign apis name api) rest

/-- The function `getAllExchangeApis()`, `exchangeNames` being `EXCHANGE_NAMES`. -/
def getAllExchangeApis (exchangeNames : List String) :
    Except String (List (String × ApiHandle)) :=
  getAllExchangeApisFrom [] exchangeNames

/-- The surroundings of the position routes: the enabled names, what `getPositions()`
of each adapter answers, and the venue behind each adapter. -/
structure RoutesEnv where
  exchangeNames : List String
  getPositions : ExchangeId → Except String (List Position)
  venue : ExchangeId → Venue

/-- The call `api.getPositions()` on what `getAllExchangeApis` holds under a name. -/
def getPositionsOf (env : RoutesEnv) : ApiHandle → Except String (List Position)
  | .adapter id => env.getPositions id
  | .prototypeMember _ => .error "api.getPositions is not a function"

/-- The expression `positions.map(position => ((...position, exchange: exchangeName)))`. -/
def tagPositions (exchangeName : String) (positions : List Position) : List Position :=
  positions.map (fun position => { position with exchange := some exchangeName })

/-- The response of `GET /api/positions`. -/
inductive PositionsResponse where
  | success (positions : List Position)
  | failure (status : ℕ) (error : String)
deriving DecidableEq

/-- The callback of `Object.entries(exchangeApis).map` in the positions route: the
inner `catch` turns an exception into the empty list. -/
def positionsOfEntry (env : RoutesEnv) (entry : String × ApiHandle) : List Position :=
  match getPositionsOf env entry.2 with
  | .ok positions => tagPositions entry.1 positions
  | .error _ => []

/-- The handler `GET()` of `api/positions/route.js`. -/
def positionsGET (env : RoutesEnv) : PositionsResponse :=
  match getAllExchangeApis env.exchangeNames with
  | .error m => .failure 500 m
  | .ok exchangeApis => .success ((objectEntries exchangeApis).flatMap (positionsOfEntry env))

/-- One call of `api.closeAllPositions(symbol)` made by a close-out route, with how its
promise settles. -/
structure CloseAttempt where
  exchange : String
  symbol : String
  outcome : Except String Unit
deriving DecidableEq

/-- The response of a close-out route. -/
inductive CloseResponse where
  | success (message : String)
  | failure (status : ℕ) (error : String)
deriving DecidableEq

/-- The response of a close-out route together with the closes it started, which the
response does not show. -/
structure CloseReport where
  response : CloseResponse
  attempts : List CloseAttempt
deriving DecidableEq

/-- The body of the `for` loop of the close-all route for one entry: one call of
`closeAllPositions` for each position with `contracts > 0`; an exception of
`getPositions` is caught and logged. -/
def closeAllOfEntry (env : RoutesEnv) (entry : String × ApiHandle) : List CloseAttempt :=
  match entry.2 with
  | .prototypeMember _ => []
  | .adapter id =>
    match env.getPositions id with
    | .error _ => []
    | .ok positions =>
      (positions.filter (fun position => decide (0 < position.contracts))).map
        (fun position =>
          { exchange := entry.1, symbol := position.symbol,
            outcome := (closeAllPositions id (env.venue id) position.symbol).1 })

/-- The handler `POST()` of `api/positions/close-all/route.js`: every close promise has
a `catch` that returns the error, so `Promise.all` never rejects. -/
def closeAllPOST (env : RoutesEnv) : CloseReport :=
  match getAllExchangeApis env.exchangeNames with
  | .error m => { response := .failure 500 m, attempts := [] }
  | .ok exchangeApis =>
    { response := .success "所有仓位已平仓"
      attempts := (objectEntries exchangeApis).flatMap (closeAllOfEntry env) }

/-- The body of a close-hedged request; a missing field is `none`. -/
structure CloseHedgedRequest where
  baseSymbol : Option String
  longSymbol : Option String
  shortSymbol : Option String
deriving DecidableEq

/-- The `for` loop of the close-hedged route on the entries still to come: the closes
started, and the exception that ended the loop if one did. -/
def closeHedgedLoop (env : RoutesEnv) (baseSymbol : String) :
    List (String × ApiHandle) → Option String × List CloseAttempt
  | [] => (none, [])
  | (exchangeName, api) :: rest =>
    match getPositionsOf env api with
    | .error m => (some m, [])
    | .ok positions =>
      match getExchangeSymbol (some baseSymbol) (some exchangeName) with
      | .error m => (some m, [])
      | .ok symbolToUse =>
        let started : List CloseAttempt :=
          if 0 < (positions.filter (fun pos => decide (pos.symbol = symbolToUse))).length then
            match api with
            | .adapter id =>
              [{ exchange := exchangeName, symbol := symbolToUse,
                 outcome := (closeAllPositions id (env.venue id) symbolToUse).1 }]
            | .prototypeMember _ => []
          else []
        ((closeHedgedLoop env baseSymbol rest).1,
          started ++ (closeHedgedLoop env baseSymbol rest).2)

/-- The reason with which `Promise.all(closePromises)` rejects, if it does. -/
def firstRejection : List CloseAttempt → Option String
  | [] => none
  | attempt :: rest =>
    match attempt.outcome with
    | .error m => some m
    | .ok _ => firstRejection rest

/-- The text of a field that is present and not empty, as the test `!field` needs it. -/
def truthyString (s : Option String) : Option String :=
  match s with
  | some x => if x = "" then none else some x
  | none => none

/-- The handler `POST(request)` of `api/positions/close-hedged/route.js`. -/
def closeHedgedPOST (env : RoutesEnv) (req : CloseHedgedRequest) : CloseReport :=
  match truthyString req.baseSymbol, truthyString req.longSymbol,
      truthyString req.shortSymbol with
  | some baseSymbol, some _, some _ =>
    match getAllExchangeApis env.exchangeNames with
    | .error m => { response := .failure 500 m, attempts := [] }
    | .ok exchangeApis =>
      match closeHedgedLoop env baseSymbol (objectEntries exchangeApis) with
      | (some m, attempts) => { response := .failure 500 m, attempts := attempts }
      | (none, attempts) =>
        match firstRejection attempts with
        | some m => { response := .failure 500 m, attempts := attempts }
        | none =>
          { response := .success (baseSymbol ++ " 的对冲仓位已平仓"), attempts := attempts }
  | _, _, _ => { response := .failure 500 "缺少必要的交易对参数", attempts := [] }


/-! ## Reference definitions for the statements -/

/-- The distinct elements of a list, each at the place of its first occurrence. -/
def firstAppearance : List String → List String
  | [] => []
  | k :: ks => k :: (firstAppearance ks).filter (fun x => x ≠ k)

/-- The rows of a symbol, in input order. -/
def rowsOf (rows : List FundingRow) (symbol : String) : List FundingRow :=
  rows.filter (fun r => r.symbol = symbol)

/-- Grouping by symbol, stated directly: one entry per distinct symbol, in order of
first appearance, holding that symbol's rows in input order. -/
def groupsBySymbol {β : Type} (f : FundingRow → β) (rows : List FundingRow) :
    List (String × List β) :=
  (firstAppearance (rows.map FundingRow.symbol)).map
    (fun k => (k, (rowsOf rows k).map f))

/-- The test "`o` is an opportunity of `symbol` between the exchanges `e1` and `e2`",
whichever of the two is the long side. -/
def isPairOf (symbol e1 e2 : String) (o : Opportunity) : Bool :=
  decide (o.symbol = symbol ∧
    ((o.longExchange = e1 ∧ o.shortExchange = e2) ∨
      (o.longExchange = e2 ∧ o.shortExchange = e1)))

/-- The name `getExchangeApi` knows an adapter by. -/
def ExchangeId.name : ExchangeId → String
  | .hyperliquid => "hyperliquid"
  | .gate => "gate"
  | .bitget => "bitget"

/-- The exchange-native symbol of a base token on an adapter, the token being converted
to a string as a template literal does. -/
def legSymbol (baseToken : Option String) : ExchangeId → String
  | .hyperliquid => jsString baseToken ++ "/USDC:USDC"
  | .gate => jsString baseToken ++ "/USDT:USDT"
  | .bitget => jsString baseToken ++ "/USDT:USDT"

/-- The arguments with which the route calls a leg on the adapter `id`. -/
def legCall (req : TradeIntent) (id : ExchangeId) : LegCall :=
  { symbol := legSymbol req.symbol id, positionSize := req.positionSize,
    leverage := req.leverage, slippagePercent := req.slippagePercent }


/-- Grouping by a key, stated directly: one entry per distinct key, in order of first
appearance, holding the elements of that key in input order. -/
def groupsByKey {α : Type} (key : α → String) (xs : List α) : List (String × List α) :=
  (firstAppearance (xs.map key)).map (fun k => (k, xs.filter (fun x => decide (key x = k))))

/-- The open positions of a base symbol: those with `contracts > 0` whose
`symbol.split('/')[0]` is the base symbol, in input order. -/
def openPositionsOf (positions : List Position) (baseSymbol : String) : List Position :=
  (positions.filter (fun pos => decide (0 < pos.contracts))).filter
    (fun pos => decide (beforeFirst '/' pos.symbol = baseSymbol))

/-- Longs on gate and on bitget, a short on hyperliquid, all of BTC. -/
def twoLongsOneShort : List Position :=
  [⟨"BTC/USDT:USDT", "long", 1, some "gate"⟩, ⟨"BTC/USDT:USDT", "long", 1, some "bitget"⟩,
   ⟨"BTC/USDC:USDC", "short", 2, some "hyperliquid"⟩]


/-- The adapter of a name, for the three names `getExchangeApi` binds. -/
def exchangeIdOfName? (name : String) : Option ExchangeId :=
  if name = "hyperliquid" then some .hyperliquid
  else if name = "gate" then some .gate
  else if name = "bitget" then some .bitget
  else none

/-- The positions an enabled name contributes to the positions route: those of its
adapter, tagged with the name, or none when the fetch throws. -/
def contributedPositions (env : RoutesEnv) (name : String) : List Position :=
  match exchangeIdOfName? name with
  | some id =>
    (match env.getPositions id with
      | .ok positions => tagPositions name positions
      | .error _ => [])
  | none => []


/-- The names under which `getAllExchangeApis` can hold something. -/
def bindableNames : List String :=
  objectPrototypeKeys ++ ["hyperliquid", "gate", "bitget"]

/-- What `getExchangeApi` answers for a bindable name. -/
def handleOf (name : String) : ApiHandle :=
  match getExchangeApi (some name) with
  | .ok api => api
  | .error _ => .prototypeMember name


/-- The test "this value is a number". -/
def JsScalar.isNum : JsScalar → Bool
  | .num _ => true
  | .str _ => false

/-- The test "no field of `rate.info` that the aggregator reads holds a string". -/
def infoHoldsNoString (rate : RawRate) : Bool :=
  match rate.info with
  | none => true
  | some info =>
    (info.markPx.all JsScalar.isNum) && (info.oraclePx.all JsScalar.isNum)
      && (info.funding.all JsScalar.isNum)

/-- The test "the `fundingRate` and the `rate` of the row are each absent or a number". -/
def ScalarRow.ratesAreNumbers (r : ScalarRow) : Bool :=
  (r.fundingRate.all JsScalar.isNum) && (r.rate.all JsScalar.isNum)


/-- The adapters of a scheduler as the settled view of the route has them: how each leg
settles, the rejection of the short leg coming first when it settles strictly earlier
than the long leg, `longTicks` and `shortTicks` being the two settling times. -/
def SchedulerEnv.settled (env : SchedulerEnv) (longTicks shortTicks : ℕ) : ExecuteEnv :=
  { executeLongOrder := fun id call => (env.executeLongOrder id call).outcome
    executeShortOrder := fun id call => (env.executeShortOrder id call).outcome
    shortSettlesFirst := decide (shortTicks < longTicks)
    isoNow := env.isoNow }


/-- A row of numbers as the `ScalarRow` it is in JavaScript. -/
def FundingRow.toScalar (r : FundingRow) : ScalarRow :=
  { exchange := r.exchange
    symbol := r.symbol
    fundingRate := r.fundingRate.map .num
    rate := r.rate.map .num
    fundingTimestamp := r.fundingTimestamp
    fundingDatetime := r.fundingDatetime
    markPrice := r.markPrice.map .num
    indexPrice := r.indexPrice.map .num }

/-- A normalized rate of numbers as a `ScalarRate`. -/
def NormalizedRate.toScalar (n : NormalizedRate) : ScalarRate :=
  { exchange := n.exchange
    symbol := n.symbol
    fundingRate := n.fundingRate.map .num
    fundingTimestamp := n.fundingTimestamp
    fundingDatetime := n.fundingDatetime
    markPrice := n.markPrice.map .num
    indexPrice := n.indexPrice.map .num
    rate := .num n.rate
    nextFundingTime := n.nextFundingTime
    nextFundingDatetime := n.nextFundingDatetime }

/-- An opportunity between rows of numbers as a `ScalarOpportunity`. -/
def Opportunity.toScalar (o : Opportunity) : ScalarOpportunity :=
  { symbol := o.symbol
    longExchange := o.longExchange
    shortExchange := o.shortExchange
    longRate := .num o.longRate
    shortRate := .num o.shortRate
    rateDifference := some o.rateDifference
    longExchangeNextFunding := o.longExchangeNextFunding
    longExchangeNextFundingDatetime := o.longExchangeNextFundingDatetime
    shortExchangeNextFunding := o.shortExchangeNextFunding
    shortExchangeNextFundingDatetime := o.shortExchangeNextFundingDatetime
    longExchangeData := o.longExchangeData.toScalar
    shortExchangeData := o.shortExchangeData.toScalar
    longMarkPrice := o.longMarkPrice.map .num
    longIndexPrice := o.longIndexPrice.map .num
    shortMarkPrice := o.shortMarkPrice.map .num
    shortIndexPrice := o.shortIndexPrice.map .num }


/-! ## Sample inputs -/

/-- A row that carries only an exchange, a symbol and a `fundingRate`. -/
def sampleRow (exchange symbol : String) (fundingRate : ℚ) : FundingRow :=
  { exchange := exchange, symbol := symbol, fundingRate := some fundingRate, rate := none,
    fundingTimestamp := none, fundingDatetime := none, markPrice := none, indexPrice := none }

/-- Symbol ETH on three exchanges with rates 0.0003, -0.0002 and 0.0001. -/
def ethRows : List FundingRow :=
  [sampleRow "A" "ETH" (3 / 10000), sampleRow "B" "ETH" (-2 / 10000),
   sampleRow "C" "ETH" (1 / 10000)]

/-- Symbol BTC on exchange A at 0.0001 and on exchange B at 0.0006. -/
def btcRows : List FundingRow :=
  [sampleRow "A" "BTC" (1 / 10000), sampleRow "B" "BTC" (6 / 10000)]

/-- What the exhaustive policy makes of two rows. -/
def samplePair (r1 r2 : FundingRow) : Opportunity :=
  pairOpportunity r1.symbol (normalizeRate r1) (normalizeRate r2)

/-- The opportunity of `btcRows` under the extremal policy, produced at time `0`. -/
def btcOpportunity : FilteredOpportunity :=
  { symbol := "BTC"
    rateDifference := 5 / 10000
    longExchange := "A"
    longRate := 1 / 10000
    longExchangeData := normalizeItem (sampleRow "A" "BTC" (1 / 10000))
    shortExchange := "B"
    shortRate := 6 / 10000
    shortExchangeData := normalizeItem (sampleRow "B" "BTC" (6 / 10000))
    timestamp := 0 }



/-- Two rows whose symbol names a member of `Object.prototype`. -/
def prototypeRows : List FundingRow :=
  [sampleRow "A" "constructor" (1 / 10000), sampleRow "B" "constructor" (6 / 10000)]

/-- Two rows of symbol BTC, both from the exchange gate. -/
def sameExchangeRows : List FundingRow :=
  [sampleRow "gate" "BTC" (1 / 10000), sampleRow "gate" "BTC" (3 / 10000)]

/-- Symbol BTC, then symbol 42, each on two exchanges with the same rate difference. -/
def tieRows : List FundingRow :=
  [sampleRow "A" "BTC" (1 / 10000), sampleRow "B" "BTC" (6 / 10000),
   sampleRow "A" "42" (1 / 10000), sampleRow "B" "42" (6 / 10000)]

/-- A request to go long BTC on gate and short on bitget. -/
def sampleIntent : TradeIntent :=
  { symbol := some "BTC", longExchange := some "gate", shortExchange := some "bitget",
    positionSize := some 100, leverage := some 2, slippagePercent := some (1 / 1000) }

/-- Both legs return an order. -/
def bothFilledEnv : ExecuteEnv :=
  { executeLongOrder := fun _ _ => .fulfilled (some ⟨"long-1"⟩)
    executeShortOrder := fun _ _ => .fulfilled (some ⟨"short-1"⟩)
    shortSettlesFirst := false
    isoNow := "2025-01-01T00:00:00.000Z" }

/-- The long leg returns an order, the order submission of the short leg throws. -/
def shortThrowsEnv : ExecuteEnv :=
  { executeLongOrder := fun _ _ => .fulfilled (some ⟨"long-1"⟩)
    executeShortOrder := fun _ _ => .rejected "insufficient margin"
    shortSettlesFirst := false
    isoNow := "2025-01-01T00:00:00.000Z" }

/-- Both legs throw, the short one first. -/
def bothThrowEnv : ExecuteEnv :=
  { executeLongOrder := fun _ _ => .rejected "request timeout"
    executeShortOrder := fun _ _ => .rejected "insufficient margin"
    shortSettlesFirst := true
    isoNow := "2025-01-01T00:00:00.000Z" }


/-- Three positions of one symbol: a long one, a flat one and a short one. -/
def samplePositions : List Position :=
  [⟨"BTC/USDT:USDT", "long", 3, none⟩, ⟨"BTC/USDT:USDT", "short", 0, none⟩,
   ⟨"BTC/USDT:USDT", "short", 2, none⟩]

/-- A venue that quotes 100, has contracts of size 1 with a minimum of 1, holds
`samplePositions` and accepts every call. -/
def acceptingVenue : Venue :=
  { market := fun _ => .ok ⟨some 1, some 1⟩
    fetchTicker := fun _ => .ok (some 100)
    setLeverage := fun _ _ => .ok ()
    fetchPositions := fun _ => .ok samplePositions
    createOrder := fun _ => .ok (some ⟨"order-1"⟩) }

/-- The order with which the base adapter closes a position at the current price `p`. -/
def baseCloseOrder (symbol : String) (p : ℚ) (pos : Position) : OrderRequest :=
  { symbol := symbol, orderType := "market", side := closingSide pos,
    amount := some pos.contracts,
    price := some (p * slippageMultiplier (closingSide pos) (1 / 1000)),
    reduceOnly := true, timeInForce := none }

/-- The order with which the gate adapter closes a position. -/
def gateCloseOrder (symbol : String) (pos : Position) : OrderRequest :=
  { symbol := symbol, orderType := "market", side := closingSide pos,
    amount := some pos.contracts, price := none, reduceOnly := true,
    timeInForce := some "IOC" }


/-- A raw rate that carries only a symbol and a `fundingRate`. -/
def sampleRawRate (symbol : String) (fundingRate : ℚ) : RawRate :=
  { symbol := symbol, markPrice := none, indexPrice := none,
    fundingRate := some fundingRate, rate := none, info := none,
    fundingTimestamp := none, fundingDatetime := none, interval := none }

/-- A venue with loaded markets whose batch call answers one BTC rate. -/
def answeringRatesVenue : RatesVenue :=
  { marketsLoaded := true, loadMarkets := .ok (), swapSymbols := ["BTC/USDT:USDT"],
    hasFetchFundingRates := true,
    fetchFundingRates := .ok [sampleRawRate "BTC/USDT:USDT" (1 / 10000)] }

/-- A venue with loaded markets whose batch call fails. -/
def failingRatesVenue : RatesVenue :=
  { marketsLoaded := true, loadMarkets := .ok (), swapSymbols := ["BTC/USDT:USDT"],
    hasFetchFundingRates := true, fetchFundingRates := .error "request timeout" }

/-- The batch call of gate fails, the other venues answer. -/
def gateDownEnv : AggregatorEnv :=
  { rates := fun id => match id with
      | .gate => failingRatesVenue
      | _ => answeringRatesVenue
    now := 1700000000000, isoNow := "2025-01-01T00:00:00.000Z", numberOf := fun _ => none }

/-- The batch call of bitget fails, the other venues answer. -/
def bitgetDownEnv : AggregatorEnv :=
  { rates := fun id => match id with
      | .bitget => failingRatesVenue
      | _ => answeringRatesVenue
    now := 1700000000000, isoNow := "2025-01-01T00:00:00.000Z", numberOf := fun _ => none }


/-- The configuration with gate and bitget enabled. -/
def sampleConfig : DataConfig :=
  { enabledExchanges := ["gate", "bitget"], exchangeNames := ["gate", "bitget"],
    autoExecute := false, arbitrageThreshold := some (5 / 10000) }

/-- Every venue answers one BTC rate. -/
def allUpEnv : AggregatorEnv :=
  { rates := fun _ => answeringRatesVenue
    now := 1700000060000, isoNow := "2025-01-01T00:00:00.000Z", numberOf := fun _ => none }

/-- A snapshot without rows, produced at the time 1700000000000. -/
def emptySnapshot : Snapshot :=
  { lastUpdated := 1700000000000, fundingRates := [], arbitrageOpportunities := [],
    exchangeNames := ["gate", "bitget"], autoExecuteEnabled := false,
    arbitrageThreshold := some (5 / 10000), arbitrageExecuted := false }

/-- The cache holding `emptySnapshot`. -/
def filledSlot : CacheSlot :=
  { cachedData := some emptySnapshot, lastUpdateTime := 1700000000000 }


/-- A venue like `acceptingVenue` that rejects every order of 3 contracts. -/
def rejectingVenue : Venue :=
  { market := fun _ => .ok ⟨some 1, some 1⟩
    fetchTicker := fun _ => .ok (some 100)
    setLeverage := fun _ _ => .ok ()
    fetchPositions := fun _ => .ok samplePositions
    createOrder := fun req =>
      if req.amount = some 3 then .error "order rejected" else .ok (some ⟨"order-1"⟩) }

/-- Gate and bitget enabled; the position fetch of gate throws, bitget reports
`samplePositions` and its venue rejects the close of the long position. -/
def troubledRoutesEnv : RoutesEnv :=
  { exchangeNames := ["gate", "bitget"]
    getPositions := fun id => match id with
      | .gate => .error "request timeout"
      | _ => .ok samplePositions
    venue := fun _ => rejectingVenue }

/-- Gate and bitget enabled, both reporting `samplePositions` on `acceptingVenue`. -/
def calmRoutesEnv : RoutesEnv :=
  { exchangeNames := ["gate", "bitget"]
    getPositions := fun _ => .ok samplePositions
    venue := fun _ => acceptingVenue }

/-- A request to close the hedge of BTC. -/
def sampleCloseRequest : CloseHedgedRequest :=
  { baseSymbol := some "BTC", longSymbol := some "BTC/USDT:USDT",
    shortSymbol := some "BTC/USDT:USDT" }


/-- A venue like `rejectingVenue` on which the rejected position comes second. -/
def laterRejectingVenue : Venue :=
  { rejectingVenue with
    fetchPositions := fun _ => .ok
      [⟨"BTC/USDT:USDT", "short", 2, none⟩, ⟨"BTC/USDT:USDT", "long", 3, none⟩,
       ⟨"BTC/USDT:USDT", "short", 1, none⟩] }


/-- Only bitget enabled, reporting `samplePositions`, on the venue that rejects the
close of the long position. -/
def swallowingRoutesEnv : RoutesEnv :=
  { exchangeNames := ["bitget"]
    getPositions := fun _ => .ok samplePositions
    venue := fun _ => rejectingVenue }


/-- A raw rate as hyperliquid answers it when funding is zero: the parsed `fundingRate`
is the number 0 and the raw `info` holds the text of the venue. -/
def zeroFundingRawRate : RawRate :=
  { symbol := "BTC/USDC:USDC", markPrice := some 100, indexPrice := some 100,
    fundingRate := some 0, rate := none,
    info := some { markPx := some (.str "100.0"), oraclePx := some (.str "100.0"),
                   funding := some (.str "0.0") },
    fundingTimestamp := none, fundingDatetime := none, interval := none }

/-- The venue of hyperliquid answers `zeroFundingRawRate`. -/
def zeroFundingEnv : AggregatorEnv :=
  { rates := fun _ =>
      { marketsLoaded := true, loadMarkets := .ok (), swapSymbols := ["BTC/USDC:USDC"],
        hasFetchFundingRates := true, fetchFundingRates := .ok [zeroFundingRawRate] }
    now := 1700000000000, isoNow := "2025-01-01T00:00:00.000Z", numberOf := fun _ => none }


/-- What `fetchFundingRates` returns in `allUpEnv` with gate alone enabled. -/
def gateOnlyResult : FetchResult :=
  { fundingRates :=
      [{ baseToken := "BTC", symbol := "BTC/USDT:USDT", exchange := "gate",
         markPrice := .num 0, indexPrice := .num 0, fundingRate := .num (1 / 10000),
         fundingTimestamp := 1700000060000, fundingDatetime := "2025-01-01T00:00:00.000Z",
         interval := "8h" }]
    arbitrageOpportunities := []
    lastUpdated := "2025-01-01T00:00:00.000Z"
    exchangeNames := ["gate"] }


/-- The long leg never settles; the short leg returns an order after 5 ticks. -/
def longHangsEnv : SchedulerEnv :=
  { executeLongOrder := fun _ _ => ⟨none, .fulfilled (some ⟨"long-1"⟩)⟩
    executeShortOrder := fun _ _ => ⟨some 5, .fulfilled (some ⟨"short-1"⟩)⟩
    isoNow := "2025-01-01T00:00:00.000Z" }

/-- The long leg returns an order after 7 ticks, the short leg after 5. -/
def bothSettleEnv : SchedulerEnv :=
  { executeLongOrder := fun _ _ => ⟨some 7, .fulfilled (some ⟨"long-1"⟩)⟩
    executeShortOrder := fun _ _ => ⟨some 5, .fulfilled (some ⟨"short-1"⟩)⟩
    isoNow := "2025-01-01T00:00:00.000Z" }


/-- Three symbols with rates that are multiples of 1/1024, so that every difference is
exact in binary floating point as well: ETH on three exchanges at 3/1024, 1/1024 and
-1/1024, BTC on two at 1/1024 and 5/1024, SOL on two at 1/1024 and 2/1024. -/
def dyadicRows : List FundingRow :=
  [sampleRow "A" "ETH" (3 / 1024), sampleRow "A" "BTC" (1 / 1024),
   sampleRow "B" "ETH" (1 / 1024), sampleRow "C" "ETH" (-1 / 1024),
   sampleRow "B" "BTC" (5 / 1024), sampleRow "A" "SOL" (1 / 1024),
   sampleRow "B" "SOL" (2 / 1024)]

/-- What `filterArbitrageOpportunities` returns for `dyadicRows` at the time 0. -/
def dyadicFiltered : List FilteredOpportunity :=
  (filterArbitrageOpportunities dyadicRows none 0).toOption.getD []

/-- The numbers that the texts `-0.25` and `-0.5` spell. -/
def sampleNumberOf (s : String) : Option ℚ :=
  if s = "-0.25" then some (-1 / 4) else if s = "-0.5" then some (-1 / 2) else none

/-- A row whose `fundingRate` is a text. -/
def textRow (exchange symbol text : String) : ScalarRow :=
  { exchange := exchange, symbol := symbol, fundingRate := some (.str text), rate := none,
    fundingTimestamp := none, fundingDatetime := none, markPrice := none, indexPrice := none }

/-- Symbol BTC on exchange A at the text `-0.25` and on exchange B at the text `-0.5`. -/
def textRows : List ScalarRow :=
  [textRow "A" "BTC" "-0.25", textRow "B" "BTC" "-0.5"]

/-- A raw rate without parsed numbers whose `info.funding` is a text. -/
def textRawRate (symbol text : String) : RawRate :=
  { symbol := symbol, markPrice := none, indexPrice := none, fundingRate := none,
    rate := none,
    info := some { markPx := none, oraclePx := none, funding := some (.str text) },
    fundingTimestamp := none, fundingDatetime := none, interval := none }

/-- Hyperliquid answers BTC with the funding text `-0.25`, the other venues with the
funding text `-0.5`. -/
def textFundingEnv : AggregatorEnv :=
  { rates := fun id => match id with
      | .hyperliquid =>
        { marketsLoaded := true, loadMarkets := .ok (), swapSymbols := ["BTC/USDC:USDC"],
          hasFetchFundingRates := true,
          fetchFundingRates := .ok [textRawRate "BTC/USDC:USDC" "-0.25"] }
      | _ =>
        { marketsLoaded := true, loadMarkets := .ok (), swapSymbols := ["BTC/USDT:USDT"],
          hasFetchFundingRates := true,
          fetchFundingRates := .ok [textRawRate "BTC/USDT:USDT" "-0.5"] }
    now := 1700000000000, isoNow := "2025-01-01T00:00:00.000Z", numberOf := sampleNumberOf }


/-! # Lemmas -/

/-! ## The descending stable sort -/

section SortDesc

variable {α : Type} (key : α → ℚ)

instance sortDesc_isTotal : IsTotal α (fun a b => key b ≤ key a) :=
  ⟨fun a b => le_total (key b) (key a)⟩

instance sortDesc_isTrans : IsTrans α (fun a b => key b ≤ key a) :=
  ⟨fun _ _ _ hab hbc => le_trans hbc hab⟩

theorem sortDesc_perm (xs : List α) : (sortDesc key xs).Perm xs :=
  List.perm_insertionSort _ xs

theorem mem_sortDesc {xs : List α} {x : α} : x ∈ sortDesc key xs ↔ x ∈ xs :=
  (sortDesc_perm key xs).mem_iff

theorem length_sortDesc (xs : List α) : (sortDesc key xs).length = xs.length :=
  (sortDesc_perm key xs).length_eq

theorem sortDesc_sorted (xs : List α) :
    (sortDesc key xs).Pairwise (fun a b => key b ≤ key a) :=
  List.sorted_insertionSort _ xs

/-- Inserting `a` leaves the elements of key `d` in place, `a` going in front of them
if its own key is `d`. -/
theorem filter_orderedInsert_key (d : ℚ) (a : α) (l : List α) :
    (List.orderedInsert (fun a b => key b ≤ key a) a l).filter (fun x => key x = d)
      = (a :: l).filter (fun x => key x = d) := by
  induction l with
  | nil => simp
  | cons b l ih =>
    by_cases h : key b ≤ key a
    · simp [List.orderedInsert, h]
    · have hlt : key a < key b := lt_of_not_le h
      simp only [List.orderedInsert, h, if_false]
      rw [List.filter_cons, ih]
      by_cases ha : key a = d
      · have hb : key b ≠ d := fun hb => by rw [ha, hb] at hlt; exact lt_irrefl _ hlt
        simp [List.filter_cons, ha, hb]
      · simp [List.filter_cons, ha]

/-- Stability: the elements of any one key keep their relative order. -/
theorem sortDesc_filter_key (d : ℚ) (xs : List α) :
    (sortDesc key xs).filter (fun x => key x = d) = xs.filter (fun x => key x = d) := by
  induction xs with
  | nil => rfl
  | cons a l ih =>
    show (List.orderedInsert _ a (List.insertionSort _ l)).filter _ = _
    rw [filter_orderedInsert_key, List.filter_cons, List.filter_cons]
    have ih' : (List.insertionSort (fun a b => key b ≤ key a) l).filter
        (fun x => key x = d) = l.filter (fun x => key x = d) := ih
    rw [ih']

/-- The first element of the sorted array has the largest key. -/
theorem sortDesc_head_max {xs : List α} {h : α} (hh : (sortDesc key xs).head? = some h) :
    h ∈ xs ∧ ∀ x ∈ xs, key x ≤ key h := by
  have hs := sortDesc_sorted key xs
  cases hl : sortDesc key xs with
  | nil => rw [hl] at hh; simp at hh
  | cons a l =>
    rw [hl] at hh hs
    simp only [List.head?_cons, Option.some.injEq] at hh
    subst hh
    have ha : a ∈ sortDesc key xs := by rw [hl]; exact List.mem_cons_self _ _
    refine ⟨(mem_sortDesc key).1 ha, fun x hx => ?_⟩
    have hx' : x ∈ a :: l := by rw [← hl]; exact (mem_sortDesc key).2 hx
    rcases List.mem_cons.1 hx' with rfl | hx''
    · exact le_refl _
    · exact List.rel_of_pairwise_cons hs hx''

/-- The last element of the sorted array has the smallest key. -/
theorem sortDesc_last_min {xs : List α} {m : α} (hm : (sortDesc key xs).getLast? = some m) :
    m ∈ xs ∧ ∀ x ∈ xs, key m ≤ key x := by
  have hs := sortDesc_sorted key xs
  obtain ⟨ys, hys⟩ := List.getLast?_eq_some_iff.1 hm
  rw [hys] at hs
  have hmem : m ∈ sortDesc key xs := by rw [hys]; simp
  refine ⟨(mem_sortDesc key).1 hmem, fun x hx => ?_⟩
  have hx' : x ∈ ys ++ [m] := by rw [← hys]; exact (mem_sortDesc key).2 hx
  rcases List.mem_append.1 hx' with hx'' | hx''
  · exact (List.pairwise_append.1 hs).2.2 x hx'' m (by simp)
  · simp only [List.mem_singleton] at hx''
    rw [hx'']

end SortDesc

/-! ## Grouping by symbol -/

theorem mem_firstAppearance {x : String} : ∀ {l : List String},
    x ∈ firstAppearance l ↔ x ∈ l
  | [] => by simp [firstAppearance]
  | k :: ks => by
    have ih := @mem_firstAppearance x ks
    by_cases h : x = k
    · simp [firstAppearance, h]
    · simp [firstAppearance, List.mem_filter, ih, h]

theorem nodup_firstAppearance : ∀ l : List String, (firstAppearance l).Nodup
  | [] => by simp [firstAppearance]
  | k :: ks => by
    have ih := nodup_firstAppearance ks
    simp only [firstAppearance, List.nodup_cons]
    exact ⟨by simp [List.mem_filter], ih.filter _⟩

theorem firstAppearance_append_singleton (k : String) : ∀ l : List String,
    firstAppearance (l ++ [k])
      = if k ∈ l then firstAppearance l else firstAppearance l ++ [k]
  | [] => by simp [firstAppearance]
  | a :: l => by
    have ih := firstAppearance_append_singleton k l
    by_cases hk : k ∈ l
    · rw [if_pos hk] at ih
      simp [firstAppearance, ih, hk]
    · rw [if_neg hk] at ih
      by_cases hka : k = a
      · subst hka
        simp [firstAppearance, ih, List.filter_append]
      · simp [firstAppearance, ih, hk, hka, List.filter_append]

theorem rowsOf_append_singleton (rows : List FundingRow) (r : FundingRow) (k : String) :
    rowsOf (rows ++ [r]) k = rowsOf rows k ++ (if r.symbol = k then [r] else []) := by
  by_cases h : r.symbol = k <;> simp [rowsOf, List.filter_append, h]

theorem rowsOf_eq_nil {rows : List FundingRow} {k : String}
    (h : k ∉ rows.map FundingRow.symbol) : rowsOf rows k = [] := by
  simp only [rowsOf, List.filter_eq_nil_iff]
  intro r hr
  simp only [decide_eq_true_eq]
  intro hk
  exact h (List.mem_map.2 ⟨r, hr, hk⟩)

/-- Pushing under a key that the map does not hold yet appends a fresh entry. -/
theorem mapPush_of_not_mem {β : Type} (k : String) (v : β) :
    ∀ m : List (String × List β), k ∉ m.map Prod.fst → mapPush m k v = m ++ [(k, [v])]
  | [], _ => rfl
  | (k', vs) :: rest, h => by
    have hne : k' ≠ k := fun e => h (by simp [e])
    have hrest : k ∉ rest.map Prod.fst := fun e => h (by simp at e ⊢; exact Or.inr e)
    simp [mapPush, hne, mapPush_of_not_mem k v rest hrest]

/-- Pushing under a key of a map given entry by entry extends that key's array. -/
theorem mapPush_map_of_mem {β : Type} (g : String → List β) (k : String) (v : β) :
    ∀ ks : List String, ks.Nodup → k ∈ ks →
      mapPush (ks.map (fun x => (x, g x))) k v
        = ks.map (fun x => (x, if x = k then g x ++ [v] else g x))
  | [], _, h => by simp at h
  | a :: ks, hnd, h => by
    have hnd' := List.nodup_cons.1 hnd
    by_cases hak : a = k
    · subst hak
      simp only [List.map_cons, mapPush, if_true, List.cons.injEq, true_and]
      apply List.map_congr_left
      intro x hx
      have hxa : x ≠ a := fun e => hnd'.1 (e ▸ hx)
      simp [hxa]
    · have hk : k ∈ ks := by
        rcases List.mem_cons.1 h with e | e
        · exact absurd e.symm hak
        · exact e
      simp [mapPush, hak, mapPush_map_of_mem g k v ks hnd'.2 hk]

/-- Adding one row at the end of the input pushes it under its symbol. -/
theorem groupsBySymbol_append_singleton {β : Type} (f : FundingRow → β)
    (rows : List FundingRow) (r : FundingRow) :
    groupsBySymbol f (rows ++ [r]) = mapPush (groupsBySymbol f rows) r.symbol (f r) := by
  unfold groupsBySymbol
  rw [List.map_append, List.map_singleton, firstAppearance_append_singleton]
  by_cases hk : r.symbol ∈ rows.map FundingRow.symbol
  · have hk' : r.symbol ∈ firstAppearance (rows.map FundingRow.symbol) :=
      mem_firstAppearance.2 hk
    rw [if_pos hk,
      mapPush_map_of_mem (fun k => (rowsOf rows k).map f) r.symbol (f r) _
        (nodup_firstAppearance _) hk']
    apply List.map_congr_left
    intro x _
    rw [rowsOf_append_singleton]
    by_cases hx : x = r.symbol
    · subst hx; simp
    · have hx' : ¬ r.symbol = x := fun e => hx e.symm
      simp [hx, hx']
  · rw [if_neg hk, mapPush_of_not_mem]
    · rw [List.map_append, List.map_singleton]
      congr 1
      · apply List.map_congr_left
        intro x hx
        have hx' : ¬ r.symbol = x := fun e => hk (e ▸ mem_firstAppearance.1 hx)
        rw [rowsOf_append_singleton]
        simp [hx']
      · rw [rowsOf_append_singleton, rowsOf_eq_nil hk]
        simp
    · simp only [List.map_map]
      intro hmem
      rcases List.mem_map.1 hmem with ⟨x, hx, hxe⟩
      simp only [Function.comp] at hxe
      exact hk (hxe ▸ mem_firstAppearance.1 hx)

/-- The `symbolMap` of `calculateArbitrageOpportunities` is the grouping by symbol. -/
theorem symbolMap_eq (rows : List FundingRow) :
    symbolMap rows = groupsBySymbol normalizeRate rows := by
  induction rows using List.reverseRecOn with
  | nil => rfl
  | append_singleton rows r ih =>
    rw [groupsBySymbol_append_singleton, ← ih]
    simp [symbolMap, List.foldl_append]

theorem symbolGroupsFrom_append_singleton (rows : List FundingRow) (r : FundingRow) :
    ∀ groups, symbolGroupsFrom groups (rows ++ [r])
      = match symbolGroupsFrom groups rows with
        | .error e => .error e
        | .ok g =>
          if r.symbol ∈ objectPrototypeKeys then
            .error "TypeError: symbolGroups[item.symbol].push is not a function"
          else .ok (mapPush g r.symbol (normalizeItem r)) := by
  induction rows with
  | nil => intro groups; simp [symbolGroupsFrom]
  | cons a rows ih =>
    intro groups
    by_cases ha : a.symbol ∈ objectPrototypeKeys
    · simp [symbolGroupsFrom, ha]
    · simp only [List.cons_append, symbolGroupsFrom, ha, if_false]
      exact ih _

/-- When no symbol names a member of `Object.prototype`, the first loop of
`filterArbitrageOpportunities` completes and `symbolGroups` is the grouping by symbol. -/
theorem symbolGroupsFrom_ok (rows : List FundingRow)
    (h : ∀ r ∈ rows, r.symbol ∉ objectPrototypeKeys) :
    symbolGroupsFrom [] rows = .ok (groupsBySymbol normalizeItem rows) := by
  induction rows using List.reverseRecOn with
  | nil => rfl
  | append_singleton rows r ih =>
    have h1 : ∀ x ∈ rows, x.symbol ∉ objectPrototypeKeys :=
      fun x hx => h x (List.mem_append_left _ hx)
    have h2 : r.symbol ∉ objectPrototypeKeys := h r (by simp)
    rw [symbolGroupsFrom_append_singleton, ih h1, groupsBySymbol_append_singleton]
    simp [h2]

/-- The first loop of `filterArbitrageOpportunities` completes only if no symbol names
a member of `Object.prototype`, and then `symbolGroups` is the grouping by symbol. -/
theorem symbolGroupsFrom_eq_ok {rows : List FundingRow}
    {g : List (String × List NormalizedItem)} (h : symbolGroupsFrom [] rows = .ok g) :
    (∀ r ∈ rows, r.symbol ∉ objectPrototypeKeys) ∧ g = groupsBySymbol normalizeItem rows := by
  induction rows using List.reverseRecOn generalizing g with
  | nil =>
    simp only [symbolGroupsFrom, Except.ok.injEq] at h
    exact ⟨by simp, h.symm⟩
  | append_singleton rows r ih =>
    rw [symbolGroupsFrom_append_singleton] at h
    cases hg : symbolGroupsFrom [] rows with
    | error e => rw [hg] at h; simp at h
    | ok g' =>
      rw [hg] at h
      obtain ⟨h1, h2⟩ := ih hg
      by_cases hr : r.symbol ∈ objectPrototypeKeys
      · simp [hr] at h
      · simp only [hr, if_false, Except.ok.injEq] at h
        refine ⟨?_, ?_⟩
        · intro x hx
          rcases List.mem_append.1 hx with hx | hx
          · exact h1 x hx
          · simp only [List.mem_singleton] at hx
            rw [hx]; exact hr
        · rw [groupsBySymbol_append_singleton, ← h2, h]

/-! ## Where an opportunity comes from -/

theorem mem_pairLoop {symbol : String} {o : Opportunity} :
    ∀ {rates : List NormalizedRate}, o ∈ pairLoop symbol rates →
      ∃ r1 r2, [r1, r2].Sublist rates ∧ o = pairOpportunity symbol r1 r2
  | [], h => by simp [pairLoop] at h
  | a :: rest, h => by
    simp only [pairLoop, List.mem_append, List.mem_map] at h
    rcases h with ⟨b, hb, rfl⟩ | h
    · exact ⟨a, b, List.Sublist.cons₂ a (List.singleton_sublist.2 hb), rfl⟩
    · obtain ⟨r1, r2, hs, ho⟩ := mem_pairLoop h
      exact ⟨r1, r2, List.Sublist.cons a hs, ho⟩

theorem sliceFromZero_initial_segment {α : Type} (xs : List α) (e : ℚ) :
    sliceFromZero xs e <+: xs := by
  unfold sliceFromZero
  simp only
  split
  · exact List.take_prefix _ _
  · exact List.take_prefix _ _

theorem calculate_initial_segment (rows : List FundingRow) (limit : Option ℚ) :
    calculateArbitrageOpportunities rows limit
      <+: sortDesc Opportunity.rateDifference (pairCandidates rows) :=
  sliceFromZero_initial_segment _ _

theorem mem_calculate {rows : List FundingRow} {limit : Option ℚ} {o : Opportunity}
    (h : o ∈ calculateArbitrageOpportunities rows limit) : o ∈ pairCandidates rows :=
  (mem_sortDesc _).1 ((calculate_initial_segment rows limit).subset h)

theorem mem_groupsBySymbol {β : Type} {f : FundingRow → β} {rows : List FundingRow}
    {entry : String × List β} :
    entry ∈ groupsBySymbol f rows ↔
      entry.1 ∈ rows.map FundingRow.symbol ∧ entry.2 = (rowsOf rows entry.1).map f := by
  unfold groupsBySymbol
  constructor
  · intro h
    obtain ⟨k, hk, rfl⟩ := List.mem_map.1 h
    exact ⟨mem_firstAppearance.1 hk, rfl⟩
  · rintro ⟨h1, h2⟩
    refine List.mem_map.2 ⟨entry.1, mem_firstAppearance.2 h1, ?_⟩
    rw [← h2]

/-- Every candidate of the exhaustive policy is the pair of two rows of one symbol,
the first of which comes earlier in the input. -/
theorem mem_pairCandidates {rows : List FundingRow} {o : Opportunity}
    (h : o ∈ pairCandidates rows) :
    ∃ k r1 r2, [r1, r2].Sublist (rowsOf rows k) ∧
      o = pairOpportunity k (normalizeRate r1) (normalizeRate r2) := by
  unfold pairCandidates at h
  rw [symbolMap_eq] at h
  obtain ⟨entry, he, ho⟩ := List.mem_flatMap.1 h
  obtain ⟨_, he2⟩ := mem_groupsBySymbol.1 he
  unfold groupOpportunities at ho
  split at ho
  · simp at ho
  · obtain ⟨n1, n2, hs, rfl⟩ := mem_pairLoop ho
    rw [he2] at hs
    obtain ⟨l, hl, hm⟩ := List.sublist_map_iff.1 hs
    match l, hm with
    | [r1, r2], hm =>
      simp only [List.map_cons, List.map_nil, List.cons.injEq, and_true] at hm
      exact ⟨entry.1, r1, r2, hl, by rw [hm.1, hm.2]⟩

theorem objectEntries_perm {β : Type} (o : List (String × β)) : (objectEntries o).Perm o := by
  unfold objectEntries
  refine List.Perm.trans (List.Perm.append_right _ (List.perm_insertionSort _ _)) ?_
  have h : (fun e : String × β => (arrayIndex? e.1).isNone)
      = (fun e => !(arrayIndex? e.1).isSome) := by
    funext e; cases arrayIndex? e.1 <;> rfl
  rw [h]
  exact List.filter_append_perm _ o

theorem mem_extremalOpportunity {threshold : ℚ} {now : ℕ}
    {entry : String × List NormalizedItem} {o : FilteredOpportunity}
    (h : o ∈ extremalOpportunity threshold now entry) :
    2 ≤ entry.2.length ∧ ∃ highest lowest,
      (sortDesc NormalizedItem.rate entry.2).head? = some highest ∧
      (sortDesc NormalizedItem.rate entry.2).getLast? = some lowest ∧
      threshold ≤ highest.rate - lowest.rate ∧
      o = { symbol := entry.1
            rateDifference := highest.rate - lowest.rate
            longExchange := lowest.exchange
            longRate := lowest.rate
            longExchangeData := lowest
            shortExchange := highest.exchange
            shortRate := highest.rate
            shortExchangeData := highest
            timestamp := now } := by
  unfold extremalOpportunity at h
  split at h
  · simp at h
  · rename_i hlen
    refine ⟨by omega, ?_⟩
    simp only at h
    split at h
    · rename_i highest lowest hh hl
      split at h
      · rename_i hthr
        simp only [List.mem_singleton] at h
        exact ⟨highest, lowest, hh, hl, hthr, h⟩
      · simp at h
    · simp at h

/-- Every opportunity the extremal policy returns is made of the largest-rate and the
smallest-rate row of its symbol. -/
theorem mem_filter {rows : List FundingRow} {threshold : Option ℚ} {now : ℕ}
    {opps : List FilteredOpportunity} {o : FilteredOpportunity}
    (h : filterArbitrageOpportunities rows threshold now = .ok opps) (ho : o ∈ opps) :
    ∃ hi lo, hi ∈ rowsOf rows o.symbol ∧ lo ∈ rowsOf rows o.symbol ∧
      (∀ r ∈ rowsOf rows o.symbol, normalizedRateOf r ≤ normalizedRateOf hi) ∧
      (∀ r ∈ rowsOf rows o.symbol, normalizedRateOf lo ≤ normalizedRateOf r) ∧
      2 ≤ (rowsOf rows o.symbol).length ∧
      threshold.getD (1 / 10000) ≤ normalizedRateOf hi - normalizedRateOf lo ∧
      o = { symbol := o.symbol
            rateDifference := normalizedRateOf hi - normalizedRateOf lo
            longExchange := lo.exchange
            longRate := normalizedRateOf lo
            longExchangeData := normalizeItem lo
            shortExchange := hi.exchange
            shortRate := normalizedRateOf hi
            shortExchangeData := normalizeItem hi
            timestamp := now } := by
  unfold filterArbitrageOpportunities at h
  split at h
  · simp at h
  · rename_i g hg
    simp only [Except.ok.injEq] at h
    subst h
    obtain ⟨_, rfl⟩ := symbolGroupsFrom_eq_ok hg
    have ho' := (mem_sortDesc _).1 ho
    obtain ⟨entry, he, hoe⟩ := List.mem_flatMap.1 ho'
    have he' := (objectEntries_perm _).mem_iff.1 he
    obtain ⟨_, he2⟩ := mem_groupsBySymbol.1 he'
    obtain ⟨hlen, highest, lowest, hh, hl, hthr, rfl⟩ := mem_extremalOpportunity hoe
    obtain ⟨hhm, hhmax⟩ := sortDesc_head_max _ hh
    obtain ⟨hlm, hlmin⟩ := sortDesc_last_min _ hl
    rw [he2] at hhm hhmax hlm hlmin hlen
    obtain ⟨hi, hhi, rfl⟩ := List.mem_map.1 hhm
    obtain ⟨lo, hlo, rfl⟩ := List.mem_map.1 hlm
    refine ⟨hi, lo, hhi, hlo, ?_, ?_, ?_, hthr, rfl⟩
    · intro r hr
      exact hhmax _ (List.mem_map.2 ⟨r, hr, rfl⟩)
    · intro r hr
      exact hlmin _ (List.mem_map.2 ⟨r, hr, rfl⟩)
    · simpa using hlen

/-! ## Counting the pairs of the exhaustive policy -/

theorem sliceFromZero_of_length_le {α : Type} (xs : List α) (e : ℚ)
    (h : (xs.length : ℚ) ≤ e) : sliceFromZero xs e = xs := by
  have he : (0 : ℚ) ≤ e := le_trans (Nat.cast_nonneg _) h
  have hfl : (xs.length : ℤ) ≤ ⌊e⌋ := Int.le_floor.2 (by exact_mod_cast h)
  have hnn : ¬ ⌊e⌋ < 0 := by
    have : (0 : ℤ) ≤ (xs.length : ℤ) := Int.natCast_nonneg _
    omega
  simp only [sliceFromZero, toIntegerOrInfinity, if_pos he, if_neg hnn]
  apply List.take_of_length_le
  omega

theorem isPairOf_pairOpportunity (s s' e1 e2 : String) (a b : NormalizedRate) :
    isPairOf s e1 e2 (pairOpportunity s' a b) = true ↔
      s' = s ∧ ((a.exchange = e1 ∧ b.exchange = e2) ∨ (a.exchange = e2 ∧ b.exchange = e1)) := by
  by_cases h : a.rate < b.rate
  · simp [isPairOf, pairOpportunity, h]
  · simp only [isPairOf, pairOpportunity, h, if_false, decide_eq_true_eq]
    tauto

theorem two_mul_length_pairLoop (symbol : String) : ∀ rates : List NormalizedRate,
    2 * (pairLoop symbol rates).length = rates.length * (rates.length - 1)
  | [] => rfl
  | a :: rest => by
    have ih := two_mul_length_pairLoop symbol rest
    simp only [pairLoop, List.length_append, List.length_map, List.length_cons,
      Nat.add_sub_cancel]
    rw [Nat.mul_add, ih]
    cases rest.length with
    | zero => rfl
    | succ n => simp only [Nat.add_sub_cancel]; ring

theorem length_pairLoop (symbol : String) (rates : List NormalizedRate) :
    (pairLoop symbol rates).length = rates.length * (rates.length - 1) / 2 := by
  rw [← two_mul_length_pairLoop symbol rates]
  omega

theorem symbol_of_mem_pairLoop {symbol : String} {rates : List NormalizedRate}
    {o : Opportunity} (h : o ∈ pairLoop symbol rates) : o.symbol = symbol := by
  obtain ⟨_, _, _, rfl⟩ := mem_pairLoop h
  rfl

theorem countP_exchange_eq_one (e : String) : ∀ rates : List NormalizedRate,
    (rates.map NormalizedRate.exchange).Nodup → e ∈ rates.map NormalizedRate.exchange →
      rates.countP (fun y => decide (y.exchange = e)) = 1
  | [], _, h => by simp at h
  | a :: rest, hnd, h => by
    simp only [List.map_cons, List.nodup_cons] at hnd
    by_cases ha : a.exchange = e
    · have h0 : rest.countP (fun y => decide (y.exchange = e)) = 0 := by
        rw [List.countP_eq_zero]
        intro y hy
        simp only [decide_eq_true_eq]
        intro hye
        exact hnd.1 (List.mem_map.2 ⟨y, hy, hye.trans ha.symm⟩)
      simp [List.countP_cons, ha, h0]
    · have he : e ∈ rest.map NormalizedRate.exchange := by
        simp only [List.map_cons, List.mem_cons] at h
        rcases h with h | h
        · exact absurd h.symm ha
        · exact h
      simp [List.countP_cons, ha, countP_exchange_eq_one e rest hnd.2 he]

/-- No pair of the loop involves an exchange that quotes no rate of the group. -/
theorem countP_pairLoop_eq_zero (s s' e1 e2 : String) (rates : List NormalizedRate)
    (h : e1 ∉ rates.map NormalizedRate.exchange ∨ e2 ∉ rates.map NormalizedRate.exchange) :
    (pairLoop s' rates).countP (isPairOf s e1 e2) = 0 := by
  rw [List.countP_eq_zero]
  intro o ho hp
  obtain ⟨a, b, hs, rfl⟩ := mem_pairLoop ho
  have ha : a ∈ rates := hs.subset (by simp)
  have hb : b ∈ rates := hs.subset (by simp)
  have hae := List.mem_map_of_mem NormalizedRate.exchange ha
  have hbe := List.mem_map_of_mem NormalizedRate.exchange hb
  rcases (isPairOf_pairOpportunity s s' e1 e2 a b).1 hp with ⟨_, ⟨h1, h2⟩ | ⟨h1, h2⟩⟩
  · rcases h with h | h
    · exact h (h1 ▸ hae)
    · exact h (h2 ▸ hbe)
  · rcases h with h | h
    · exact h (h2 ▸ hbe)
    · exact h (h1 ▸ hae)

/-- Within one group whose rates come from distinct exchanges, the loop produces exactly
one opportunity for two given exchanges of the group. -/
theorem countP_pairLoop_eq_one (s e1 e2 : String) (hne : e1 ≠ e2) :
    ∀ rates : List NormalizedRate, (rates.map NormalizedRate.exchange).Nodup →
      e1 ∈ rates.map NormalizedRate.exchange → e2 ∈ rates.map NormalizedRate.exchange →
      (pairLoop s rates).countP (isPairOf s e1 e2) = 1
  | [], _, h, _ => by simp at h
  | x :: rest, hnd, h1, h2 => by
    have hnd' : x.exchange ∉ rest.map NormalizedRate.exchange ∧
        (rest.map NormalizedRate.exchange).Nodup := by
      simpa only [List.map_cons, List.nodup_cons] using hnd
    simp only [List.map_cons, List.mem_cons] at h1 h2
    simp only [pairLoop, List.countP_append, List.countP_map]
    by_cases hx1 : x.exchange = e1
    · have h2' : e2 ∈ rest.map NormalizedRate.exchange := by
        rcases h2 with h2 | h2
        · exact absurd (hx1.symm.trans h2.symm) hne
        · exact h2
      have hfirst : rest.countP (isPairOf s e1 e2 ∘ pairOpportunity s x)
          = rest.countP (fun y => decide (y.exchange = e2)) := by
        apply List.countP_congr
        intro y _
        simp only [Function.comp, isPairOf_pairOpportunity, decide_eq_true_eq]
        constructor
        · rintro ⟨_, ⟨_, h⟩ | ⟨h, _⟩⟩
          · exact h
          · exact absurd (hx1.symm.trans h) hne
        · intro h
          exact ⟨trivial, Or.inl ⟨hx1, h⟩⟩
      rw [hfirst, countP_exchange_eq_one e2 rest hnd'.2 h2',
        countP_pairLoop_eq_zero s s e1 e2 rest (Or.inl (hx1 ▸ hnd'.1))]
    · by_cases hx2 : x.exchange = e2
      · have h1' : e1 ∈ rest.map NormalizedRate.exchange := by
          rcases h1 with h1 | h1
          · exact absurd h1.symm hx1
          · exact h1
        have hfirst : rest.countP (isPairOf s e1 e2 ∘ pairOpportunity s x)
            = rest.countP (fun y => decide (y.exchange = e1)) := by
          apply List.countP_congr
          intro y _
          simp only [Function.comp, isPairOf_pairOpportunity, decide_eq_true_eq]
          constructor
          · rintro ⟨_, ⟨h, _⟩ | ⟨_, h⟩⟩
            · exact absurd h hx1
            · exact h
          · intro h
            exact ⟨trivial, Or.inr ⟨hx2, h⟩⟩
        rw [hfirst, countP_exchange_eq_one e1 rest hnd'.2 h1',
          countP_pairLoop_eq_zero s s e1 e2 rest (Or.inr (hx2 ▸ hnd'.1))]
      · have h1' : e1 ∈ rest.map NormalizedRate.exchange := by
          rcases h1 with h1 | h1
          · exact absurd h1.symm hx1
          · exact h1
        have h2' : e2 ∈ rest.map NormalizedRate.exchange := by
          rcases h2 with h2 | h2
          · exact absurd h2.symm hx2
          · exact h2
        have hfirst : rest.countP (isPairOf s e1 e2 ∘ pairOpportunity s x) = 0 := by
          rw [List.countP_eq_zero]
          intro y _
          simp only [Function.comp, isPairOf_pairOpportunity]
          rintro ⟨_, ⟨h, _⟩ | ⟨h, _⟩⟩
          · exact hx1 h
          · exact hx2 h
        rw [hfirst, countP_pairLoop_eq_one s e1 e2 hne rest hnd'.2 h1' h2']

/-- Counting over all groups reduces to counting in the one group the predicate can
hold in. -/
theorem countP_flatMap_group {β γ : Type} (p : γ → Bool) (g : String × List β → List γ)
    (s : String) (hp : ∀ e : String × List β, e.1 ≠ s → ∀ o ∈ g e, ¬ p o = true) :
    ∀ m : List (String × List β), (m.map Prod.fst).Nodup →
      (∀ vs, (s, vs) ∈ m → (m.flatMap g).countP p = (g (s, vs)).countP p) ∧
      (s ∉ m.map Prod.fst → (m.flatMap g).countP p = 0)
  | [], _ => by simp
  | e :: m, hnd => by
    simp only [List.map_cons, List.nodup_cons] at hnd
    obtain ⟨ih1, ih2⟩ := countP_flatMap_group p g s hp m hnd.2
    simp only [List.flatMap_cons, List.countP_append]
    constructor
    · intro vs hvs
      rcases List.mem_cons.1 hvs with he | hm
      · subst he
        rw [ih2 hnd.1]
        simp
      · have hne : e.1 ≠ s := by
          intro he
          exact hnd.1 (List.mem_map.2 ⟨(s, vs), hm, he.symm⟩)
        have h0 : (g e).countP p = 0 := List.countP_eq_zero.2 (hp e hne)
        rw [h0, ih1 vs hm]
        simp
    · intro hs
      simp only [List.map_cons, List.mem_cons, not_or] at hs
      have h0 : (g e).countP p = 0 := List.countP_eq_zero.2 (hp e (fun he => hs.1 he.symm))
      rw [h0, ih2 hs.2]

theorem keys_groupsBySymbol {β : Type} (f : FundingRow → β) (rows : List FundingRow) :
    (groupsBySymbol f rows).map Prod.fst = firstAppearance (rows.map FundingRow.symbol) := by
  unfold groupsBySymbol
  rw [List.map_map]
  exact (List.map_congr_left (fun _ _ => rfl)).trans (List.map_id _)


theorem groupOpportunities_eq (entry : String × List NormalizedRate) :
    groupOpportunities entry = pairLoop entry.1 entry.2 := by
  unfold groupOpportunities
  split
  · rename_i h
    match hr : entry.2, h with
    | [], _ => rfl
    | [a], _ => rfl
    | _ :: _ :: _, h => simp at h; omega
  · rfl

theorem pairCandidates_eq (rows : List FundingRow) :
    pairCandidates rows
      = (groupsBySymbol normalizeRate rows).flatMap (fun e => pairLoop e.1 e.2) := by
  unfold pairCandidates
  rw [symbolMap_eq]
  congr 1
  funext e
  exact groupOpportunities_eq e

theorem calculate_eq_of_limit (rows : List FundingRow) (limit : ℚ)
    (h : ((pairCandidates rows).length : ℚ) ≤ limit) :
    calculateArbitrageOpportunities rows (some limit)
      = sortDesc Opportunity.rateDifference (pairCandidates rows) := by
  unfold calculateArbitrageOpportunities
  apply sliceFromZero_of_length_le
  rw [length_sortDesc]
  exact h

theorem mem_rowsOf {rows : List FundingRow} {k : String} {r : FundingRow} :
    r ∈ rowsOf rows k ↔ r ∈ rows ∧ r.symbol = k := by
  simp [rowsOf, List.mem_filter]

theorem map_exchange_normalizeRate (l : List FundingRow) :
    (l.map normalizeRate).map NormalizedRate.exchange = l.map FundingRow.exchange := by
  rw [List.map_map]
  exact List.map_congr_left (fun _ _ => rfl)

/-- When no (symbol, exchange) pair occurs twice, the rows of a symbol come from
distinct exchanges. -/
theorem nodup_exchange_rowsOf {rows : List FundingRow}
    (h : (rows.map (fun r => (r.symbol, r.exchange))).Nodup) (k : String) :
    ((rowsOf rows k).map FundingRow.exchange).Nodup := by
  have hsub : ((rowsOf rows k).map (fun r => (r.symbol, r.exchange))).Nodup :=
    h.sublist ((List.filter_sublist _).map _)
  have hmap := List.Nodup.map_on (f := Prod.snd) (l := (rowsOf rows k).map
      (fun r : FundingRow => (r.symbol, r.exchange))) ?_ hsub
  · rw [List.map_map] at hmap
    exact hmap
  · intro x hx y hy hxy
    obtain ⟨a, ha, rfl⟩ := List.mem_map.1 hx
    obtain ⟨b, hb, rfl⟩ := List.mem_map.1 hy
    have ha' := (mem_rowsOf.1 ha).2
    have hb' := (mem_rowsOf.1 hb).2
    simp only at hxy
    simp only [Prod.mk.injEq]
    exact ⟨ha'.trans hb'.symm, hxy⟩

theorem countP_pairCandidates_symbol (rows : List FundingRow) (symbol : String) :
    (pairCandidates rows).countP (fun o => decide (o.symbol = symbol))
      = (rowsOf rows symbol).length * ((rowsOf rows symbol).length - 1) / 2 := by
  rw [pairCandidates_eq]
  have hkeys := keys_groupsBySymbol normalizeRate rows
  obtain ⟨h1, h2⟩ := countP_flatMap_group (fun o : Opportunity => decide (o.symbol = symbol))
    (fun e : String × List NormalizedRate => pairLoop e.1 e.2) symbol
    (by
      intro e he o ho
      simp only [decide_eq_true_eq]
      rw [symbol_of_mem_pairLoop ho]
      exact he)
    (groupsBySymbol normalizeRate rows) (by rw [hkeys]; exact nodup_firstAppearance _)
  by_cases hs : symbol ∈ rows.map FundingRow.symbol
  · have hmem : (symbol, (rowsOf rows symbol).map normalizeRate)
        ∈ groupsBySymbol normalizeRate rows := mem_groupsBySymbol.2 ⟨hs, rfl⟩
    rw [h1 _ hmem]
    have hall : ((pairLoop symbol ((rowsOf rows symbol).map normalizeRate)).countP
        (fun o => decide (o.symbol = symbol)))
        = (pairLoop symbol ((rowsOf rows symbol).map normalizeRate)).length := by
      rw [List.countP_eq_length]
      intro o ho
      simp only [decide_eq_true_eq]
      exact symbol_of_mem_pairLoop ho
    rw [hall, length_pairLoop, List.length_map]
  · rw [h2 (by rw [hkeys]; exact fun h => hs (mem_firstAppearance.1 h)), rowsOf_eq_nil hs]
    rfl

theorem countP_pairCandidates_pair {rows : List FundingRow}
    (hnodup : (rows.map (fun r => (r.symbol, r.exchange))).Nodup)
    {r1 r2 : FundingRow} (h1 : r1 ∈ rows) (h2 : r2 ∈ rows)
    (hsym : r1.symbol = r2.symbol) (hex : r1.exchange ≠ r2.exchange) :
    (pairCandidates rows).countP (isPairOf r1.symbol r1.exchange r2.exchange) = 1 := by
  rw [pairCandidates_eq]
  have hkeys := keys_groupsBySymbol normalizeRate rows
  obtain ⟨hone, _⟩ := countP_flatMap_group (isPairOf r1.symbol r1.exchange r2.exchange)
    (fun e : String × List NormalizedRate => pairLoop e.1 e.2) r1.symbol
    (by
      intro e he o ho hp
      simp only [isPairOf, decide_eq_true_eq] at hp
      exact he ((symbol_of_mem_pairLoop ho).symm.trans hp.1))
    (groupsBySymbol normalizeRate rows) (by rw [hkeys]; exact nodup_firstAppearance _)
  have hs : r1.symbol ∈ rows.map FundingRow.symbol := List.mem_map_of_mem _ h1
  have hmem : (r1.symbol, (rowsOf rows r1.symbol).map normalizeRate)
      ∈ groupsBySymbol normalizeRate rows := mem_groupsBySymbol.2 ⟨hs, rfl⟩
  rw [hone _ hmem]
  apply countP_pairLoop_eq_one _ _ _ hex
  · rw [map_exchange_normalizeRate]
    exact nodup_exchange_rowsOf hnodup _
  · rw [map_exchange_normalizeRate]
    exact List.mem_map_of_mem _ (mem_rowsOf.2 ⟨h1, rfl⟩)
  · rw [map_exchange_normalizeRate]
    exact List.mem_map_of_mem _ (mem_rowsOf.2 ⟨h2, hsym.symm⟩)


/-! ## The execute route on supported exchanges -/

theorem getExchangeApi_name (id : ExchangeId) :
    getExchangeApi (some id.name) = .ok (.adapter id) := by
  cases id <;> decide

theorem getExchangeSymbol_name (baseToken : Option String) (id : ExchangeId) :
    getExchangeSymbol baseToken (some id.name) = .ok (legSymbol baseToken id) := by
  cases id
  · have h1 : toLowerCase "hyperliquid" ≠ "gate" := by decide
    have h2 : toLowerCase "hyperliquid" = "hyperliquid" := by decide
    simp [getExchangeSymbol, ExchangeId.name, legSymbol, h1, h2]
  · have h1 : toLowerCase "gate" = "gate" := by decide
    simp [getExchangeSymbol, ExchangeId.name, legSymbol, h1]
  · have h1 : toLowerCase "bitget" ≠ "gate" := by decide
    have h2 : toLowerCase "bitget" ≠ "hyperliquid" := by decide
    have h3 : toLowerCase "bitget" = "bitget" := by decide
    simp [getExchangeSymbol, ExchangeId.name, legSymbol, h1, h2, h3]

/-- On supported exchanges the route reaches the legs: its report is decided by how
the two promises settle. -/
theorem POST_supported (req : TradeIntent) (env : ExecuteEnv) (longId shortId : ExchangeId)
    (hl : req.longExchange = some longId.name) (hs : req.shortExchange = some shortId.name) :
    POST req env =
      match promiseAll2 (env.executeLongOrder longId (legCall req longId))
          (env.executeShortOrder shortId (legCall req shortId)) env.shortSettlesFirst with
      | .error m =>
        executeFailure m
          [.long longId (legCall req longId), .short shortId (legCall req shortId)]
      | .ok (longResult, shortResult) =>
        if longResult.isSome && shortResult.isSome then
          { status := 200
            body := .success req.symbol req.longExchange req.shortExchange
              (legSymbol req.symbol longId) (legSymbol req.symbol shortId)
              (jsDiv req.positionSize req.leverage) env.isoNow
            dispatched :=
              [.long longId (legCall req longId), .short shortId (legCall req shortId)] }
        else
          executeFailure ("套利交易执行失败: " ++ jsString req.symbol)
            [.long longId (legCall req longId), .short shortId (legCall req shortId)] := by
  unfold POST
  simp only [hl, hs, getExchangeApi_name, getExchangeSymbol_name]
  rfl


/-! ## Truncation and encounter order -/

theorem sliceFromZero_of_nonneg {α : Type} (xs : List α) (e : ℚ) (h : 0 ≤ e) :
    sliceFromZero xs e = xs.take ⌊e⌋.toNat := by
  have hnn : ¬ ⌊e⌋ < 0 := not_lt.2 (Int.floor_nonneg.2 h)
  simp only [sliceFromZero, toIntegerOrInfinity, if_pos h, if_neg hnn]

theorem objectEntries_of_no_index {β : Type} (o : List (String × β))
    (h : ∀ e ∈ o, arrayIndex? e.1 = none) : objectEntries o = o := by
  have h1 : o.filter (fun e => (arrayIndex? e.1).isSome) = [] := by
    rw [List.filter_eq_nil_iff]
    intro e he
    simp [h e he]
  have h2 : o.filter (fun e => (arrayIndex? e.1).isNone) = o := by
    rw [List.filter_eq_self]
    intro e he
    simp [h e he]
  unfold objectEntries
  rw [h1, h2]
  rfl

theorem filter_eq_ok {rows : List FundingRow} {threshold : Option ℚ} {now : ℕ}
    {opps : List FilteredOpportunity}
    (h : filterArbitrageOpportunities rows threshold now = .ok opps) :
    opps = sortDesc FilteredOpportunity.rateDifference
      ((objectEntries (groupsBySymbol normalizeItem rows)).flatMap
        (extremalOpportunity (threshold.getD (1 / 10000)) now)) := by
  unfold filterArbitrageOpportunities at h
  split at h
  · simp at h
  · rename_i g hg
    simp only [Except.ok.injEq] at h
    obtain ⟨_, rfl⟩ := symbolGroupsFrom_eq_ok hg
    exact h.symm


/-! ## The extremal policy, one opportunity per symbol -/

theorem symbol_of_mem_extremalOpportunity {threshold : ℚ} {now : ℕ}
    {entry : String × List NormalizedItem} {o : FilteredOpportunity}
    (h : o ∈ extremalOpportunity threshold now entry) : o.symbol = entry.1 := by
  obtain ⟨_, _, _, _, _, _, rfl⟩ := mem_extremalOpportunity h
  rfl

theorem length_extremalOpportunity_le (threshold : ℚ) (now : ℕ)
    (entry : String × List NormalizedItem) :
    (extremalOpportunity threshold now entry).length ≤ 1 := by
  unfold extremalOpportunity
  split
  · simp
  · simp only
    split
    · split <;> simp
    · simp

/-- The callback pushes an opportunity exactly when the group has two rows or more and
two of its rates differ by the threshold at least. -/
theorem extremalOpportunity_ne_nil_iff (threshold : ℚ) (now : ℕ)
    (entry : String × List NormalizedItem) :
    extremalOpportunity threshold now entry ≠ [] ↔
      2 ≤ entry.2.length ∧
        ∃ a ∈ entry.2, ∃ b ∈ entry.2, threshold ≤ a.rate - b.rate := by
  constructor
  · intro h
    obtain ⟨o, ho⟩ := List.exists_mem_of_ne_nil _ h
    obtain ⟨hlen, hi, lo, hh, hl, hthr, _⟩ := mem_extremalOpportunity ho
    exact ⟨hlen, hi, (sortDesc_head_max _ hh).1, lo, (sortDesc_last_min _ hl).1, hthr⟩
  · rintro ⟨hlen, a, ha, b, hb, hab⟩
    have hne : sortDesc NormalizedItem.rate entry.2 ≠ [] := by
      intro he
      have := length_sortDesc NormalizedItem.rate entry.2
      rw [he] at this
      simp at this
      omega
    obtain ⟨hi, hh⟩ : ∃ hi, (sortDesc NormalizedItem.rate entry.2).head? = some hi :=
      ⟨_, List.head?_eq_head hne⟩
    obtain ⟨lo, hl⟩ : ∃ lo, (sortDesc NormalizedItem.rate entry.2).getLast? = some lo :=
      ⟨_, List.getLast?_eq_getLast _ hne⟩
    have h1 := (sortDesc_head_max _ hh).2 a ha
    have h2 := (sortDesc_last_min _ hl).2 b hb
    have hthr : threshold ≤ hi.rate - lo.rate := by linarith
    have hlen' : ¬ entry.2.length < 2 := by omega
    unfold extremalOpportunity
    simp only [hlen', if_false, hh, hl, hthr, if_true]
    simp

/-- When no symbol names a member of `Object.prototype`, `filterArbitrageOpportunities`
returns, and its result holds exactly one opportunity for each symbol that has two rows
or more and two rates at least `threshold` apart, and none for any other symbol. -/
theorem filter_one_per_safe_symbol (rows : List FundingRow) (threshold : Option ℚ)
    (now : ℕ) (hsafe : ∀ r ∈ rows, r.symbol ∉ objectPrototypeKeys) :
    ∃ opps, filterArbitrageOpportunities rows threshold now = .ok opps ∧
      ∀ symbol,
        ((2 ≤ (rowsOf rows symbol).length ∧
            ∃ a ∈ rowsOf rows symbol, ∃ b ∈ rowsOf rows symbol,
              threshold.getD (1 / 10000) ≤ normalizedRateOf a - normalizedRateOf b) →
          opps.countP (fun o => decide (o.symbol = symbol)) = 1) ∧
        (¬ (2 ≤ (rowsOf rows symbol).length ∧
            ∃ a ∈ rowsOf rows symbol, ∃ b ∈ rowsOf rows symbol,
              threshold.getD (1 / 10000) ≤ normalizedRateOf a - normalizedRateOf b) →
          opps.countP (fun o => decide (o.symbol = symbol)) = 0) := by
  have hok : filterArbitrageOpportunities rows threshold now
      = .ok (sortDesc FilteredOpportunity.rateDifference
          ((objectEntries (groupsBySymbol normalizeItem rows)).flatMap
            (extremalOpportunity (threshold.getD (1 / 10000)) now))) := by
    unfold filterArbitrageOpportunities
    rw [symbolGroupsFrom_ok rows hsafe]
  refine ⟨_, hok, ?_⟩
  intro symbol
  have hperm : (sortDesc FilteredOpportunity.rateDifference
      ((objectEntries (groupsBySymbol normalizeItem rows)).flatMap
        (extremalOpportunity (threshold.getD (1 / 10000)) now))).Perm
      ((groupsBySymbol normalizeItem rows).flatMap
        (extremalOpportunity (threshold.getD (1 / 10000)) now)) :=
    (sortDesc_perm _ _).trans (List.Perm.flatMap_right _ (objectEntries_perm _))
  rw [hperm.countP_eq]
  have hkeys := keys_groupsBySymbol normalizeItem rows
  obtain ⟨h1, h2⟩ := countP_flatMap_group
    (fun o : FilteredOpportunity => decide (o.symbol = symbol))
    (extremalOpportunity (threshold.getD (1 / 10000)) now) symbol
    (by
      intro e he o ho
      simp only [decide_eq_true_eq]
      rw [symbol_of_mem_extremalOpportunity ho]
      exact he)
    (groupsBySymbol normalizeItem rows) (by rw [hkeys]; exact nodup_firstAppearance _)
  have hiff := extremalOpportunity_ne_nil_iff (threshold.getD (1 / 10000)) now
    (symbol, (rowsOf rows symbol).map normalizeItem)
  have hcond : (2 ≤ (rowsOf rows symbol).length ∧
      ∃ a ∈ rowsOf rows symbol, ∃ b ∈ rowsOf rows symbol,
        threshold.getD (1 / 10000) ≤ normalizedRateOf a - normalizedRateOf b) ↔
      extremalOpportunity (threshold.getD (1 / 10000)) now
        (symbol, (rowsOf rows symbol).map normalizeItem) ≠ [] := by
    rw [hiff]
    simp only [List.length_map, List.mem_map]
    constructor
    · rintro ⟨hl, a, ha, b, hb, hab⟩
      exact ⟨hl, _, ⟨a, ha, rfl⟩, _, ⟨b, hb, rfl⟩, hab⟩
    · rintro ⟨hl, _, ⟨a, ha, rfl⟩, _, ⟨b, hb, rfl⟩, hab⟩
      exact ⟨hl, a, ha, b, hb, hab⟩
  have hall : (extremalOpportunity (threshold.getD (1 / 10000)) now
      (symbol, (rowsOf rows symbol).map normalizeItem)).countP
        (fun o => decide (o.symbol = symbol))
      = (extremalOpportunity (threshold.getD (1 / 10000)) now
          (symbol, (rowsOf rows symbol).map normalizeItem)).length := by
    rw [List.countP_eq_length]
    intro o ho
    simp only [decide_eq_true_eq]
    exact symbol_of_mem_extremalOpportunity ho
  have hle := length_extremalOpportunity_le (threshold.getD (1 / 10000)) now
    (symbol, (rowsOf rows symbol).map normalizeItem)
  by_cases hs : symbol ∈ rows.map FundingRow.symbol
  · have hmem : (symbol, (rowsOf rows symbol).map normalizeItem)
        ∈ groupsBySymbol normalizeItem rows := mem_groupsBySymbol.2 ⟨hs, rfl⟩
    rw [h1 _ hmem, hall]
    constructor
    · intro hc
      have hne := hcond.1 hc
      have hpos : 0 < (extremalOpportunity (threshold.getD (1 / 10000)) now
          (symbol, (rowsOf rows symbol).map normalizeItem)).length :=
        List.length_pos.2 hne
      omega
    · intro hc
      have hnil : extremalOpportunity (threshold.getD (1 / 10000)) now
          (symbol, (rowsOf rows symbol).map normalizeItem) = [] := by
        by_contra hne
        exact hc (hcond.2 hne)
      rw [hnil]
      rfl
  · rw [h2 (by rw [hkeys]; exact fun h => hs (mem_firstAppearance.1 h))]
    constructor
    · rintro ⟨hl, _⟩
      rw [rowsOf_eq_nil hs] at hl
      simp at hl
    · intro _
      rfl


/-! ## Symbols and base tokens -/

theorem takeWhile_ne_append_sep (sep : Char) (rest : List Char) :
    ∀ b : List Char, sep ∉ b → (b ++ sep :: rest).takeWhile (fun c => c ≠ sep) = b
  | [], _ => by simp [List.takeWhile]
  | c :: b, h => by
    have hc : c ≠ sep := fun e => h (by simp [e])
    have hb : sep ∉ b := fun e => h (List.mem_cons_of_mem _ e)
    have ih := takeWhile_ne_append_sep sep rest b hb
    have hd : decide (c ≠ sep) = true := by simp [hc]
    rw [List.cons_append, List.takeWhile_cons, hd, ih]
    rfl

theorem takeWhile_ne_of_not_mem (sep : Char) :
    ∀ b : List Char, sep ∉ b → b.takeWhile (fun c => c ≠ sep) = b
  | [], _ => rfl
  | c :: b, h => by
    have hc : c ≠ sep := fun e => h (by simp [e])
    have hb : sep ∉ b := fun e => h (List.mem_cons_of_mem _ e)
    have ih := takeWhile_ne_of_not_mem sep b hb
    have hd : decide (c ≠ sep) = true := by simp [hc]
    rw [List.takeWhile_cons, hd, ih]
    rfl

/-- The base token of `b/Q:S` is `b` when `b` holds neither separator. -/
theorem extractBaseToken_symbol (b quote settle : String)
    (h1 : '/' ∉ b.data) (h2 : ':' ∉ b.data) (hq : ':' ∉ quote.data) :
    extractBaseToken (b ++ "/" ++ quote ++ ":" ++ settle) = b := by
  have hfirst : beforeFirst ':' (b ++ "/" ++ quote ++ ":" ++ settle) = b ++ "/" ++ quote := by
    unfold beforeFirst
    have hdata : (b ++ "/" ++ quote ++ ":" ++ settle).data
        = (b ++ "/" ++ quote).data ++ ':' :: settle.data := by
      simp [String.data_append]
    rw [hdata, takeWhile_ne_append_sep]
    intro hmem
    simp only [String.data_append, List.mem_append] at hmem
    rcases hmem with (hmem | hmem) | hmem
    · exact h2 hmem
    · revert hmem; decide
    · exact hq hmem
  unfold extractBaseToken
  rw [hfirst]
  unfold beforeFirst
  have hdata : (b ++ "/" ++ quote).data = b.data ++ '/' :: quote.data := by
    simp [String.data_append]
  rw [hdata, takeWhile_ne_append_sep _ _ _ h1]

theorem legSymbol_eq (b : String) (id : ExchangeId) :
    legSymbol (some b) id
      = b ++ "/" ++ (match id with
          | .hyperliquid => "USDC" | .gate => "USDT" | .bitget => "USDT") ++ ":" ++
        (match id with
          | .hyperliquid => "USDC" | .gate => "USDT" | .bitget => "USDT") := by
  cases id <;>
    simp only [legSymbol, jsString, Option.getD_some] <;>
    apply String.ext <;> simp [String.data_append]

theorem extractBaseToken_legSymbol (b : String) (id : ExchangeId)
    (h1 : '/' ∉ b.data) (h2 : ':' ∉ b.data) :
    extractBaseToken (legSymbol (some b) id) = b := by
  rw [legSymbol_eq]
  apply extractBaseToken_symbol b _ _ h1 h2
  cases id <;> decide

/-- Whenever `getExchangeSymbol` returns, it returns the symbol of one of the adapters. -/
theorem getExchangeSymbol_eq_ok {baseToken : Option String} {exchange : String} {s : String}
    (h : getExchangeSymbol baseToken (some exchange) = .ok s) :
    ∃ id : ExchangeId, toLowerCase exchange = id.name ∧ s = legSymbol baseToken id := by
  unfold getExchangeSymbol at h
  simp only at h
  split at h
  · rename_i hg
    exact ⟨.gate, hg, by simpa [legSymbol] using h.symm⟩
  · split at h
    · rename_i hg
      exact ⟨.hyperliquid, hg, by simpa [legSymbol] using h.symm⟩
    · split at h
      · rename_i hg
        exact ⟨.bitget, hg, by simpa [legSymbol] using h.symm⟩
      · simp at h


theorem getExchangeApi_none :
    getExchangeApi none = .error ("不支持的交易所: " ++ "undefined") := by
  decide

/-- A name that is neither on `Object.prototype` nor one of the three adapter names is
refused. -/
theorem getExchangeApi_unsupported (name : String) (h1 : name ∉ objectPrototypeKeys)
    (h2 : ∀ id : ExchangeId, name ≠ id.name) :
    getExchangeApi (some name) = .error ("不支持的交易所: " ++ name) := by
  unfold getExchangeApi
  simp only [jsString, Option.getD_some, h1, if_false]
  split
  · rename_i h
    simp only [Option.some.injEq] at h
    exact absurd h (h2 .hyperliquid)
  · rename_i h
    simp only [Option.some.injEq] at h
    exact absurd h (h2 .gate)
  · rename_i h
    simp only [Option.some.injEq] at h
    exact absurd h (h2 .bitget)
  · rfl


/-! ## The orders of the adapters -/

theorem ordersOf_append (a b : List VenueCall) : ordersOf (a ++ b) = ordersOf a ++ ordersOf b := by
  simp [ordersOf, List.filterMap_append]

theorem ordersOf_nil : ordersOf [] = [] := rfl

theorem ordersOf_cons_fetchTicker (symbol : String) (t : List VenueCall) :
    ordersOf (.fetchTicker symbol :: t) = ordersOf t := by
  simp [ordersOf, List.filterMap_cons]

theorem ordersOf_cons_createOrder (req : OrderRequest) (t : List VenueCall) :
    ordersOf (.createOrder req :: t) = req :: ordersOf t := by
  simp [ordersOf, List.filterMap_cons]

theorem ordersOf_calculateSlippagePrice (venue : Venue) (symbol : String) (side : OrderSide)
    (s : ℚ) : ordersOf (calculateSlippagePrice venue symbol side s).2 = [] := by
  unfold calculateSlippagePrice
  cases venue.fetchTicker symbol <;> rfl

theorem ordersOf_setupLeverageAndPosition (venue : Venue) (symbol : String) (leverage : ℚ) :
    ordersOf (setupLeverageAndPosition venue symbol leverage).2 = [] := by
  unfold setupLeverageAndPosition
  cases venue.setLeverage leverage symbol with
  | ok _ => rfl
  | error m => by_cases h : jsIncludes m "NO_CHANGE" = true <;> simp [h, ordersOf]

theorem calculateSlippagePrice_of_ticker {venue : Venue} {symbol : String} {p : ℚ}
    (ht : venue.fetchTicker symbol = .ok (some p)) (side : OrderSide) (s : ℚ) :
    calculateSlippagePrice venue symbol side s
      = (.ok (some (p * slippageMultiplier side s)), [.fetchTicker symbol]) := by
  unfold calculateSlippagePrice
  rw [ht]
  rfl

/-- The orders of the base adapter's opening call: none, or the one order at the
slippage price. -/
theorem ordersOf_baseCreate {venue : Venue} {symbol : String} {p : ℚ}
    (ht : venue.fetchTicker symbol = .ok (some p)) (side : OrderSide)
    (positionSize : Option ℚ) (leverage s : ℚ) :
    ordersOf (baseCreateMarketOrderWithSlippage venue symbol side positionSize leverage s).2
      = match (setupLeverageAndPosition venue symbol leverage).1 with
        | .error _ => []
        | .ok _ =>
          [{ symbol := symbol, orderType := "market", side := side,
             amount := jsDiv positionSize (some (p * slippageMultiplier side s)),
             price := some (p * slippageMultiplier side s), reduceOnly := false,
             timeInForce := some "IOC" }] := by
  have hsetup := ordersOf_setupLeverageAndPosition venue symbol leverage
  unfold baseCreateMarketOrderWithSlippage
  rcases hr : setupLeverageAndPosition venue symbol leverage with ⟨r, t⟩
  rw [hr] at hsetup
  cases r with
  | error m => simpa using hsetup
  | ok u =>
    simp only [calculateSlippagePrice_of_ticker ht, ordersOf_append, hsetup]
    simp [ordersOf]

theorem ordersOf_bitgetCreate {venue : Venue} {symbol : String} {p : ℚ}
    (ht : venue.fetchTicker symbol = .ok (some p)) (side : OrderSide)
    (positionSize : Option ℚ) (s : ℚ) :
    ∀ req ∈ ordersOf (bitgetCreateMarketOrderWithSlippage venue symbol side positionSize s).2,
      req.price = some (p * slippageMultiplier side (s / 100)) ∧ req.side = side ∧
      req.reduceOnly = false := by
  unfold bitgetCreateMarketOrderWithSlippage
  rw [ht]
  simp only
  intro req hreq
  split at hreq
  · simp [ordersOf] at hreq
  · split at hreq
    · simp [ordersOf] at hreq
    · split at hreq
      · simp [ordersOf] at hreq
      · split at hreq
        · simp [ordersOf] at hreq
        · simp only [ordersOf, List.filterMap_cons, List.filterMap_nil,
            List.mem_singleton] at hreq
          rw [hreq]
          exact ⟨rfl, rfl, rfl⟩

theorem ordersOf_gateCreate (venue : Venue) (symbol : String) (side : OrderSide)
    (positionSize : Option ℚ) (leverage : ℚ) :
    ∀ req ∈ ordersOf (gateCreateMarketOrderWithSlippage venue symbol side positionSize
        leverage).2,
      req.price = none ∧ req.side = side ∧ req.reduceOnly = false := by
  have hsetup := ordersOf_setupLeverageAndPosition venue symbol leverage
  unfold gateCreateMarketOrderWithSlippage
  intro req hreq
  split at hreq
  · simp [ordersOf] at hreq
  · simp only at hreq
    split at hreq
    · simp [ordersOf] at hreq
    · split at hreq
      · simp [ordersOf] at hreq
      · rcases hr : setupLeverageAndPosition venue symbol leverage with ⟨r, t⟩
        rw [hr] at hsetup hreq
        simp only at hsetup
        cases r with
        | error m =>
          simp only [ordersOf, List.filterMap_cons] at hreq hsetup
          rw [hsetup] at hreq
          simp at hreq
        | ok u =>
          simp only at hreq
          simp only [ordersOf_append, ordersOf_cons_fetchTicker, hsetup,
            ordersOf_cons_createOrder, ordersOf_nil, List.nil_append,
            List.mem_singleton] at hreq
          rw [hreq]
          exact ⟨rfl, rfl, rfl⟩


theorem ordersOf_baseCloseLoop {venue : Venue} {symbol : String} {p : ℚ}
    (ht : venue.fetchTicker symbol = .ok (some p))
    (hc : ∀ req, ∃ r, venue.createOrder req = .ok r) :
    ∀ positions : List Position,
      ordersOf (baseCloseLoop venue symbol positions).2
        = (positions.filter (fun pos => decide (0 < pos.contracts))).map
            (baseCloseOrder symbol p)
  | [] => rfl
  | pos :: rest => by
    have ih := ordersOf_baseCloseLoop ht hc rest
    unfold baseCloseLoop
    by_cases hpos : 0 < pos.contracts
    · obtain ⟨r, hr⟩ := hc (baseCloseOrder symbol p pos)
      simp only [hpos, if_true, calculateSlippagePrice_of_ticker ht]
      have hr' : venue.createOrder
          { symbol := symbol, orderType := "market", side := closingSide pos,
            amount := some pos.contracts,
            price := some (p * slippageMultiplier (closingSide pos) (1 / 1000)),
            reduceOnly := true, timeInForce := none } = .ok r := hr
      rw [hr']
      simp only [ordersOf_append, ordersOf_cons_fetchTicker, ordersOf_cons_createOrder,
        ordersOf_nil, ih, List.nil_append, List.singleton_append]
      simp [List.filter_cons, hpos, baseCloseOrder]
    · simp only [hpos, if_false, ih]
      simp [List.filter_cons, hpos]

theorem ordersOf_gateCloseLoop {venue : Venue} {symbol : String}
    (hc : ∀ req, ∃ r, venue.createOrder req = .ok r) :
    ∀ positions : List Position,
      ordersOf (gateCloseLoop venue symbol positions).2
        = (positions.filter (fun pos => decide (0 < pos.contracts))).map
            (gateCloseOrder symbol)
  | [] => rfl
  | pos :: rest => by
    have ih := @ordersOf_gateCloseLoop venue symbol hc rest
    unfold gateCloseLoop
    by_cases hpos : 0 < pos.contracts
    · obtain ⟨r, hr⟩ := hc (gateCloseOrder symbol pos)
      simp only [hpos, if_true]
      have hr' : venue.createOrder
          { symbol := symbol, orderType := "market", side := closingSide pos,
            amount := some pos.contracts, price := none, reduceOnly := true,
            timeInForce := some "IOC" } = .ok r := hr
      rw [hr']
      simp only [ordersOf_cons_createOrder, ih]
      simp [List.filter_cons, hpos, gateCloseOrder]
    · simp only [hpos, if_false, ih]
      simp [List.filter_cons, hpos]

theorem ordersOf_cons_fetchPositions (symbol : String) (t : List VenueCall) :
    ordersOf (.fetchPositions symbol :: t) = ordersOf t := by
  simp [ordersOf, List.filterMap_cons]


/-! ## The rate aggregator -/

theorem mergeRates_ok (env : AggregatorEnv) :
    ∀ (enabled : List String) (acc : List AggregatedRate),
      (∀ exchange ∈ enabled, ratePromise env exchange ≠ .fulfilled none) →
      mergeRates env acc enabled = .ok (acc ++ enabled.flatMap (contributedRates env))
  | [], acc, _ => by simp [mergeRates]
  | exchange :: rest, acc, h => by
    have hrest : ∀ e ∈ rest, ratePromise env e ≠ .fulfilled none :=
      fun e he => h e (List.mem_cons_of_mem _ he)
    have hhead := h exchange (List.mem_cons_self _ _)
    unfold mergeRates
    cases hp : ratePromise env exchange with
    | rejected m =>
      simp only [mergeRates_ok env rest acc hrest, List.flatMap_cons, contributedRates, hp,
        List.nil_append]
    | fulfilled value =>
      cases value with
      | none => exact absurd hp hhead
      | some rows =>
        simp only [mergeRates_ok env rest _ hrest, List.flatMap_cons, contributedRates, hp,
          List.append_assoc]

/-- When no enabled adapter's promise is fulfilled with `undefined`, `fetchFundingRates`
returns, and `fundingRates` is the concatenation, in enabled-exchange order, of the
normalized rows of the adapters whose promise holds a mapping. -/
theorem fetchFundingRates_ok (env : AggregatorEnv) (enabled : List String)
    (h : ∀ exchange ∈ enabled, ratePromise env exchange ≠ .fulfilled none) :
    ∃ r, fetchFundingRates env enabled = .ok r ∧
      r.fundingRates = enabled.flatMap (contributedRates env) ∧
      r.exchangeNames = enabled := by
  unfold fetchFundingRates
  rw [mergeRates_ok env enabled [] h]
  exact ⟨_, rfl, rfl, rfl⟩


/-! ## The grouping of open positions -/

theorem groupsByKey_append_singleton {α : Type} (key : α → String) (xs : List α) (x : α) :
    groupsByKey key (xs ++ [x]) = mapPush (groupsByKey key xs) (key x) x := by
  unfold groupsByKey
  rw [List.map_append, List.map_singleton, firstAppearance_append_singleton]
  by_cases hk : key x ∈ xs.map key
  · have hk' : key x ∈ firstAppearance (xs.map key) := mem_firstAppearance.2 hk
    rw [if_pos hk,
      mapPush_map_of_mem (fun k => xs.filter (fun y => decide (key y = k))) (key x) x _
        (nodup_firstAppearance _) hk']
    apply List.map_congr_left
    intro k _
    by_cases hx : k = key x
    · subst hx; simp [List.filter_append]
    · have hx' : ¬ key x = k := fun e => hx e.symm
      simp [List.filter_append, hx, hx']
  · rw [if_neg hk, mapPush_of_not_mem]
    · rw [List.map_append, List.map_singleton]
      congr 1
      · apply List.map_congr_left
        intro k hkmem
        have hx' : ¬ key x = k := fun e => hk (e ▸ mem_firstAppearance.1 hkmem)
        simp [List.filter_append, hx']
      · have hnil : xs.filter (fun y => decide (key y = key x)) = [] := by
          rw [List.filter_eq_nil_iff]
          intro y hy
          simp only [decide_eq_true_eq]
          intro hyk
          exact hk (List.mem_map.2 ⟨y, hy, hyk⟩)
        simp [List.filter_append, hnil]
    · simp only [List.map_map]
      intro hmem
      rcases List.mem_map.1 hmem with ⟨k, hkm, hke⟩
      simp only [Function.comp] at hke
      exact hk (hke ▸ mem_firstAppearance.1 hkm)

theorem positionsBySymbolFrom_append_singleton (xs : List Position) (x : Position) :
    ∀ acc, positionsBySymbolFrom acc (xs ++ [x])
      = match positionsBySymbolFrom acc xs with
        | .error e => .error e
        | .ok g =>
          if beforeFirst '/' x.symbol ∈ objectPrototypeKeys then
            .error "TypeError: acc[baseSymbol].push is not a function"
          else .ok (mapPush g (beforeFirst '/' x.symbol) x) := by
  induction xs with
  | nil => intro acc; simp [positionsBySymbolFrom]
  | cons a xs ih =>
    intro acc
    by_cases ha : beforeFirst '/' a.symbol ∈ objectPrototypeKeys
    · simp [positionsBySymbolFrom, ha]
    · simp only [List.cons_append, positionsBySymbolFrom, ha, if_false]
      exact ih _

/-- The grouping completes only if no base symbol names a member of `Object.prototype`,
and then it is the grouping by base symbol. -/
theorem positionsBySymbolFrom_eq_ok {xs : List Position}
    {g : List (String × List Position)} (h : positionsBySymbolFrom [] xs = .ok g) :
    g = groupsByKey (fun pos => beforeFirst '/' pos.symbol) xs := by
  induction xs using List.reverseRecOn generalizing g with
  | nil =>
    simp only [positionsBySymbolFrom, Except.ok.injEq] at h
    exact h.symm
  | append_singleton xs x ih =>
    rw [positionsBySymbolFrom_append_singleton] at h
    cases hg : positionsBySymbolFrom [] xs with
    | error e => rw [hg] at h; simp at h
    | ok g' =>
      rw [hg] at h
      have h2 := ih hg
      by_cases hr : beforeFirst '/' x.symbol ∈ objectPrototypeKeys
      · simp [hr] at h
      · simp only [hr, if_false, Except.ok.injEq] at h
        rw [groupsByKey_append_singleton, ← h2, h]

theorem mem_groupsByKey {α : Type} {key : α → String} {xs : List α}
    {entry : String × List α} (h : entry ∈ groupsByKey key xs) :
    entry.2 = xs.filter (fun x => decide (key x = entry.1)) := by
  unfold groupsByKey at h
  obtain ⟨k, _, rfl⟩ := List.mem_map.1 h
  rfl

/-- Every group that `fetchOpenPositions` builds is made of the open positions of its
base symbol. -/
theorem mem_groupOpenPositions {positions : List Position} {groups : List PositionGroup}
    {g : PositionGroup} (h : groupOpenPositions positions = .ok groups) (hg : g ∈ groups) :
    g = toPositionGroup (g.baseSymbol, openPositionsOf positions g.baseSymbol) := by
  unfold groupOpenPositions at h
  split at h
  · simp at h
  · rename_i m hm
    simp only [Except.ok.injEq] at h
    subst h
    obtain ⟨entry, he, rfl⟩ := List.mem_map.1 hg
    have he' := (objectEntries_perm _).mem_iff.1 he
    rw [positionsBySymbolFrom_eq_ok hm] at he'
    have h2 := mem_groupsByKey he'
    have hentry : entry = (entry.1, openPositionsOf positions entry.1) := by
      rw [openPositionsOf, ← h2]
    rw [hentry]
    rfl


/-! ## A close order that fails -/

theorem baseCloseLoop_stops {venue : Venue} {symbol : String} {p : ℚ} {m : String}
    (ht : venue.fetchTicker symbol = .ok (some p)) (pos : Position) (rest : List Position)
    (hpos : 0 < pos.contracts)
    (hfail : venue.createOrder (baseCloseOrder symbol p pos) = .error m) :
    ∀ pre : List Position,
      (∀ q ∈ pre, ∃ r, venue.createOrder (baseCloseOrder symbol p q) = .ok r) →
      (baseCloseLoop venue symbol (pre ++ pos :: rest)).1 = .error m ∧
      ordersOf (baseCloseLoop venue symbol (pre ++ pos :: rest)).2
        = (pre.filter (fun q => decide (0 < q.contracts))).map (baseCloseOrder symbol p)
            ++ [baseCloseOrder symbol p pos]
  | [], _ => by
    have hfail' : venue.createOrder
        { symbol := symbol, orderType := "market", side := closingSide pos,
          amount := some pos.contracts,
          price := some (p * slippageMultiplier (closingSide pos) (1 / 1000)),
          reduceOnly := true, timeInForce := none } = .error m := hfail
    rw [List.nil_append]
    unfold baseCloseLoop
    simp only [hpos, if_true, calculateSlippagePrice_of_ticker ht]
    rw [hfail']
    simp [ordersOf_append, ordersOf_cons_fetchTicker, ordersOf_cons_createOrder, ordersOf_nil,
      baseCloseOrder]
  | q :: pre, hpre => by
    have ih := baseCloseLoop_stops ht pos rest hpos hfail pre
      (fun x hx => hpre x (List.mem_cons_of_mem _ hx))
    rw [List.cons_append]
    unfold baseCloseLoop
    by_cases hq : 0 < q.contracts
    · obtain ⟨r, hr⟩ := hpre q (List.mem_cons_self _ _)
      have hr' : venue.createOrder
          { symbol := symbol, orderType := "market", side := closingSide q,
            amount := some q.contracts,
            price := some (p * slippageMultiplier (closingSide q) (1 / 1000)),
            reduceOnly := true, timeInForce := none } = .ok r := hr
      simp only [hq, if_true, calculateSlippagePrice_of_ticker ht]
      rw [hr']
      refine ⟨ih.1, ?_⟩
      simp only [ordersOf_append, ordersOf_cons_fetchTicker, ordersOf_cons_createOrder,
        ordersOf_nil, ih.2, List.nil_append, List.singleton_append]
      simp [List.filter_cons, hq, baseCloseOrder]
    · simp only [hq, if_false]
      refine ⟨ih.1, ?_⟩
      rw [ih.2]
      simp [List.filter_cons, hq]

theorem gateCloseLoop_stops {venue : Venue} {symbol : String} {m : String}
    (pos : Position) (rest : List Position) (hpos : 0 < pos.contracts)
    (hfail : venue.createOrder (gateCloseOrder symbol pos) = .error m) :
    ∀ pre : List Position,
      (∀ q ∈ pre, ∃ r, venue.createOrder (gateCloseOrder symbol q) = .ok r) →
      (gateCloseLoop venue symbol (pre ++ pos :: rest)).1 = .error m ∧
      ordersOf (gateCloseLoop venue symbol (pre ++ pos :: rest)).2
        = (pre.filter (fun q => decide (0 < q.contracts))).map (gateCloseOrder symbol)
            ++ [gateCloseOrder symbol pos]
  | [], _ => by
    have hfail' : venue.createOrder
        { symbol := symbol, orderType := "market", side := closingSide pos,
          amount := some pos.contracts, price := none, reduceOnly := true,
          timeInForce := some "IOC" } = .error m := hfail
    rw [List.nil_append]
    unfold gateCloseLoop
    simp only [hpos, if_true]
    rw [hfail']
    simp [ordersOf_cons_createOrder, ordersOf_nil, gateCloseOrder]
  | q :: pre, hpre => by
    have ih := @gateCloseLoop_stops venue symbol m pos rest hpos hfail pre
      (fun x hx => hpre x (List.mem_cons_of_mem _ hx))
    rw [List.cons_append]
    unfold gateCloseLoop
    by_cases hq : 0 < q.contracts
    · obtain ⟨r, hr⟩ := hpre q (List.mem_cons_self _ _)
      have hr' : venue.createOrder
          { symbol := symbol, orderType := "market", side := closingSide q,
            amount := some q.contracts, price := none, reduceOnly := true,
            timeInForce := some "IOC" } = .ok r := hr
      simp only [hq, if_true]
      rw [hr']
      refine ⟨ih.1, ?_⟩
      simp only [ordersOf_cons_createOrder, ih.2]
      simp [List.filter_cons, hq, gateCloseOrder]
    · simp only [hq, if_false]
      refine ⟨ih.1, ?_⟩
      rw [ih.2]
      simp [List.filter_cons, hq]


/-! ## The adapters of the enabled names -/

theorem mem_bindableNames {name : String}
    (h : name ∈ objectPrototypeKeys ∨ ∃ id : ExchangeId, name = id.name) :
    name ∈ bindableNames := by
  rcases h with h | ⟨id, rfl⟩
  · exact List.mem_append_left _ h
  · cases id <;> decide

theorem bindableNames_facts : ∀ name ∈ bindableNames,
    arrayIndex? name = none ∧ getExchangeApi (some name) = .ok (handleOf name) ∧
    exchangeIdOfName? name
      = (match handleOf name with
        | .adapter id => some id
        | .prototypeMember _ => none) := by
  decide

theorem getAllExchangeApisFrom_append (name : String) :
    ∀ (names : List String) (apis : List (String × ApiHandle)),
      getAllExchangeApisFrom apis (names ++ [name])
        = match getAllExchangeApisFrom apis names with
          | .error m => .error m
          | .ok apis' =>
            match getExchangeApi (some name) with
            | .error m => .error m
            | .ok api => .ok (objectAssign apis' name api)
  | [], apis => by
    simp only [List.nil_append, getAllExchangeApisFrom]
  | n :: names, apis => by
    simp only [List.cons_append, getAllExchangeApisFrom]
    cases getExchangeApi (some n) with
    | error m => rfl
    | ok api => exact getAllExchangeApisFrom_append name names _

theorem objectSet_map_self {β : Type} (f : String → β) (k : String) :
    ∀ ks : List String,
      objectSet (ks.map (fun x => (x, f x))) k (f k)
        = if k ∈ ks then ks.map (fun x => (x, f x)) else ks.map (fun x => (x, f x)) ++ [(k, f k)]
  | [] => by simp [objectSet]
  | a :: ks => by
    have ih := objectSet_map_self f k ks
    by_cases ha : a = k
    · subst ha
      simp [objectSet]
    · have hka : ¬ k = a := fun h => ha h.symm
      simp only [List.map_cons, objectSet, ha, if_false, ih, List.mem_cons, hka, false_or]
      by_cases hk : k ∈ ks <;> simp [hk]

/-- The object `getAllExchangeApis` builds from bindable names: one property per
distinct name other than `__proto__`, in order of first appearance. -/
theorem getAllExchangeApis_ok : ∀ names : List String,
    (∀ name ∈ names, name ∈ bindableNames) →
    getAllExchangeApis names
      = .ok ((firstAppearance (names.filter (fun n => decide (n ≠ "__proto__")))).map
          (fun n => (n, handleOf n))) := by
  intro names
  induction names using List.reverseRecOn with
  | nil => intro _; rfl
  | append_singleton names name ih =>
    intro h
    have ih := ih (fun x hx => h x (List.mem_append_left _ hx))
    have hname := (bindableNames_facts name (h name (by simp))).2.1
    unfold getAllExchangeApis at ih ⊢
    rw [getAllExchangeApisFrom_append, ih, hname]
    simp only [objectAssign]
    by_cases hp : name = "__proto__"
    · simp [hp, List.filter_append]
    · simp only [hp, if_false, List.filter_append, List.filter_cons, List.filter_nil,
        decide_not, decide_False, Bool.not_false, if_true]
      rw [objectSet_map_self, firstAppearance_append_singleton]
      by_cases hk : name ∈ List.filter (fun n => !decide (n = "__proto__")) names
      · have hk' : name ∈ firstAppearance
            (List.filter (fun n => !decide (n = "__proto__")) names) :=
          mem_firstAppearance.mpr hk
        simp [hk, hk']
      · have hk' : name ∉ firstAppearance
            (List.filter (fun n => !decide (n = "__proto__")) names) :=
          fun hm => hk (mem_firstAppearance.mp hm)
        simp [hk, hk']

/-- The entries the position routes enumerate when every enabled name is bindable. -/
theorem entries_of_bindable (names : List String)
    (h : ∀ name ∈ names, name ∈ bindableNames) :
    ∃ apis, getAllExchangeApis names = .ok apis ∧
      objectEntries apis
        = (firstAppearance (names.filter (fun n => decide (n ≠ "__proto__")))).map
            (fun n => (n, handleOf n)) ∧
      ∀ e ∈ objectEntries apis, e.1 ∈ bindableNames ∧ e.2 = handleOf e.1 := by
  refine ⟨_, getAllExchangeApis_ok names h, ?_, ?_⟩
  · apply objectEntries_of_no_index
    intro e he
    obtain ⟨n, hn, rfl⟩ := List.mem_map.mp he
    have hn' := (List.mem_filter.mp (mem_firstAppearance.mp hn)).1
    exact (bindableNames_facts n (h n hn')).1
  · have hent : objectEntries ((firstAppearance
        (names.filter (fun n => decide (n ≠ "__proto__")))).map (fun n => (n, handleOf n)))
        = (firstAppearance (names.filter (fun n => decide (n ≠ "__proto__")))).map
            (fun n => (n, handleOf n)) := by
      apply objectEntries_of_no_index
      intro e he
      obtain ⟨n, hn, rfl⟩ := List.mem_map.mp he
      have hn' := (List.mem_filter.mp (mem_firstAppearance.mp hn)).1
      exact (bindableNames_facts n (h n hn')).1
    intro e he
    rw [hent] at he
    obtain ⟨n, hn, rfl⟩ := List.mem_map.mp he
    have hn' := (List.mem_filter.mp (mem_firstAppearance.mp hn)).1
    exact ⟨h n hn', rfl⟩

theorem positionsOfEntry_handleOf (env : RoutesEnv) {name : String}
    (h : name ∈ bindableNames) :
    positionsOfEntry env (name, handleOf name) = contributedPositions env name := by
  have hf := (bindableNames_facts name h).2.2
  unfold positionsOfEntry contributedPositions
  rw [hf]
  cases handleOf name <;> rfl


theorem closeHedgedPOST_shape (env : RoutesEnv) (req : CloseHedgedRequest) :
    (∃ baseSymbol, truthyString req.baseSymbol = some baseSymbol ∧
        (closeHedgedPOST env req).response = .success (baseSymbol ++ " 的对冲仓位已平仓")) ∨
      ∃ m, (closeHedgedPOST env req).response = .failure 500 m := by
  unfold closeHedgedPOST
  split
  · rename_i baseSymbol _ _ hb _ _
    split
    · exact Or.inr ⟨_, rfl⟩
    · split
      · exact Or.inr ⟨_, rfl⟩
      · split
        · exact Or.inr ⟨_, rfl⟩
        · exact Or.inl ⟨baseSymbol, hb, rfl⟩
  · exact Or.inr ⟨_, rfl⟩


theorem troubledRoutesEnv_names : ∀ name ∈ troubledRoutesEnv.exchangeNames,
    name ∈ objectPrototypeKeys ∨ ∃ id : ExchangeId, name = id.name := by
  intro name h
  have h' : name = "gate" ∨ name = "bitget" := by
    simpa [troubledRoutesEnv] using h
  rcases h' with rfl | rfl
  · exact Or.inr ⟨.gate, rfl⟩
  · exact Or.inr ⟨.bitget, rfl⟩


/-! ## The rows of the aggregator -/

theorem mem_mergeRates (env : AggregatorEnv) :
    ∀ (enabled : List String) (acc rows : List AggregatedRate),
      mergeRates env acc enabled = .ok rows →
      ∀ row ∈ rows, row ∈ acc ∨
        ∃ exchange ∈ enabled, ∃ value, ratePromise env exchange = .fulfilled (some value) ∧
          ∃ rate ∈ value, row = normalizeAggregated env exchange rate
  | [], acc, rows, h => by
    simp only [mergeRates, Except.ok.injEq] at h
    subst h
    exact fun row hrow => Or.inl hrow
  | exchange :: rest, acc, rows, h => by
    unfold mergeRates at h
    intro row hrow
    cases hp : ratePromise env exchange with
    | rejected m =>
      rw [hp] at h
      rcases mem_mergeRates env rest acc rows h row hrow with hacc | ⟨e, he, rest'⟩
      · exact Or.inl hacc
      · exact Or.inr ⟨e, List.mem_cons_of_mem _ he, rest'⟩
    | fulfilled value =>
      rw [hp] at h
      cases value with
      | none => simp at h
      | some value =>
        rcases mem_mergeRates env rest _ rows h row hrow with hacc | ⟨e, he, rest'⟩
        · rcases List.mem_append.mp hacc with hacc | hnew
          · exact Or.inl hacc
          · obtain ⟨rate, hrate, rfl⟩ := List.mem_map.mp hnew
            exact Or.inr ⟨exchange, List.mem_cons_self _ _, value, hp, rate, hrate, rfl⟩
        · exact Or.inr ⟨e, List.mem_cons_of_mem _ he, rest'⟩

theorem firstTruthy_isNum : ∀ sources : List (Option JsScalar),
    (∀ v ∈ sources, ∀ x, v = some x → x.isNum = true) → (firstTruthy sources).isNum = true
  | [], _ => rfl
  | none :: rest, h => by
    simp only [firstTruthy]
    exact firstTruthy_isNum rest (fun v hv => h v (List.mem_cons_of_mem _ hv))
  | some x :: rest, h => by
    simp only [firstTruthy]
    by_cases hx : x.truthy = true
    · simp only [hx, if_true]
      exact h (some x) (List.mem_cons_self _ _) x rfl
    · simp only [hx]
      exact firstTruthy_isNum rest (fun v hv => h v (List.mem_cons_of_mem _ hv))

theorem normalizeAggregated_isNum (env : AggregatorEnv) (exchange : String) (rate : RawRate)
    (h : infoHoldsNoString rate = true) :
    (normalizeAggregated env exchange rate).markPrice.isNum = true ∧
    (normalizeAggregated env exchange rate).indexPrice.isNum = true ∧
    (normalizeAggregated env exchange rate).fundingRate.isNum = true := by
  have hnum : ∀ o : Option ℚ, ∀ x, o.map JsScalar.num = some x → x.isNum = true := by
    intro o x hx
    cases o with
    | none => simp at hx
    | some q =>
      simp only [Option.map_some', Option.some.injEq] at hx
      subst hx
      rfl
  have hinfo : (∀ x, rate.info.bind RawInfo.markPx = some x → x.isNum = true) ∧
      (∀ x, rate.info.bind RawInfo.oraclePx = some x → x.isNum = true) ∧
      (∀ x, rate.info.bind RawInfo.funding = some x → x.isNum = true) := by
    unfold infoHoldsNoString at h
    cases hi : rate.info with
    | none => simp
    | some info =>
      rw [hi] at h
      simp only [Bool.and_eq_true] at h
      refine ⟨?_, ?_, ?_⟩
      · intro x hx
        have hx' : info.markPx = some x := hx
        have := h.1.1
        rw [hx'] at this
        simpa using this
      · intro x hx
        have hx' : info.oraclePx = some x := hx
        have := h.1.2
        rw [hx'] at this
        simpa using this
      · intro x hx
        have hx' : info.funding = some x := hx
        have := h.2
        rw [hx'] at this
        simpa using this
  refine ⟨?_, ?_, ?_⟩
  · apply firstTruthy_isNum
    intro v hv x hx
    simp only [List.mem_cons, List.mem_singleton, List.not_mem_nil, or_false] at hv
    rcases hv with rfl | rfl
    · exact hnum _ x hx
    · exact hinfo.1 x hx
  · apply firstTruthy_isNum
    intro v hv x hx
    simp only [List.mem_cons, List.mem_singleton, List.not_mem_nil, or_false] at hv
    rcases hv with rfl | rfl
    · exact hnum _ x hx
    · exact hinfo.2.1 x hx
  · apply firstTruthy_isNum
    intro v hv x hx
    simp only [List.mem_cons, List.mem_singleton, List.not_mem_nil, or_false] at hv
    rcases hv with rfl | rfl | rfl
    · exact hnum _ x hx
    · exact hnum _ x hx
    · exact hinfo.2.2 x hx


/-! ## Rows of one symbol under both policies -/

theorem firstAppearance_of_all_eq {s : String} : ∀ {ks : List String},
    ks ≠ [] → (∀ k ∈ ks, k = s) → firstAppearance ks = [s]
  | [], h, _ => absurd rfl h
  | k :: ks, _, hall => by
    have hk : k = s := hall k (List.mem_cons_self _ _)
    subst hk
    simp only [firstAppearance, List.cons.injEq, true_and, List.filter_eq_nil_iff]
    intro x hx
    have := hall x (List.mem_cons_of_mem _ (mem_firstAppearance.mp hx))
    simp [this]

theorem groupsBySymbol_single {β : Type} (f : FundingRow → β) {rows : List FundingRow}
    {s : String} (hne : rows ≠ []) (hsym : ∀ r ∈ rows, r.symbol = s) :
    groupsBySymbol f rows = [(s, rows.map f)] := by
  have h1 : firstAppearance (rows.map FundingRow.symbol) = [s] := by
    apply firstAppearance_of_all_eq
    · simpa using hne
    · intro k hk
      obtain ⟨r, hr, rfl⟩ := List.mem_map.mp hk
      exact hsym r hr
  have h2 : rowsOf rows s = rows := by
    unfold rowsOf
    rw [List.filter_eq_self]
    intro r hr
    simp [hsym r hr]
  unfold groupsBySymbol
  rw [h1]
  simp [h2]

theorem exists_pairLoop_of_rates_ne (symbol : String) {a b : NormalizedRate} :
    ∀ {rates : List NormalizedRate}, a ∈ rates → b ∈ rates → a.rate ≠ b.rate →
      ∃ o ∈ pairLoop symbol rates, o.rateDifference = |a.rate - b.rate|
  | [], ha, _, _ => by simp at ha
  | x :: rest, ha, hb, hne => by
    rcases List.mem_cons.mp ha with hax | ha'
    · rcases List.mem_cons.mp hb with hbx | hb'
      · exact absurd (hax.trans hbx.symm ▸ rfl) hne
      · refine ⟨pairOpportunity symbol x b, ?_, ?_⟩
        · simp only [pairLoop, List.mem_append, List.mem_map]
          exact Or.inl ⟨b, hb', rfl⟩
        · rw [hax]
          rfl
    · rcases List.mem_cons.mp hb with hbx | hb'
      · refine ⟨pairOpportunity symbol x a, ?_, ?_⟩
        · simp only [pairLoop, List.mem_append, List.mem_map]
          exact Or.inl ⟨a, ha', rfl⟩
        · rw [hbx]
          exact abs_sub_comm _ _
      · obtain ⟨o, ho, hrd⟩ := @exists_pairLoop_of_rates_ne symbol a b rest ha' hb' hne
        refine ⟨o, ?_, hrd⟩
        simp only [pairLoop, List.mem_append]
        exact Or.inr ho

/-- With rows of one symbol and a limit of at least 1, the first opportunity of the
exhaustive policy is a pair of the symbol with the largest rate difference. -/
theorem calculate_head_single_symbol (rows : List FundingRow) (s : String) (limit : ℚ)
    (hsym : ∀ r ∈ rows, r.symbol = s) (hlen : 2 ≤ rows.length) (hlimit : 1 ≤ limit) :
    ∃ o, (calculateArbitrageOpportunities rows (some limit)).head? = some o ∧
      o ∈ pairLoop s (rows.map normalizeRate) ∧
      ∀ x ∈ pairLoop s (rows.map normalizeRate), x.rateDifference ≤ o.rateDifference := by
  have hne : rows ≠ [] := by
    intro h
    rw [h] at hlen
    simp at hlen
  have hc : pairCandidates rows = pairLoop s (rows.map normalizeRate) := by
    rw [pairCandidates_eq, groupsBySymbol_single normalizeRate hne hsym]
    simp
  have hfloor : (1 : ℤ) ≤ ⌊limit⌋ := Int.le_floor.mpr (by exact_mod_cast hlimit)
  obtain ⟨n, hn⟩ : ∃ n, ⌊limit⌋.toNat = n + 1 := ⟨⌊limit⌋.toNat - 1, by omega⟩
  have hcne : pairLoop s (rows.map normalizeRate) ≠ [] := by
    match rows, hlen with
    | a :: b :: rest, _ => simp [pairLoop]
  unfold calculateArbitrageOpportunities
  simp only [Option.getD_some]
  rw [sliceFromZero_of_nonneg _ _ (by linarith), hc, hn]
  cases hs : sortDesc Opportunity.rateDifference (pairLoop s (rows.map normalizeRate)) with
  | nil =>
    have := length_sortDesc Opportunity.rateDifference (pairLoop s (rows.map normalizeRate))
    rw [hs] at this
    exact absurd (List.length_eq_zero.mp this.symm) hcne
  | cons o t =>
    have hh : (sortDesc Opportunity.rateDifference
        (pairLoop s (rows.map normalizeRate))).head? = some o := by rw [hs]; rfl
    obtain ⟨hmem, hmax⟩ := sortDesc_head_max Opportunity.rateDifference hh
    exact ⟨o, by simp, hmem, hmax⟩

/-- With rows of one symbol that names no member of `Object.prototype`, the extremal
policy with threshold 0 returns one opportunity: the largest rate minus the smallest. -/
theorem filter_single_symbol (rows : List FundingRow) (s : String) (now : ℕ)
    (hsym : ∀ r ∈ rows, r.symbol = s) (hlen : 2 ≤ rows.length)
    (hsafe : s ∉ objectPrototypeKeys) :
    ∃ f, filterArbitrageOpportunities rows (some 0) now = .ok [f] ∧
      ∃ a ∈ rows, ∃ b ∈ rows,
        (∀ r ∈ rows, normalizedRateOf r ≤ normalizedRateOf a) ∧
        (∀ r ∈ rows, normalizedRateOf b ≤ normalizedRateOf r) ∧
        f.rateDifference = normalizedRateOf a - normalizedRateOf b := by
  have hne : rows ≠ [] := by
    intro h
    rw [h] at hlen
    simp at hlen
  have hitems : (rows.map normalizeItem) ≠ [] := by simpa using hne
  have hent : objectEntries [(s, rows.map normalizeItem)] = [(s, rows.map normalizeItem)] :=
    List.perm_singleton.mp (objectEntries_perm _)
  have hsne : sortDesc NormalizedItem.rate (rows.map normalizeItem) ≠ [] := by
    intro h
    have := length_sortDesc NormalizedItem.rate (rows.map normalizeItem)
    rw [h] at this
    exact hitems (List.length_eq_zero.mp this.symm)
  obtain ⟨highest, hh⟩ : ∃ h, (sortDesc NormalizedItem.rate (rows.map normalizeItem)).head?
      = some h := by
    cases hs : sortDesc NormalizedItem.rate (rows.map normalizeItem) with
    | nil => exact absurd hs hsne
    | cons x t => exact ⟨x, rfl⟩
  obtain ⟨lowest, hl⟩ : ∃ l, (sortDesc NormalizedItem.rate (rows.map normalizeItem)).getLast?
      = some l := by
    cases hs : (sortDesc NormalizedItem.rate (rows.map normalizeItem)).getLast? with
    | none => exact absurd (List.getLast?_eq_none_iff.mp hs) hsne
    | some l => exact ⟨l, rfl⟩
  obtain ⟨hhm, hhmax⟩ := sortDesc_head_max NormalizedItem.rate hh
  obtain ⟨hlm, hlmin⟩ := sortDesc_last_min NormalizedItem.rate hl
  obtain ⟨a, ha, rfl⟩ := List.mem_map.mp hhm
  obtain ⟨b, hb, rfl⟩ := List.mem_map.mp hlm
  have hle : (0 : ℚ) ≤ (normalizeItem a).rate - (normalizeItem b).rate :=
    sub_nonneg.mpr (hhmax _ hlm)
  have hnot : ¬ (rows.map normalizeItem).length < 2 := by
    rw [List.length_map]
    omega
  refine ⟨{ symbol := s
            rateDifference := (normalizeItem a).rate - (normalizeItem b).rate
            longExchange := (normalizeItem b).exchange
            longRate := (normalizeItem b).rate
            longExchangeData := normalizeItem b
            shortExchange := (normalizeItem a).exchange
            shortRate := (normalizeItem a).rate
            shortExchangeData := normalizeItem a
            timestamp := now }, ?_, a, ha, b, hb, ?_, ?_, rfl⟩
  · unfold filterArbitrageOpportunities
    rw [symbolGroupsFrom_ok rows (fun r hr => by rw [hsym r hr]; exact hsafe),
      groupsBySymbol_single normalizeItem hne hsym]
    simp only [hent, List.flatMap_cons, List.flatMap_nil, List.append_nil, Option.getD_some,
      extremalOpportunity, hnot, if_false, hh, hl, hle, if_true]
    rfl
  · intro r hr
    exact hhmax (normalizeItem r) (List.mem_map_of_mem _ hr)
  · intro r hr
    exact hlmin (normalizeItem r) (List.mem_map_of_mem _ hr)

/-- For rows that all share one symbol, number at least two and whose symbol names no
member of `Object.prototype`, and for every limit of at least 1: the first opportunity of
`calculateArbitrageOpportunities` has the largest rate minus the smallest as its
`rateDifference`, and so has the single opportunity that
`filterArbitrageOpportunities` returns with threshold 0. -/
theorem policies_agree_on_safe_symbol (rows : List FundingRow) (s : String) (limit : ℚ)
    (now : ℕ) (hsym : ∀ r ∈ rows, r.symbol = s) (hlen : 2 ≤ rows.length)
    (hlimit : 1 ≤ limit) (hsafe : s ∉ objectPrototypeKeys) :
    ∃ o f, (calculateArbitrageOpportunities rows (some limit)).head? = some o ∧
      filterArbitrageOpportunities rows (some 0) now = .ok [f] ∧
      o.rateDifference = f.rateDifference ∧
      ∃ a ∈ rows, ∃ b ∈ rows,
        (∀ r ∈ rows, normalizedRateOf r ≤ normalizedRateOf a) ∧
        (∀ r ∈ rows, normalizedRateOf b ≤ normalizedRateOf r) ∧
        o.rateDifference = normalizedRateOf a - normalizedRateOf b := by
  obtain ⟨o, ho, hmem, hmax⟩ := calculate_head_single_symbol rows s limit hsym hlen hlimit
  obtain ⟨f, hf, a, ha, b, hb, hamax, hbmin, hrd⟩ :=
    filter_single_symbol rows s now hsym hlen hsafe
  have hkey : o.rateDifference = normalizedRateOf a - normalizedRateOf b := by
    apply le_antisymm
    · obtain ⟨r1, r2, hsub, rfl⟩ := mem_pairLoop hmem
      have h1 : r1 ∈ rows.map normalizeRate := hsub.subset (by simp)
      have h2 : r2 ∈ rows.map normalizeRate := hsub.subset (by simp)
      obtain ⟨x, hx, rfl⟩ := List.mem_map.mp h1
      obtain ⟨y, hy, rfl⟩ := List.mem_map.mp h2
      show |normalizedRateOf x - normalizedRateOf y| ≤ _
      rw [abs_le]
      have := hamax x hx
      have := hamax y hy
      have := hbmin x hx
      have := hbmin y hy
      constructor <;> linarith
    · by_cases heq : normalizedRateOf a = normalizedRateOf b
      · rw [heq, sub_self]
        obtain ⟨r1, r2, -, rfl⟩ := mem_pairLoop hmem
        exact abs_nonneg _
      · obtain ⟨c, hc, hcrd⟩ := @exists_pairLoop_of_rates_ne s (normalizeRate a)
          (normalizeRate b) (rows.map normalizeRate) (List.mem_map_of_mem _ ha)
          (List.mem_map_of_mem _ hb) heq
        have habs : |(normalizeRate a).rate - (normalizeRate b).rate|
            = normalizedRateOf a - normalizedRateOf b :=
          abs_of_nonneg (sub_nonneg.mpr (hamax b hb))
        rw [← habs, ← hcrd]
        exact hmax c hc
  exact ⟨o, f, ho, hf, hkey.trans hrd.symm, a, ha, b, hb, hamax, hbmin, hkey⟩


/-! ## The execute route in time -/

/-- On supported exchanges the handler calls the long leg, then the short leg, then
suspends on `Promise.all` of the two promises; what follows depends on how they settle. -/
theorem runHandler_execute_supported (req : TradeIntent) (env : SchedulerEnv) (start : ℕ)
    (longId shortId : ExchangeId)
    (hl : req.longExchange = some longId.name) (hs : req.shortExchange = some shortId.name) :
    runHandler env (executeHandler req env.isoNow) start
      = .called start (.long longId (legCall req longId)) ::
        .called start (.short shortId (legCall req shortId)) ::
        (match promiseAll [⟨start, env.executeLongOrder longId (legCall req longId)⟩,
            ⟨start, env.executeShortOrder shortId (legCall req shortId)⟩] with
          | none => [.suspended start]
          | some (t, .error m) =>
            [.suspended start, .resumed (max start t),
              .responded (max start t) 500 (.failure m)]
          | some (t, .ok results) =>
            [.suspended start, .resumed (max start t),
              if ((results.get? 0).join).isSome && ((results.get? 1).join).isSome then
                .responded (max start t) 200
                  (.success req.symbol req.longExchange req.shortExchange
                    (legSymbol req.symbol longId) (legSymbol req.symbol shortId)
                    (jsDiv req.positionSize req.leverage) env.isoNow)
              else
                .responded (max start t) 500
                  (.failure ("套利交易执行失败: " ++ jsString req.symbol))]) := by
  unfold executeHandler
  simp only [hl, hs, getExchangeApi_name, getExchangeSymbol_name]
  simp only [runHandler, promiseOf]
  change _ :: _ :: (match promiseAll [⟨start, env.executeLongOrder longId (legCall req longId)⟩,
      ⟨start, env.executeShortOrder shortId (legCall req shortId)⟩] with
    | none => _
    | some (t, result) => _) = _
  cases promiseAll [⟨start, env.executeLongOrder longId (legCall req longId)⟩,
      ⟨start, env.executeShortOrder shortId (legCall req shortId)⟩] with
  | none => rfl
  | some tr =>
    obtain ⟨t, result⟩ := tr
    cases result with
    | error m => rfl
    | ok results =>
      simp only [runHandler]
      split <;> rfl

/-- An `await` holds back what follows it: after a call whose promise never settles, a
handler that awaits that promise makes no further step, whatever its next statements. -/
theorem await_holds_back (env : SchedulerEnv) (d : Dispatch)
    (next : Except String (List (Option OrderResult)) → Handler) (now : ℕ)
    (hnever : (promiseOf env d).settlesAfter = none) :
    runHandler env (.call d (fun p => .awaitAll [p] next)) now
      = [.called now d, .suspended now] := by
  simp only [runHandler, promiseAll, firstRejectionAt, allFulfilledAt, Promise.settlesAt, hnever,
    Option.map_none']


/-- When both promises settle, the handler responds as the settled view `POST` says. -/
theorem runHandler_execute_settled (req : TradeIntent) (env : SchedulerEnv) (start : ℕ)
    (longId shortId : ExchangeId) (longTicks shortTicks : ℕ)
    (hl : req.longExchange = some longId.name) (hs : req.shortExchange = some shortId.name)
    (hlt : (env.executeLongOrder longId (legCall req longId)).settlesAfter = some longTicks)
    (hst : (env.executeShortOrder shortId (legCall req shortId)).settlesAfter
      = some shortTicks) :
    ∃ t, runHandler env (executeHandler req env.isoNow) start
      = [.called start (.long longId (legCall req longId)),
         .called start (.short shortId (legCall req shortId)),
         .suspended start, .resumed t,
         .responded t (POST req (env.settled longTicks shortTicks)).status
           (POST req (env.settled longTicks shortTicks)).body] := by
  rw [runHandler_execute_supported req env start longId shortId hl hs,
    POST_supported req (env.settled longTicks shortTicks) longId shortId hl hs]
  simp only [promiseAll, firstRejectionAt, allFulfilledAt, Promise.settlesAt, hlt, hst,
    Option.map_some', SchedulerEnv.settled, promiseAll2]
  cases hlo : (env.executeLongOrder longId (legCall req longId)).outcome with
  | fulfilled a =>
    cases hso : (env.executeShortOrder shortId (legCall req shortId)).outcome with
    | fulfilled b =>
      refine ⟨max start (max (start + longTicks) (max (start + shortTicks) 0)), ?_⟩
      have hj : ∀ x : Option OrderResult, (some x).join = x := fun _ => rfl
      simp only [List.get?_cons_zero, List.get?_cons_succ, hj]
      by_cases hab : (a.isSome && b.isSome) = true
      · simp only [hab, if_true]
      · simp only [hab]
        rfl
    | rejected ms => exact ⟨_, rfl⟩
  | rejected ml =>
    cases hso : (env.executeShortOrder shortId (legCall req shortId)).outcome with
    | fulfilled b => exact ⟨_, rfl⟩
    | rejected ms =>
      by_cases h : shortTicks < longTicks
      · have h' : start + shortTicks < start + longTicks := by omega
        simp only [h, h', if_true, decide_True]
        exact ⟨_, rfl⟩
      · have h' : ¬ start + shortTicks < start + longTicks := by omega
        simp only [h, h', if_false, decide_False]
        exact ⟨_, rfl⟩


/-! ## Rows of numbers among the rows of JavaScript -/

theorem firstTruthy_num (a b : Option ℚ) :
    firstTruthy [a.map JsScalar.num, b.map JsScalar.num] = .num (jsOrNum a (jsOrNum b 0)) := by
  cases a with
  | none =>
    cases b with
    | none => rfl
    | some y => by_cases hy : y = 0 <;> simp [firstTruthy, jsOrNum, JsScalar.truthy, hy]
  | some x =>
    by_cases hx : x = 0
    · cases b with
      | none => simp [firstTruthy, jsOrNum, JsScalar.truthy, hx]
      | some y => by_cases hy : y = 0 <;> simp [firstTruthy, jsOrNum, JsScalar.truthy, hx, hy]
    · simp [firstTruthy, jsOrNum, JsScalar.truthy, hx]

theorem normalizeRate_toScalar (r : FundingRow) :
    Scalar.normalizeRate r.toScalar = (normalizeRate r).toScalar := by
  simp only [Scalar.normalizeRate, FundingRow.toScalar, NormalizedRate.toScalar, normalizeRate,
    normalizedRateOf, firstTruthy_num]

theorem mapPush_map {β γ : Type} (f : β → γ) (k : String) (v : β) :
    ∀ m : List (String × List β),
      mapPush (m.map (fun e => (e.1, e.2.map f))) k (f v)
        = (mapPush m k v).map (fun e => (e.1, e.2.map f))
  | [] => rfl
  | (k', vs) :: rest => by
    have ih := mapPush_map f k v rest
    by_cases h : k' = k
    · simp [mapPush, h]
    · simp [mapPush, h, ih]

theorem symbolMap_toScalar (rows : List FundingRow) :
    Scalar.symbolMap (rows.map FundingRow.toScalar)
      = (symbolMap rows).map (fun e => (e.1, e.2.map NormalizedRate.toScalar)) := by
  have key : ∀ (rows : List FundingRow) (m : List (String × List NormalizedRate)),
      (rows.map FundingRow.toScalar).foldl
          (fun m r => mapPush m r.symbol (Scalar.normalizeRate r))
          (m.map (fun e => (e.1, e.2.map NormalizedRate.toScalar)))
        = (rows.foldl (fun m r => mapPush m r.symbol (normalizeRate r)) m).map
            (fun e => (e.1, e.2.map NormalizedRate.toScalar)) := by
    intro rows
    induction rows with
    | nil => intro m; rfl
    | cons r rows ih =>
      intro m
      simp only [List.map_cons, List.foldl_cons]
      rw [normalizeRate_toScalar]
      have hs : r.toScalar.symbol = r.symbol := rfl
      rw [hs, mapPush_map NormalizedRate.toScalar r.symbol (normalizeRate r) m, ih]
  exact key rows []

theorem pairOpportunity_toScalar (numberOf : String → Option ℚ) (symbol : String)
    (a b : NormalizedRate) :
    Scalar.pairOpportunity numberOf symbol a.toScalar b.toScalar
      = (pairOpportunity symbol a b).toScalar := by
  by_cases h : a.rate < b.rate <;>
    simp [Scalar.pairOpportunity, pairOpportunity, Opportunity.toScalar, NormalizedRate.toScalar,
      jsLess, jsMinus, JsScalar.toNumber, h]

theorem pairLoop_toScalar (numberOf : String → Option ℚ) (symbol : String) :
    ∀ rates : List NormalizedRate,
      Scalar.pairLoop numberOf symbol (rates.map NormalizedRate.toScalar)
        = (pairLoop symbol rates).map Opportunity.toScalar
  | [] => rfl
  | a :: rest => by
    simp only [List.map_cons, Scalar.pairLoop, pairLoop, List.map_append, List.map_map,
      pairLoop_toScalar numberOf symbol rest]
    congr 1
    apply List.map_congr_left
    intro b _
    exact pairOpportunity_toScalar numberOf symbol a b

theorem pairCandidates_toScalar (numberOf : String → Option ℚ) (rows : List FundingRow) :
    Scalar.pairCandidates numberOf (rows.map FundingRow.toScalar)
      = (pairCandidates rows).map Opportunity.toScalar := by
  unfold Scalar.pairCandidates pairCandidates
  rw [symbolMap_toScalar, List.flatMap_map, List.map_flatMap]
  apply List.flatMap_congr
  intro e _
  simp only [Scalar.groupOpportunities, groupOpportunities, List.length_map]
  by_cases h : e.2.length < 2
  · simp [h]
  · simp only [h, if_false]
    exact pairLoop_toScalar numberOf e.1 e.2

theorem sliceFromZero_map {α β : Type} (f : α → β) (xs : List α) (e : ℚ) :
    sliceFromZero (xs.map f) e = (sliceFromZero xs e).map f := by
  unfold sliceFromZero
  simp only [List.length_map]
  split <;> rw [List.map_take]

/-- On rows whose rates are numbers, `calculateArbitrageOpportunities` as JavaScript runs
it returns what the definition on `FundingRow`s returns. -/
theorem calculate_numeric_rows (numberOf : String → Option ℚ) (rows : List FundingRow)
    (limit : Option ℚ) :
    Scalar.calculateArbitrageOpportunities numberOf (rows.map FundingRow.toScalar) limit
      = (calculateArbitrageOpportunities rows limit).map Opportunity.toScalar := by
  unfold Scalar.calculateArbitrageOpportunities calculateArbitrageOpportunities
  rw [pairCandidates_toScalar, ← sliceFromZero_map]
  congr 1
  unfold Scalar.sortDesc sortDesc
  symm
  apply List.map_insertionSort
  intro a _ b _
  simp [Opportunity.toScalar, Scalar.staysBefore]


/-! ## Where an opportunity of the rows of JavaScript comes from -/

theorem mem_mapPush {β : Type} {k : String} {v x : β} :
    ∀ {m : List (String × List β)} {e : String × List β},
      e ∈ mapPush m k v → x ∈ e.2 → x = v ∨ ∃ e' ∈ m, x ∈ e'.2
  | [], e, he, hx => by
    simp only [mapPush, List.mem_singleton] at he
    subst he
    simp only [List.mem_singleton] at hx
    exact Or.inl hx
  | (k', vs) :: rest, e, he, hx => by
    unfold mapPush at he
    by_cases hk : k' = k
    · simp only [hk, if_true, List.mem_cons] at he
      rcases he with rfl | he
      · rcases List.mem_append.mp hx with h | h
        · exact Or.inr ⟨(k', vs), List.mem_cons_self _ _, h⟩
        · exact Or.inl (List.mem_singleton.mp h)
      · exact Or.inr ⟨e, List.mem_cons_of_mem _ he, hx⟩
    · simp only [hk, if_false, List.mem_cons] at he
      rcases he with rfl | he
      · exact Or.inr ⟨(k', vs), List.mem_cons_self _ _, hx⟩
      · rcases @mem_mapPush β k v x rest e he hx with h | ⟨e', he', hx'⟩
        · exact Or.inl h
        · exact Or.inr ⟨e', List.mem_cons_of_mem _ he', hx'⟩

theorem mem_scalar_symbolMap {rows : List ScalarRow} {e : String × List ScalarRate}
    {x : ScalarRate} (he : e ∈ Scalar.symbolMap rows) (hx : x ∈ e.2) :
    ∃ r ∈ rows, x = Scalar.normalizeRate r := by
  have key : ∀ (rows : List ScalarRow) (m : List (String × List ScalarRate)),
      ∀ e ∈ rows.foldl (fun m r => mapPush m r.symbol (Scalar.normalizeRate r)) m,
        ∀ x ∈ e.2, (∃ r ∈ rows, x = Scalar.normalizeRate r) ∨ ∃ e' ∈ m, x ∈ e'.2 := by
    intro rows
    induction rows with
    | nil => intro m e he x hx; exact Or.inr ⟨e, he, hx⟩
    | cons r rows ih =>
      intro m e he x hx
      rw [List.foldl_cons] at he
      rcases ih _ e he x hx with ⟨r', hr', h⟩ | ⟨e', he', hx'⟩
      · exact Or.inl ⟨r', List.mem_cons_of_mem _ hr', h⟩
      · rcases mem_mapPush he' hx' with h | h
        · exact Or.inl ⟨r, List.mem_cons_self _ _, h⟩
        · exact Or.inr h
  rcases key rows [] e he x hx with h | ⟨e', he', _⟩
  · exact h
  · exact absurd he' (List.not_mem_nil e')

theorem mem_scalar_pairLoop {numberOf : String → Option ℚ} {symbol : String}
    {o : ScalarOpportunity} :
    ∀ {rates : List ScalarRate}, o ∈ Scalar.pairLoop numberOf symbol rates →
      ∃ r1 ∈ rates, ∃ r2 ∈ rates, o = Scalar.pairOpportunity numberOf symbol r1 r2
  | [], h => by simp [Scalar.pairLoop] at h
  | a :: rest, h => by
    simp only [Scalar.pairLoop, List.mem_append, List.mem_map] at h
    rcases h with ⟨b, hb, rfl⟩ | h
    · exact ⟨a, List.mem_cons_self _ _, b, List.mem_cons_of_mem _ hb, rfl⟩
    · obtain ⟨r1, h1, r2, h2, ho⟩ := @mem_scalar_pairLoop numberOf symbol o rest h
      exact ⟨r1, List.mem_cons_of_mem _ h1, r2, List.mem_cons_of_mem _ h2, ho⟩

/-- Every opportunity that `calculateArbitrageOpportunities` returns in JavaScript is the
pair of two normalized rows of the input. -/
theorem mem_scalar_calculate {numberOf : String → Option ℚ} {rows : List ScalarRow}
    {limit : Option ℚ} {o : ScalarOpportunity}
    (h : o ∈ Scalar.calculateArbitrageOpportunities numberOf rows limit) :
    ∃ symbol, ∃ r1 ∈ rows, ∃ r2 ∈ rows,
      o = Scalar.pairOpportunity numberOf symbol (Scalar.normalizeRate r1)
        (Scalar.normalizeRate r2) := by
  unfold Scalar.calculateArbitrageOpportunities at h
  have h1 := (sliceFromZero_initial_segment _ _).subset h
  have h2 : o ∈ Scalar.pairCandidates numberOf rows :=
    (List.perm_insertionSort _ _).subset h1
  unfold Scalar.pairCandidates at h2
  obtain ⟨e, he, ho⟩ := List.mem_flatMap.mp h2
  unfold Scalar.groupOpportunities at ho
  split at ho
  · exact absurd ho (List.not_mem_nil o)
  · obtain ⟨x1, hx1, x2, hx2, rfl⟩ := mem_scalar_pairLoop ho
    obtain ⟨r1, hr1, rfl⟩ := mem_scalar_symbolMap he hx1
    obtain ⟨r2, hr2, rfl⟩ := mem_scalar_symbolMap he hx2
    exact ⟨e.1, r1, hr1, r2, hr2, rfl⟩

theorem normalizeRate_rate_of_numbers {r : ScalarRow} (h : r.ratesAreNumbers = true) :
    ∃ q, (Scalar.normalizeRate r).rate = .num q := by
  have hnum : (firstTruthy [r.fundingRate, r.rate]).isNum = true := by
    apply firstTruthy_isNum
    intro v hv x hx
    unfold ScalarRow.ratesAreNumbers at h
    simp only [Bool.and_eq_true] at h
    simp only [List.mem_cons, List.mem_singleton, List.not_mem_nil, or_false] at hv
    rcases hv with rfl | rfl
    · have := h.1
      rw [hx] at this
      simpa using this
    · have := h.2
      rw [hx] at this
      simpa using this
  change ∃ q, firstTruthy [r.fundingRate, r.rate] = .num q
  cases hf : firstTruthy [r.fundingRate, r.rate] with
  | num q => exact ⟨q, rfl⟩
  | str t => rw [hf] at hnum; cases hnum


/-- A run in which both legs return an order: the long leg after 7 ticks, the short leg
after 5; the handler resumes and responds when the later of the two has settled. -/
theorem runHandler_execute_sample :
    runHandler bothSettleEnv (executeHandler sampleIntent bothSettleEnv.isoNow) 0
      = [.called 0 (.long .gate (legCall sampleIntent .gate)),
         .called 0 (.short .bitget (legCall sampleIntent .bitget)),
         .suspended 0, .resumed 7,
         .responded 7 200
           (.success (some "BTC") (some "gate") (some "bitget") "BTC/USDT:USDT"
             "BTC/USDT:USDT" (some 50) "2025-01-01T00:00:00.000Z")] := by
  decide!


/-! # The claims -/

/-- C1. Every opportunity that `filterArbitrageOpportunities` returns has `longRate`
equal to the minimum and `shortRate` equal to the maximum of the normalized rates of
all input rows with its symbol, and `longExchange` / `shortExchange` are the exchanges
of rows that attain that minimum / maximum. -/
theorem filter_long_is_min_short_is_max (rows : List FundingRow) (threshold : Option ℚ)
    (now : ℕ) (opps : List FilteredOpportunity) (o : FilteredOpportunity)
    (h : filterArbitrageOpportunities rows threshold now = .ok opps) (ho : o ∈ opps) :
    (o.longRate ∈ (rowsOf rows o.symbol).map normalizedRateOf ∧
      ∀ x ∈ (rowsOf rows o.symbol).map normalizedRateOf, o.longRate ≤ x) ∧
    (o.shortRate ∈ (rowsOf rows o.symbol).map normalizedRateOf ∧
      ∀ x ∈ (rowsOf rows o.symbol).map normalizedRateOf, x ≤ o.shortRate) ∧
    (∃ r ∈ rowsOf rows o.symbol,
      r.exchange = o.longExchange ∧ normalizedRateOf r = o.longRate) ∧
    (∃ r ∈ rowsOf rows o.symbol,
      r.exchange = o.shortExchange ∧ normalizedRateOf r = o.shortRate) := by
  obtain ⟨hi, lo, hhi, hlo, hmax, hmin, _, _, ho'⟩ := mem_filter h ho
  have e1 : o.longRate = normalizedRateOf lo := by rw [ho']
  have e2 : o.shortRate = normalizedRateOf hi := by rw [ho']
  have e3 : o.longExchange = lo.exchange := by rw [ho']
  have e4 : o.shortExchange = hi.exchange := by rw [ho']
  refine ⟨⟨?_, ?_⟩, ⟨?_, ?_⟩, ⟨lo, hlo, e3.symm, e1.symm⟩, ⟨hi, hhi, e4.symm, e2.symm⟩⟩
  · rw [e1]; exact List.mem_map.2 ⟨lo, hlo, rfl⟩
  · intro x hx
    obtain ⟨r, hr, rfl⟩ := List.mem_map.1 hx
    rw [e1]; exact hmin r hr
  · rw [e2]; exact List.mem_map.2 ⟨hi, hhi, rfl⟩
  · intro x hx
    obtain ⟨r, hr, rfl⟩ := List.mem_map.1 hx
    rw [e2]; exact hmax r hr

/-- Witness of C1: the opportunity of `btcRows`. -/
theorem filter_long_is_min_short_is_max_witness :
    filterArbitrageOpportunities btcRows none 0 = .ok [btcOpportunity] ∧
    btcOpportunity ∈ [btcOpportunity] ∧
    ((btcOpportunity.longRate ∈ (rowsOf btcRows btcOpportunity.symbol).map normalizedRateOf ∧
      ∀ x ∈ (rowsOf btcRows btcOpportunity.symbol).map normalizedRateOf,
        btcOpportunity.longRate ≤ x) ∧
    (btcOpportunity.shortRate ∈ (rowsOf btcRows btcOpportunity.symbol).map normalizedRateOf ∧
      ∀ x ∈ (rowsOf btcRows btcOpportunity.symbol).map normalizedRateOf,
        x ≤ btcOpportunity.shortRate) ∧
    (∃ r ∈ rowsOf btcRows btcOpportunity.symbol,
      r.exchange = btcOpportunity.longExchange ∧
        normalizedRateOf r = btcOpportunity.longRate) ∧
    (∃ r ∈ rowsOf btcRows btcOpportunity.symbol,
      r.exchange = btcOpportunity.shortExchange ∧
        normalizedRateOf r = btcOpportunity.shortRate)) :=
  ⟨by decide!, List.mem_singleton.2 rfl,
    filter_long_is_min_short_is_max btcRows none 0 [btcOpportunity] btcOpportunity
      (by decide!) (List.mem_singleton.2 rfl)⟩

/-- C2, refuted as stated: two rows of BTC whose rates are the texts `-0.25` and `-0.5`,
as `fetchFundingRates` passes them on from `rate.info`.  The comparison of line 40
compares the texts, so `calculateArbitrageOpportunities` takes `-0.25` as the long rate
and `-0.5` as the short rate: `longRate > shortRate`, and `rateDifference` 0.25 is not
`shortRate - longRate`.  The second part is the same through `fetchFundingRates`. -/
theorem string_rates_counterexample :
    (Scalar.calculateArbitrageOpportunities sampleNumberOf textRows none).map
        (fun o => (o.longExchange, o.longRate, o.shortExchange, o.shortRate))
      = [("A", .str "-0.25", "B", .str "-0.5")] ∧
    (Scalar.calculateArbitrageOpportunities sampleNumberOf textRows none).map
        ScalarOpportunity.rateDifference = [some (1 / 4)] ∧
    (JsScalar.str "-0.25").toNumber sampleNumberOf = some (-1 / 4) ∧
    (JsScalar.str "-0.5").toNumber sampleNumberOf = some (-1 / 2) ∧
    ¬ ((-1 / 4 : ℚ) ≤ -1 / 2) ∧ (1 / 4 : ℚ) ≠ -1 / 2 - -1 / 4 ∧
    (fetchFundingRates textFundingEnv ["hyperliquid", "gate"]).toOption.map
        (fun r => r.arbitrageOpportunities.map
          (fun o => (o.longExchange, o.longRate, o.shortExchange, o.shortRate)))
      = some [("hyperliquid", .str "-0.25", "gate", .str "-0.5")] := by
  decide!

/-- C2, amended. For every input list whose rates are numbers, negative and zero rates
included, every opportunity emitted by `calculateArbitrageOpportunities` and by
`filterArbitrageOpportunities` has `longRate ≤ shortRate` and
`rateDifference = shortRate - longRate = |longRate - shortRate| ≥ 0`.  The third part
says the same of `calculateArbitrageOpportunities` as JavaScript runs it, for rows whose
`fundingRate` and `rate` are each absent or a number, whatever their other fields hold. -/
theorem rateDifference_is_nonneg_gap (rows : List FundingRow) (limit threshold : Option ℚ)
    (now : ℕ) :
    (∀ o ∈ calculateArbitrageOpportunities rows limit,
      o.longRate ≤ o.shortRate ∧ o.rateDifference = o.shortRate - o.longRate ∧
      o.rateDifference = |o.longRate - o.shortRate| ∧ 0 ≤ o.rateDifference) ∧
    (∀ opps, filterArbitrageOpportunities rows threshold now = .ok opps → ∀ o ∈ opps,
      o.longRate ≤ o.shortRate ∧ o.rateDifference = o.shortRate - o.longRate ∧
      o.rateDifference = |o.longRate - o.shortRate| ∧ 0 ≤ o.rateDifference) ∧
    (∀ (numberOf : String → Option ℚ) (scalarRows : List ScalarRow),
      (∀ r ∈ scalarRows, r.ratesAreNumbers = true) →
      ∀ o ∈ Scalar.calculateArbitrageOpportunities numberOf scalarRows limit,
        ∃ long short : ℚ, o.longRate = .num long ∧ o.shortRate = .num short ∧
          long ≤ short ∧ o.rateDifference = some (short - long) ∧
          short - long = |long - short| ∧ 0 ≤ short - long) := by
  refine ⟨?_, ?_, ?_⟩
  · intro o ho
    obtain ⟨k, r1, r2, _, rfl⟩ := mem_pairCandidates (mem_calculate ho)
    by_cases hlt : (normalizeRate r1).rate < (normalizeRate r2).rate
    · simp only [pairOpportunity, hlt, if_true]
      have h1 : (normalizeRate r1).rate - (normalizeRate r2).rate ≤ 0 := by linarith
      refine ⟨le_of_lt hlt, ?_, ?_, abs_nonneg _⟩
      · rw [abs_of_nonpos h1]; ring
      · trivial
    · simp only [pairOpportunity, hlt, if_false]
      have h1 : 0 ≤ (normalizeRate r1).rate - (normalizeRate r2).rate := by
        linarith [not_lt.1 hlt]
      refine ⟨not_lt.1 hlt, abs_of_nonneg h1, ?_, abs_nonneg _⟩
      rw [abs_sub_comm]
  · intro opps h o ho
    obtain ⟨hi, lo, _, hlo, hmax, _, _, _, ho'⟩ := mem_filter h ho
    have hle : normalizedRateOf lo ≤ normalizedRateOf hi := hmax lo hlo
    have e1 : o.longRate = normalizedRateOf lo := by rw [ho']
    have e2 : o.shortRate = normalizedRateOf hi := by rw [ho']
    have e3 : o.rateDifference = normalizedRateOf hi - normalizedRateOf lo := by rw [ho']
    rw [e1, e2, e3]
    refine ⟨hle, rfl, ?_, by linarith⟩
    rw [abs_sub_comm, abs_of_nonneg (by linarith)]
  · intro numberOf scalarRows hnum o ho
    obtain ⟨symbol, r1, hr1, r2, hr2, rfl⟩ := mem_scalar_calculate ho
    obtain ⟨q1, h1⟩ := normalizeRate_rate_of_numbers (hnum r1 hr1)
    obtain ⟨q2, h2⟩ := normalizeRate_rate_of_numbers (hnum r2 hr2)
    by_cases hlt : q1 < q2
    · refine ⟨q1, q2, ?_, ?_, le_of_lt hlt, ?_, ?_, by linarith⟩
      · simp [Scalar.pairOpportunity, jsLess, JsScalar.toNumber, h1, h2, hlt]
      · simp [Scalar.pairOpportunity, jsLess, JsScalar.toNumber, h1, h2, hlt]
      · have hneg : q1 - q2 ≤ 0 := by linarith
        simp [Scalar.pairOpportunity, jsMinus, JsScalar.toNumber, h1, h2,
          abs_of_nonpos hneg]
      · rw [abs_of_nonpos (by linarith)]
        ring
    · have hle : q2 ≤ q1 := not_lt.1 hlt
      refine ⟨q2, q1, ?_, ?_, hle, ?_, ?_, by linarith⟩
      · simp [Scalar.pairOpportunity, jsLess, JsScalar.toNumber, h1, h2, hlt]
      · simp [Scalar.pairOpportunity, jsLess, JsScalar.toNumber, h1, h2, hlt]
      · have hpos : 0 ≤ q1 - q2 := by linarith
        simp [Scalar.pairOpportunity, jsMinus, JsScalar.toNumber, h1, h2,
          abs_of_nonneg hpos]
      · rw [abs_sub_comm, abs_of_nonneg (by linarith)]

/-- Witness of C2 amended, on `dyadicRows`: the pair of ETH between the exchanges A (rate
3/1024) and C (rate -1/1024) under the exhaustive policy, and the three opportunities
of the extremal policy. -/
theorem rateDifference_is_nonneg_gap_witness :
    (samplePair (sampleRow "A" "ETH" (3 / 1024)) (sampleRow "C" "ETH" (-1 / 1024))
        ∈ calculateArbitrageOpportunities dyadicRows none ∧
      (samplePair (sampleRow "A" "ETH" (3 / 1024))
          (sampleRow "C" "ETH" (-1 / 1024))).longRate = -1 / 1024 ∧
      (samplePair (sampleRow "A" "ETH" (3 / 1024))
          (sampleRow "C" "ETH" (-1 / 1024))).shortRate = 3 / 1024 ∧
      (samplePair (sampleRow "A" "ETH" (3 / 1024))
          (sampleRow "C" "ETH" (-1 / 1024))).rateDifference = 4 / 1024) ∧
    filterArbitrageOpportunities dyadicRows none 0 = .ok dyadicFiltered ∧
    dyadicFiltered.map (fun o => (o.symbol, o.longRate, o.shortRate, o.rateDifference))
      = [("ETH", -1 / 1024, 3 / 1024, 4 / 1024), ("BTC", 1 / 1024, 5 / 1024, 4 / 1024),
         ("SOL", 1 / 1024, 2 / 1024, 1 / 1024)] ∧
    (∀ o ∈ dyadicFiltered, o.longRate ≤ o.shortRate ∧
      o.rateDifference = o.shortRate - o.longRate ∧
      o.rateDifference = |o.longRate - o.shortRate| ∧ 0 ≤ o.rateDifference) ∧
    (∀ r ∈ dyadicRows.map FundingRow.toScalar, r.ratesAreNumbers = true) ∧
    (Scalar.calculateArbitrageOpportunities sampleNumberOf
        (dyadicRows.map FundingRow.toScalar) none).map
        (fun o => (o.symbol, o.longRate, o.shortRate))
      = [("ETH", .num (-1 / 1024), .num (3 / 1024)), ("BTC", .num (1 / 1024), .num (5 / 1024)),
         ("ETH", .num (1 / 1024), .num (3 / 1024)), ("ETH", .num (-1 / 1024), .num (1 / 1024)),
         ("SOL", .num (1 / 1024), .num (2 / 1024))] ∧
    ∀ o ∈ Scalar.calculateArbitrageOpportunities sampleNumberOf
        (dyadicRows.map FundingRow.toScalar) none,
      ∃ long short : ℚ, o.longRate = .num long ∧ o.shortRate = .num short ∧
        long ≤ short ∧ o.rateDifference = some (short - long) ∧
        short - long = |long - short| ∧ 0 ≤ short - long :=
  ⟨⟨by decide!, by decide!, by decide!,
      (((rateDifference_is_nonneg_gap dyadicRows none none 0).1 _ (by decide!)).2.1).trans
        (by decide!)⟩,
    by decide!, by decide!,
    (rateDifference_is_nonneg_gap dyadicRows none none 0).2.1 dyadicFiltered (by decide!),
    by decide!, by decide!,
    (rateDifference_is_nonneg_gap dyadicRows none none 0).2.2 sampleNumberOf
      (dyadicRows.map FundingRow.toScalar) (by decide!)⟩

/-- C5. For every input, the list returned by `calculateArbitrageOpportunities` and the
list returned by `filterArbitrageOpportunities` are sorted by `rateDifference` in
non-increasing order: each element's `rateDifference` is at least that of every later
element, in particular of the element right after it. -/
theorem outputs_sorted_descending (rows : List FundingRow) (limit threshold : Option ℚ)
    (now : ℕ) :
    (calculateArbitrageOpportunities rows limit).Pairwise
        (fun a b => b.rateDifference ≤ a.rateDifference) ∧
    (∀ opps, filterArbitrageOpportunities rows threshold now = .ok opps →
      opps.Pairwise (fun a b => b.rateDifference ≤ a.rateDifference)) := by
  constructor
  · exact (sortDesc_sorted _ _).sublist (calculate_initial_segment rows limit).sublist
  · intro opps h
    unfold filterArbitrageOpportunities at h
    split at h
    · simp at h
    · simp only [Except.ok.injEq] at h
      subst h
      exact sortDesc_sorted _ _

/-- Witness of C5, on `dyadicRows`: five opportunities under the exhaustive policy and
three under the extremal policy, with differences that are exact in binary floating
point. -/
theorem outputs_sorted_descending_witness :
    (calculateArbitrageOpportunities dyadicRows none).map Opportunity.rateDifference
      = [4 / 1024, 4 / 1024, 2 / 1024, 2 / 1024, 1 / 1024] ∧
    (calculateArbitrageOpportunities dyadicRows none).Pairwise
      (fun a b => b.rateDifference ≤ a.rateDifference) ∧
    filterArbitrageOpportunities dyadicRows none 0 = .ok dyadicFiltered ∧
    dyadicFiltered.map FilteredOpportunity.rateDifference = [4 / 1024, 4 / 1024, 1 / 1024] ∧
    dyadicFiltered.Pairwise (fun a b => b.rateDifference ≤ a.rateDifference) :=
  ⟨by decide!, (outputs_sorted_descending dyadicRows none none 0).1, by decide!, by decide!,
    (outputs_sorted_descending dyadicRows none none 0).2 dyadicFiltered (by decide!)⟩

/-- C3. For every input list in which each (symbol, exchange) pair occurs at most once
and every limit not smaller than the number of candidates,
`calculateArbitrageOpportunities` returns exactly one opportunity for every unordered
pair of rows sharing a symbol (first part) and nothing else (second part), so a symbol
quoted on `n` exchanges contributes `n (n - 1) / 2` opportunities (third part). -/
theorem pairwise_policy_one_per_pair (rows : List FundingRow) (limit : ℚ)
    (hnodup : (rows.map (fun r => (r.symbol, r.exchange))).Nodup)
    (hlimit : ((pairCandidates rows).length : ℚ) ≤ limit) :
    (∀ r1 ∈ rows, ∀ r2 ∈ rows, r1.symbol = r2.symbol → r1.exchange ≠ r2.exchange →
      (calculateArbitrageOpportunities rows (some limit)).countP
        (isPairOf r1.symbol r1.exchange r2.exchange) = 1) ∧
    (∀ o ∈ calculateArbitrageOpportunities rows (some limit),
      ∃ r1 ∈ rows, ∃ r2 ∈ rows, r1.symbol = o.symbol ∧ r2.symbol = o.symbol ∧
        r1.exchange ≠ r2.exchange ∧
        o = pairOpportunity o.symbol (normalizeRate r1) (normalizeRate r2)) ∧
    (∀ symbol, (calculateArbitrageOpportunities rows (some limit)).countP
        (fun o => decide (o.symbol = symbol))
      = (rowsOf rows symbol).length * ((rowsOf rows symbol).length - 1) / 2) := by
  rw [calculate_eq_of_limit rows limit hlimit]
  refine ⟨?_, ?_, ?_⟩
  · intro r1 h1 r2 h2 hsym hex
    rw [(sortDesc_perm _ _).countP_eq]
    exact countP_pairCandidates_pair hnodup h1 h2 hsym hex
  · intro o ho
    obtain ⟨k, r1, r2, hs, rfl⟩ := mem_pairCandidates ((mem_sortDesc _).1 ho)
    have hr1 := mem_rowsOf.1 (hs.subset (List.mem_cons_self _ _))
    have hr2 := mem_rowsOf.1 (hs.subset (List.mem_cons_of_mem _ (List.mem_singleton.2 rfl)))
    have hnd : ([r1, r2].map FundingRow.exchange).Nodup :=
      (nodup_exchange_rowsOf hnodup k).sublist (hs.map _)
    refine ⟨r1, hr1.1, r2, hr2.1, hr1.2, hr2.2, ?_, rfl⟩
    simpa using hnd
  · intro symbol
    rw [(sortDesc_perm _ _).countP_eq]
    exact countP_pairCandidates_symbol rows symbol

/-- Witness of C3: `ethRows`, three exchanges, yields exactly 3 opportunities, and the
pair of rates -0.0002 and 0.0003, of difference 0.0005, ranks first. -/
theorem pairwise_policy_one_per_pair_witness :
    (ethRows.map (fun r => (r.symbol, r.exchange))).Nodup ∧
    ((pairCandidates ethRows).length : ℚ) ≤ 10 ∧
    (calculateArbitrageOpportunities ethRows (some 10)).countP
      (fun o => decide (o.symbol = "ETH")) = 3 ∧
    (calculateArbitrageOpportunities ethRows (some 10)).length = 3 ∧
    (calculateArbitrageOpportunities ethRows (some 10)).head?
      = some (samplePair (sampleRow "A" "ETH" (3 / 10000))
          (sampleRow "B" "ETH" (-2 / 10000))) ∧
    (samplePair (sampleRow "A" "ETH" (3 / 10000)) (sampleRow "B" "ETH" (-2 / 10000))).longRate
      = -2 / 10000 ∧
    (samplePair (sampleRow "A" "ETH" (3 / 10000)) (sampleRow "B" "ETH" (-2 / 10000))).shortRate
      = 3 / 10000 ∧
    (samplePair (sampleRow "A" "ETH" (3 / 10000))
      (sampleRow "B" "ETH" (-2 / 10000))).rateDifference = 5 / 10000 :=
  ⟨by decide!, by decide!,
    ((pairwise_policy_one_per_pair ethRows 10 (by decide!) (by decide!)).2.2 "ETH").trans
      (by decide!),
    by decide!, by decide!, by decide!, by decide!, by decide!⟩

/-- C4, at the input on which the code departs from it: two rows of the symbol
`constructor`, whose rates differ by more than the threshold, make
`filterArbitrageOpportunities` throw instead of returning the one opportunity, while
`calculateArbitrageOpportunities`, which groups with a `Map`, returns it. -/
theorem filter_throws_on_prototype_symbol :
    filterArbitrageOpportunities prototypeRows none 0
      = .error "TypeError: symbolGroups[item.symbol].push is not a function" ∧
    (calculateArbitrageOpportunities prototypeRows none).length = 1 := by
  decide!

/-- C6, refuted as stated: with the limit `-1` the three candidates of `ethRows` are
cut to two, which is more than the limit and not the first `min(limit, total)`. -/
theorem calculate_negative_limit_counterexample :
    (calculateArbitrageOpportunities ethRows (some (-1))).length = 2 ∧
    ¬ (((calculateArbitrageOpportunities ethRows (some (-1))).length : ℚ) ≤ -1) ∧
    calculateArbitrageOpportunities ethRows (some (-1))
      ≠ (sortDesc Opportunity.rateDifference (pairCandidates ethRows)).take
          (min (⌊(-1 : ℚ)⌋.toNat) (pairCandidates ethRows).length) := by
  decide!

/-- C6, amended. For every input list and every limit that is not negative,
`calculateArbitrageOpportunities` returns the first `min(limit, total)` elements (a
fractional limit counting as its integer part) of the full candidate list sorted by
`rateDifference` descending, so it never returns more than `limit` opportunities and
every dropped candidate has a `rateDifference` at most that of every kept one; when no
limit is supplied it uses 10. -/
theorem calculate_truncates_to_limit (rows : List FundingRow) (limit : ℚ)
    (h : 0 ≤ limit) :
    calculateArbitrageOpportunities rows (some limit)
      = (sortDesc Opportunity.rateDifference (pairCandidates rows)).take
          (min ⌊limit⌋.toNat (pairCandidates rows).length) ∧
    ((calculateArbitrageOpportunities rows (some limit)).length : ℚ) ≤ limit ∧
    (∀ kept ∈ calculateArbitrageOpportunities rows (some limit),
      ∀ dropped ∈ (sortDesc Opportunity.rateDifference (pairCandidates rows)).drop
          ⌊limit⌋.toNat,
        dropped.rateDifference ≤ kept.rateDifference) ∧
    calculateArbitrageOpportunities rows none
      = calculateArbitrageOpportunities rows (some 10) := by
  have hcalc : calculateArbitrageOpportunities rows (some limit)
      = (sortDesc Opportunity.rateDifference (pairCandidates rows)).take ⌊limit⌋.toNat :=
    sliceFromZero_of_nonneg _ _ h
  refine ⟨?_, ?_, ?_, rfl⟩
  · rw [hcalc, List.take_eq_take, length_sortDesc]
    simp
  · rw [hcalc]
    have h1 : ((sortDesc Opportunity.rateDifference (pairCandidates rows)).take
        ⌊limit⌋.toNat).length ≤ ⌊limit⌋.toNat := by
      rw [List.length_take]; exact Nat.min_le_left _ _
    have h2 : ((⌊limit⌋.toNat : ℤ) : ℚ) = ((⌊limit⌋ : ℤ) : ℚ) := by
      rw [Int.toNat_of_nonneg (Int.floor_nonneg.2 h)]
    have h3 : ((⌊limit⌋ : ℤ) : ℚ) ≤ limit := Int.floor_le limit
    have h4 : (((sortDesc Opportunity.rateDifference (pairCandidates rows)).take
        ⌊limit⌋.toNat).length : ℚ) ≤ ((⌊limit⌋.toNat : ℕ) : ℚ) := by exact_mod_cast h1
    have h5 : ((⌊limit⌋.toNat : ℕ) : ℚ) = ((⌊limit⌋.toNat : ℤ) : ℚ) := by norm_cast
    linarith
  · intro kept hk dropped hd
    rw [hcalc] at hk
    have hs := sortDesc_sorted Opportunity.rateDifference (pairCandidates rows)
    rw [← List.take_append_drop ⌊limit⌋.toNat
      (sortDesc Opportunity.rateDifference (pairCandidates rows))] at hs
    exact (List.pairwise_append.1 hs).2.2 kept hk dropped hd

/-- Witness of C6 amended: `ethRows` with the limit 2. -/
theorem calculate_truncates_to_limit_witness :
    (0 : ℚ) ≤ 2 ∧
    calculateArbitrageOpportunities ethRows (some 2)
      = (sortDesc Opportunity.rateDifference (pairCandidates ethRows)).take
          (min ⌊(2 : ℚ)⌋.toNat (pairCandidates ethRows).length) ∧
    (calculateArbitrageOpportunities ethRows (some 2)).length = 2 :=
  ⟨by decide!, (calculate_truncates_to_limit ethRows 2 (by decide!)).1, by decide!⟩

/-- C7, refuted as stated: in `tieRows` the symbol BTC appears before the symbol 42 and
both opportunities have the same `rateDifference`, yet `filterArbitrageOpportunities`
returns the one of 42 first. -/
theorem filter_tie_order_counterexample :
    firstAppearance (tieRows.map FundingRow.symbol) = ["BTC", "42"] ∧
    (filterArbitrageOpportunities tieRows none 0).toOption.map
        (fun opps => opps.map (fun o => (o.symbol, o.rateDifference)))
      = some [("42", 5 / 10000), ("BTC", 5 / 10000)] ∧
    (filterArbitrageOpportunities tieRows none 0).toOption.map
        (fun opps => opps.filter (fun o => decide (o.rateDifference = 5 / 10000)))
      ≠ some (((groupsBySymbol normalizeItem tieRows).flatMap
          (extremalOpportunity (1 / 10000) 0)).filter
            (fun o => decide (o.rateDifference = 5 / 10000))) := by
  decide!

/-- C7, amended. In both policies the sort is stable: the opportunities of any one
`rateDifference` appear in the output in the order the detector encountered them.  For
the exhaustive policy that order is: symbol groups in order of first appearance of the
symbol in the input, and within a group the pairs `(i, j)` with `i < j` in row order.
For the extremal policy it is the order of `Object.entries(symbolGroups)`, which is the
order of first appearance of the symbols when no symbol is an array index. -/
theorem ties_keep_encounter_order (rows : List FundingRow) (limit threshold : Option ℚ)
    (now : ℕ) :
    pairCandidates rows
      = (groupsBySymbol normalizeRate rows).flatMap (fun e => pairLoop e.1 e.2) ∧
    (∀ d : ℚ, (calculateArbitrageOpportunities rows limit).filter
        (fun o => decide (o.rateDifference = d))
      <+: (pairCandidates rows).filter (fun o => decide (o.rateDifference = d))) ∧
    (∀ opps, filterArbitrageOpportunities rows threshold now = .ok opps →
      ∀ d : ℚ, opps.filter (fun o => decide (o.rateDifference = d))
        = ((objectEntries (groupsBySymbol normalizeItem rows)).flatMap
            (extremalOpportunity (threshold.getD (1 / 10000)) now)).filter
              (fun o => decide (o.rateDifference = d))) ∧
    ((∀ r ∈ rows, arrayIndex? r.symbol = none) →
      objectEntries (groupsBySymbol normalizeItem rows)
        = groupsBySymbol normalizeItem rows) := by
  refine ⟨pairCandidates_eq rows, ?_, ?_, ?_⟩
  · intro d
    have h := (calculate_initial_segment rows limit).filter (fun o => decide (o.rateDifference = d))
    rw [sortDesc_filter_key] at h
    exact h
  · intro opps h d
    rw [filter_eq_ok h, sortDesc_filter_key]
  · intro h
    apply objectEntries_of_no_index
    intro e he
    obtain ⟨hk, _⟩ := mem_groupsBySymbol.1 he
    obtain ⟨r, hr, hre⟩ := List.mem_map.1 hk
    rw [← hre]
    exact h r hr

/-- Witness of C7 amended, on `dyadicRows`.  Under the exhaustive policy the candidates
are met in the order ETH A-B, ETH A-C, ETH B-C, BTC A-B, SOL A-B; ETH A-C ties with
BTC A-B at 4/1024 and ETH A-B ties with ETH B-C at 2/1024, and each tie keeps that
order in the output.  Under the extremal policy ETH ties with BTC at 4/1024 and stays
first, no symbol being an array index. -/
theorem ties_keep_encounter_order_witness :
    (pairCandidates dyadicRows).map
        (fun o => (o.symbol, o.longExchange, o.shortExchange, o.rateDifference))
      = [("ETH", "B", "A", 2 / 1024), ("ETH", "C", "A", 4 / 1024),
         ("ETH", "C", "B", 2 / 1024), ("BTC", "A", "B", 4 / 1024),
         ("SOL", "A", "B", 1 / 1024)] ∧
    (calculateArbitrageOpportunities dyadicRows none).map
        (fun o => (o.symbol, o.longExchange, o.shortExchange, o.rateDifference))
      = [("ETH", "C", "A", 4 / 1024), ("BTC", "A", "B", 4 / 1024),
         ("ETH", "B", "A", 2 / 1024), ("ETH", "C", "B", 2 / 1024),
         ("SOL", "A", "B", 1 / 1024)] ∧
    (calculateArbitrageOpportunities dyadicRows none).filter
        (fun o => decide (o.rateDifference = 4 / 1024))
      <+: (pairCandidates dyadicRows).filter (fun o => decide (o.rateDifference = 4 / 1024)) ∧
    (calculateArbitrageOpportunities dyadicRows none).filter
        (fun o => decide (o.rateDifference = 2 / 1024))
      <+: (pairCandidates dyadicRows).filter (fun o => decide (o.rateDifference = 2 / 1024)) ∧
    filterArbitrageOpportunities dyadicRows none 0 = .ok dyadicFiltered ∧
    dyadicFiltered.map (fun o => (o.symbol, o.rateDifference))
      = [("ETH", 4 / 1024), ("BTC", 4 / 1024), ("SOL", 1 / 1024)] ∧
    dyadicFiltered.filter (fun o => decide (o.rateDifference = 4 / 1024))
      = ((objectEntries (groupsBySymbol normalizeItem dyadicRows)).flatMap
          (extremalOpportunity ((none : Option ℚ).getD (1 / 10000)) 0)).filter
            (fun o => decide (o.rateDifference = 4 / 1024)) ∧
    (∀ r ∈ dyadicRows, arrayIndex? r.symbol = none) ∧
    objectEntries (groupsBySymbol normalizeItem dyadicRows)
      = groupsBySymbol normalizeItem dyadicRows :=
  ⟨by decide!, by decide!,
    (ties_keep_encounter_order dyadicRows none none 0).2.1 (4 / 1024),
    (ties_keep_encounter_order dyadicRows none none 0).2.1 (2 / 1024),
    by decide!, by decide!,
    (ties_keep_encounter_order dyadicRows none none 0).2.2.1 dyadicFiltered (by decide!)
      (4 / 1024),
    by decide!,
    (ties_keep_encounter_order dyadicRows none none 0).2.2.2 (by decide!)⟩

/-- C8, at the input on which the code departs from it: two rows of BTC that both come
from the exchange gate make both policies emit an opportunity for BTC, with gate on
both sides. -/
theorem same_exchange_rows_emit_opportunity :
    (∀ r ∈ sameExchangeRows, r.symbol = "BTC" ∧ r.exchange = "gate") ∧
    (calculateArbitrageOpportunities sameExchangeRows none).map
        (fun o => (o.symbol, o.longExchange, o.shortExchange, o.rateDifference))
      = [("BTC", "gate", "gate", 2 / 10000)] ∧
    (filterArbitrageOpportunities sameExchangeRows none 0).toOption.map
        (fun opps => opps.map
          (fun o => (o.symbol, o.longExchange, o.shortExchange, o.rateDifference)))
      = some [("BTC", "gate", "gate", 2 / 10000)] := by
  decide!

/-- C9, refuted as stated: when the long leg returns an order and the short leg throws,
the response is the bare failure body with the short leg's message; it holds no order,
and it is the very response given when both legs throw and the short one throws
first. -/
theorem partial_fill_counterexample :
    shortThrowsEnv.executeLongOrder .gate (legCall sampleIntent .gate)
      = .fulfilled (some ⟨"long-1"⟩) ∧
    shortThrowsEnv.executeShortOrder .bitget (legCall sampleIntent .bitget)
      = .rejected "insufficient margin" ∧
    bothThrowEnv.executeLongOrder .gate (legCall sampleIntent .gate)
      = .rejected "request timeout" ∧
    POST sampleIntent shortThrowsEnv
      = { status := 500, body := .failure "insufficient margin",
          dispatched := [.long .gate (legCall sampleIntent .gate),
            .short .bitget (legCall sampleIntent .bitget)] } ∧
    POST sampleIntent shortThrowsEnv = POST sampleIntent bothThrowEnv := by
  decide!

/-- C9, amended. For every execute request on supported exchanges in which the long leg
returns and the short leg's order submission throws, the report is never success: it is
the failure response of status 500 whose body holds the short leg's error message and
nothing else, the same form of response as when both legs fail; both legs have been
dispatched. -/
theorem short_leg_failure_reported_as_failure (req : TradeIntent) (env : ExecuteEnv)
    (longId shortId : ExchangeId) (order : Option OrderResult) (message : String)
    (hl : req.longExchange = some longId.name) (hs : req.shortExchange = some shortId.name)
    (hlong : env.executeLongOrder longId (legCall req longId) = .fulfilled order)
    (hshort : env.executeShortOrder shortId (legCall req shortId) = .rejected message) :
    (POST req env).body = .failure message ∧ (POST req env).status = 500 ∧
    (POST req env).body.isSuccess = false ∧
    (POST req env).dispatched
      = [.long longId (legCall req longId), .short shortId (legCall req shortId)] := by
  rw [POST_supported req env longId shortId hl hs, hlong, hshort]
  exact ⟨rfl, rfl, rfl, rfl⟩

/-- Witness of C9 amended: `sampleIntent` with a short leg that throws. -/
theorem short_leg_failure_reported_as_failure_witness :
    sampleIntent.longExchange = some ExchangeId.gate.name ∧
    sampleIntent.shortExchange = some ExchangeId.bitget.name ∧
    ((POST sampleIntent shortThrowsEnv).body = .failure "insufficient margin" ∧
      (POST sampleIntent shortThrowsEnv).status = 500 ∧
      (POST sampleIntent shortThrowsEnv).body.isSuccess = false ∧
      (POST sampleIntent shortThrowsEnv).dispatched
        = [.long .gate (legCall sampleIntent .gate),
            .short .bitget (legCall sampleIntent .bitget)]) :=
  ⟨rfl, rfl,
    short_leg_failure_reported_as_failure sampleIntent shortThrowsEnv .gate .bitget
      (some ⟨"long-1"⟩) "insufficient margin" rfl rfl rfl rfl⟩

/-- C10. For every TradeIntent naming supported exchanges, the execute operation reports
`success: true` if and only if both the long leg and the short leg returned an order
result, and the success report carries `quantity = positionSize / leverage`. -/
theorem execute_success_iff_both_legs (req : TradeIntent) (env : ExecuteEnv)
    (longId shortId : ExchangeId)
    (hl : req.longExchange = some longId.name) (hs : req.shortExchange = some shortId.name) :
    ((POST req env).body.isSuccess = true ↔
      (∃ o1, env.executeLongOrder longId (legCall req longId) = .fulfilled (some o1)) ∧
      (∃ o2, env.executeShortOrder shortId (legCall req shortId) = .fulfilled (some o2))) ∧
    ((POST req env).body.isSuccess = true →
      (POST req env).body.quantity = jsDiv req.positionSize req.leverage) ∧
    (∀ p v : ℚ, req.positionSize = some p → req.leverage = some v → v ≠ 0 →
      jsDiv req.positionSize req.leverage = some (p / v)) := by
  rw [POST_supported req env longId shortId hl hs]
  refine ⟨?_, ?_, ?_⟩
  · cases h1 : env.executeLongOrder longId (legCall req longId) with
    | rejected m =>
      cases h2 : env.executeShortOrder shortId (legCall req shortId) <;>
        simp [promiseAll2, executeFailure, ExecuteBody.isSuccess]
    | fulfilled a =>
      cases h2 : env.executeShortOrder shortId (legCall req shortId) with
      | rejected m => simp [promiseAll2, executeFailure, ExecuteBody.isSuccess]
      | fulfilled b =>
        cases a <;> cases b <;>
          simp [promiseAll2, executeFailure, ExecuteBody.isSuccess]
  · cases h1 : env.executeLongOrder longId (legCall req longId) with
    | rejected m =>
      cases h2 : env.executeShortOrder shortId (legCall req shortId) <;>
        simp [promiseAll2, executeFailure, ExecuteBody.isSuccess]
    | fulfilled a =>
      cases h2 : env.executeShortOrder shortId (legCall req shortId) with
      | rejected m => simp [promiseAll2, executeFailure, ExecuteBody.isSuccess]
      | fulfilled b =>
        cases a <;> cases b <;>
          simp [promiseAll2, executeFailure, ExecuteBody.isSuccess, ExecuteBody.quantity]
  · intro p v hp hv hv0
    simp [jsDiv, hp, hv, hv0]

/-- Witness of C10: `sampleIntent` with both legs returning an order succeeds with
quantity `100 / 2`. -/
theorem execute_success_iff_both_legs_witness :
    sampleIntent.longExchange = some ExchangeId.gate.name ∧
    sampleIntent.shortExchange = some ExchangeId.bitget.name ∧
    (POST sampleIntent bothFilledEnv).body.isSuccess = true ∧
    (POST sampleIntent bothFilledEnv).body.quantity = some (100 / 2) :=
  ⟨rfl, rfl, by decide!,
    ((execute_success_iff_both_legs sampleIntent bothFilledEnv .gate .bitget rfl rfl).2.1
      (by decide!)).trans
      ((execute_success_iff_both_legs sampleIntent bothFilledEnv .gate .bitget rfl rfl).2.2
        100 2 rfl rfl (by decide!))⟩

/-- C16, refuted as stated: the gate symbol of the BTC-settled perpetual, `BTC/USD:BTC`,
and the bitget symbol of the USDC-settled perpetual, `BTC/USDC:USDC`, do not come back
from their base token: both give `BTC/USDT:USDT`. -/
theorem symbol_round_trip_counterexample :
    getExchangeSymbol (some (extractBaseToken "BTC/USD:BTC")) (some "gate")
      = .ok "BTC/USDT:USDT" ∧
    getExchangeSymbol (some (extractBaseToken "BTC/USDC:USDC")) (some "bitget")
      = .ok "BTC/USDT:USDT" ∧
    "BTC/USDT:USDT" ≠ "BTC/USD:BTC" ∧ "BTC/USDT:USDT" ≠ "BTC/USDC:USDC" := by
  decide

/-- C16, amended. For every supported exchange `e` and every symbol `s` of the form that
`getExchangeSymbol` builds for `e` (`b/USDT:USDT` on gate and bitget, `b/USDC:USDC` on
hyperliquid, with `b` holding neither `/` nor `:`),
`getExchangeSymbol(extractBaseToken(s), e) = s`. -/
theorem symbol_round_trip (id : ExchangeId) (b : String)
    (h1 : '/' ∉ b.data) (h2 : ':' ∉ b.data) :
    getExchangeSymbol (some (extractBaseToken (legSymbol (some b) id))) (some id.name)
      = .ok (legSymbol (some b) id) := by
  rw [extractBaseToken_legSymbol b id h1 h2, getExchangeSymbol_name]

/-- Witness of C16 amended: `BTC` on hyperliquid. -/
theorem symbol_round_trip_witness :
    '/' ∉ "BTC".data ∧ ':' ∉ "BTC".data ∧
    legSymbol (some "BTC") .hyperliquid = "BTC/USDC:USDC" ∧
    getExchangeSymbol (some (extractBaseToken (legSymbol (some "BTC") .hyperliquid)))
        (some ExchangeId.hyperliquid.name)
      = .ok (legSymbol (some "BTC") .hyperliquid) :=
  ⟨by decide, by decide, by decide,
    symbol_round_trip .hyperliquid "BTC" (by decide) (by decide)⟩

/-- C17. For every base token `b` that holds neither `/` nor `:` and every supported
exchange `e`, `extractBaseToken(getExchangeSymbol(b, e)) = b` (first part, and second
part for every spelling of the exchange that `getExchangeSymbol` accepts); hence the
gate/bitget symbol `b/USDT:USDT` and the hyperliquid symbol `b/USDC:USDC` have the
same base token. -/
theorem base_token_of_exchange_symbol (b : String)
    (h1 : '/' ∉ b.data) (h2 : ':' ∉ b.data) :
    (∀ id : ExchangeId, ∃ s, getExchangeSymbol (some b) (some id.name) = .ok s ∧
      extractBaseToken s = b) ∧
    (∀ e s, getExchangeSymbol (some b) (some e) = .ok s → extractBaseToken s = b) ∧
    extractBaseToken (b ++ "/USDT:USDT") = b ∧
    extractBaseToken (b ++ "/USDC:USDC") = b ∧
    extractBaseToken (b ++ "/USDT:USDT") = extractBaseToken (b ++ "/USDC:USDC") := by
  have hT : extractBaseToken (b ++ "/USDT:USDT") = b :=
    extractBaseToken_legSymbol b .gate h1 h2
  have hC : extractBaseToken (b ++ "/USDC:USDC") = b :=
    extractBaseToken_legSymbol b .hyperliquid h1 h2
  refine ⟨?_, ?_, hT, hC, hT.trans hC.symm⟩
  · intro id
    exact ⟨_, getExchangeSymbol_name (some b) id, extractBaseToken_legSymbol b id h1 h2⟩
  · intro e s h
    obtain ⟨id, _, rfl⟩ := getExchangeSymbol_eq_ok h
    exact extractBaseToken_legSymbol b id h1 h2

/-- Witness of C17: the base token `BTC`. -/
theorem base_token_of_exchange_symbol_witness :
    '/' ∉ "BTC".data ∧ ':' ∉ "BTC".data ∧
    "BTC" ++ "/USDT:USDT" = "BTC/USDT:USDT" ∧
    extractBaseToken ("BTC" ++ "/USDT:USDT") = extractBaseToken ("BTC" ++ "/USDC:USDC") :=
  ⟨by decide, by decide, by decide,
    (base_token_of_exchange_symbol "BTC" (by decide) (by decide)).2.2.2.2⟩

/-- C18, refuted as stated: with `positionSize`, with `symbol` or with `leverage` missing,
the route still calls both adapters, and on adapters that answer with an order it
reports success. -/
theorem missing_field_counterexample :
    (POST { sampleIntent with positionSize := none } bothFilledEnv).dispatched
      = [.long .gate ⟨"BTC/USDT:USDT", none, some 2, some (1 / 1000)⟩,
         .short .bitget ⟨"BTC/USDT:USDT", none, some 2, some (1 / 1000)⟩] ∧
    (POST { sampleIntent with positionSize := none } bothFilledEnv).body.isSuccess = true ∧
    (POST { sampleIntent with symbol := none } bothFilledEnv).dispatched
      = [.long .gate ⟨"undefined/USDT:USDT", some 100, some 2, some (1 / 1000)⟩,
         .short .bitget ⟨"undefined/USDT:USDT", some 100, some 2, some (1 / 1000)⟩] ∧
    (POST { sampleIntent with leverage := none } bothFilledEnv).dispatched
      = [.long .gate ⟨"BTC/USDT:USDT", some 100, none, some (1 / 1000)⟩,
         .short .bitget ⟨"BTC/USDT:USDT", some 100, none, some (1 / 1000)⟩] := by
  decide!

/-- C18, amended. For every execute request in which `longExchange` or `shortExchange`
is missing, the whole operation is rejected immediately, before any leg's order is
dispatched to an adapter. -/
theorem missing_exchange_rejected (req : TradeIntent) (env : ExecuteEnv)
    (h : req.longExchange = none ∨ req.shortExchange = none) :
    (POST req env).dispatched = [] ∧ (POST req env).status = 500 ∧
    (POST req env).body.isSuccess = false := by
  unfold POST
  rcases h with h | h
  · rw [h, getExchangeApi_none]
    exact ⟨rfl, rfl, rfl⟩
  · rw [h, getExchangeApi_none]
    cases getExchangeApi req.longExchange <;> exact ⟨rfl, rfl, rfl⟩

/-- Witness of C18 amended: `sampleIntent` without its `shortExchange`. -/
theorem missing_exchange_rejected_witness :
    (({ sampleIntent with shortExchange := none } : TradeIntent).longExchange = none ∨
      ({ sampleIntent with shortExchange := none } : TradeIntent).shortExchange = none) ∧
    (POST { sampleIntent with shortExchange := none } bothFilledEnv).dispatched = [] :=
  ⟨Or.inr rfl,
    (missing_exchange_rejected { sampleIntent with shortExchange := none } bothFilledEnv
      (Or.inr rfl)).1⟩

/-- C19, at the input on which the code departs from it: the name `constructor` is not
one of the three adapter names, yet `getExchangeApi` raises nothing and returns the
`constructor` member that `exchanges` inherits from `Object.prototype`. -/
theorem getExchangeApi_returns_inherited_member :
    getExchangeApi (some "constructor") = .ok (.prototypeMember "constructor") ∧
    (∀ id : ExchangeId, "constructor" ≠ id.name) := by
  refine ⟨by decide, ?_⟩
  intro id
  cases id <;> decide

/-- C13, refuted as stated: at the price 100 and with the slippage argument 1/100, the
bitget adapter bounds a buy at 100.01 and not at 101, and the gate adapter submits its
order without a price. -/
theorem opening_price_counterexample :
    (ordersOf (createMarketOrderWithSlippage .bitget acceptingVenue "BTC/USDT:USDT" .buy
        (some 1000) 1 (1 / 100)).2).map OrderRequest.price = [some (10001 / 100)] ∧
    (ordersOf (createMarketOrderWithSlippage .gate acceptingVenue "BTC/USDT:USDT" .buy
        (some 1000) 1 (1 / 100)).2).map OrderRequest.price = [none] ∧
    (100 : ℚ) * (1 + 1 / 100) = 101 ∧ (10001 / 100 : ℚ) ≠ 101 := by
  decide!

/-- C13, amended. For every current price `p ≥ 0` and every slippage argument `s ≥ 0`:
the hyperliquid adapter, which runs the code of `BaseExchange`, bounds an opening order
at `p × (1 + s)` for a buy and `p × (1 − s)` for a sell and, once the leverage is set,
submits the order at that bound; the bitget adapter reads `s` as a percentage and
bounds the order at `p × (1 ± s / 100)`; in both the buy bound is at least `p` and the
sell bound at most `p`.  The gate adapter submits its market order without a price. -/
theorem opening_order_price (venue : Venue) (symbol : String) (side : OrderSide)
    (positionSize : Option ℚ) (leverage p s : ℚ) (hp : 0 ≤ p) (hs : 0 ≤ s)
    (ht : venue.fetchTicker symbol = .ok (some p)) :
    (∀ req ∈ ordersOf (createMarketOrderWithSlippage .hyperliquid venue symbol side
        positionSize leverage s).2, req.price = some (p * slippageMultiplier side s)) ∧
    ((setupLeverageAndPosition venue symbol leverage).1 = .ok () →
      (ordersOf (createMarketOrderWithSlippage .hyperliquid venue symbol side
        positionSize leverage s).2).map OrderRequest.price
        = [some (p * slippageMultiplier side s)]) ∧
    (∀ req ∈ ordersOf (createMarketOrderWithSlippage .bitget venue symbol side
        positionSize leverage s).2, req.price = some (p * slippageMultiplier side (s / 100))) ∧
    (∀ req ∈ ordersOf (createMarketOrderWithSlippage .gate venue symbol side
        positionSize leverage s).2, req.price = none) ∧
    (slippageMultiplier .buy s = 1 + s ∧ slippageMultiplier .sell s = 1 - s) ∧
    (p ≤ p * slippageMultiplier .buy s ∧ p * slippageMultiplier .sell s ≤ p) ∧
    (p ≤ p * slippageMultiplier .buy (s / 100) ∧
      p * slippageMultiplier .sell (s / 100) ≤ p) := by
  have hbase := ordersOf_baseCreate ht side positionSize leverage s
  have hs100 : 0 ≤ s / 100 := div_nonneg hs (by norm_num)
  refine ⟨?_, ?_, ?_, ?_, ⟨rfl, rfl⟩, ⟨?_, ?_⟩, ⟨?_, ?_⟩⟩
  · intro req hreq
    simp only [createMarketOrderWithSlippage] at hreq
    rw [hbase] at hreq
    cases hsetup : (setupLeverageAndPosition venue symbol leverage).1 with
    | error m => rw [hsetup] at hreq; simp at hreq
    | ok u =>
      rw [hsetup] at hreq
      simp only [List.mem_singleton] at hreq
      rw [hreq]
  · intro hsetup
    simp only [createMarketOrderWithSlippage]
    rw [hbase, hsetup]
    rfl
  · intro req hreq
    exact (ordersOf_bitgetCreate ht side positionSize s req hreq).1
  · intro req hreq
    exact (ordersOf_gateCreate venue symbol side positionSize leverage req hreq).1
  · simp only [slippageMultiplier]; nlinarith
  · simp only [slippageMultiplier]; nlinarith
  · simp only [slippageMultiplier]; nlinarith
  · simp only [slippageMultiplier]; nlinarith

/-- Witness of C13 amended: a buy on hyperliquid at the price 100 with slippage 1/100 is
submitted at 101. -/
theorem opening_order_price_witness :
    (0 : ℚ) ≤ 100 ∧ (0 : ℚ) ≤ 1 / 100 ∧
    acceptingVenue.fetchTicker "BTC/USDC:USDC" = .ok (some 100) ∧
    (setupLeverageAndPosition acceptingVenue "BTC/USDC:USDC" 1).1 = .ok () ∧
    (ordersOf (createMarketOrderWithSlippage .hyperliquid acceptingVenue "BTC/USDC:USDC"
        .buy (some 1000) 1 (1 / 100)).2).map OrderRequest.price = [some 101] :=
  ⟨by decide!, by decide!, rfl, rfl,
    ((opening_order_price acceptingVenue "BTC/USDC:USDC" .buy (some 1000) 1 100 (1 / 100)
      (by decide!) (by decide!) rfl).2.1 rfl).trans (by decide!)⟩

/-- C14, refuted as stated: the gate adapter closes the positions of `samplePositions`
with orders that carry no price. -/
theorem close_order_price_counterexample :
    ordersOf (closeAllPositions .gate acceptingVenue "BTC/USDT:USDT").2
      = [gateCloseOrder "BTC/USDT:USDT" ⟨"BTC/USDT:USDT", "long", 3, none⟩,
         gateCloseOrder "BTC/USDT:USDT" ⟨"BTC/USDT:USDT", "short", 2, none⟩] ∧
    (ordersOf (closeAllPositions .gate acceptingVenue "BTC/USDT:USDT").2).map
      OrderRequest.price = [none, none] := by
  decide!

/-- C14, amended. For every list of positions an adapter reports for a symbol, when the
venue accepts every call, `closeAllPositions` submits, for each position with
`contracts > 0` and for no other, exactly one reduce-only market order whose size is the
position's full `contracts` and whose side is inverted from the position's side (sell
for a long, buy for a short); the hyperliquid and bitget adapters submit it at the
current price `p` times `1 ± 0.001`, the gate adapter without a price. -/
theorem close_orders_per_open_position (venue : Venue) (symbol : String)
    (positions : List Position) (p : ℚ)
    (hpos : venue.fetchPositions symbol = .ok positions)
    (ht : venue.fetchTicker symbol = .ok (some p))
    (hc : ∀ req, ∃ r, venue.createOrder req = .ok r) :
    (∀ id : ExchangeId, id ≠ .gate →
      ordersOf (closeAllPositions id venue symbol).2
        = (positions.filter (fun pos => decide (0 < pos.contracts))).map
            (baseCloseOrder symbol p)) ∧
    ordersOf (closeAllPositions .gate venue symbol).2
      = (positions.filter (fun pos => decide (0 < pos.contracts))).map
          (gateCloseOrder symbol) ∧
    (∀ pos : Position,
      (baseCloseOrder symbol p pos).reduceOnly = true ∧
      (gateCloseOrder symbol pos).reduceOnly = true ∧
      (baseCloseOrder symbol p pos).orderType = "market" ∧
      (gateCloseOrder symbol pos).orderType = "market" ∧
      (baseCloseOrder symbol p pos).amount = some pos.contracts ∧
      (gateCloseOrder symbol pos).amount = some pos.contracts ∧
      (baseCloseOrder symbol p pos).side = closingSide pos ∧
      (gateCloseOrder symbol pos).side = closingSide pos ∧
      (baseCloseOrder symbol p pos).price
        = some (p * slippageMultiplier (closingSide pos) (1 / 1000)) ∧
      (gateCloseOrder symbol pos).price = none ∧
      (pos.side = "long" → closingSide pos = .sell) ∧
      (pos.side = "short" → closingSide pos = .buy)) := by
  have hbase : ordersOf (baseCloseAllPositions venue symbol).2
      = (positions.filter (fun pos => decide (0 < pos.contracts))).map
          (baseCloseOrder symbol p) := by
    unfold baseCloseAllPositions
    rw [hpos]
    simp only [ordersOf_cons_fetchPositions]
    exact ordersOf_baseCloseLoop ht hc positions
  refine ⟨?_, ?_, ?_⟩
  · intro id hid
    cases id with
    | gate => exact absurd rfl hid
    | hyperliquid => exact hbase
    | bitget => exact hbase
  · simp only [closeAllPositions]
    unfold gateCloseAllPositions
    rw [hpos]
    simp only [ordersOf_cons_fetchPositions]
    exact ordersOf_gateCloseLoop hc positions
  · intro pos
    refine ⟨rfl, rfl, rfl, rfl, rfl, rfl, rfl, rfl, rfl, rfl, ?_, ?_⟩
    · intro h; simp [closingSide, h]
    · intro h
      have : pos.side ≠ "long" := by rw [h]; decide
      simp [closingSide, this]

/-- Witness of C14 amended: `samplePositions` on the bitget adapter; the flat position
gets no order. -/
theorem close_orders_per_open_position_witness :
    acceptingVenue.fetchPositions "BTC/USDT:USDT" = .ok samplePositions ∧
    acceptingVenue.fetchTicker "BTC/USDT:USDT" = .ok (some 100) ∧
    (∀ req, ∃ r, acceptingVenue.createOrder req = .ok r) ∧
    (ordersOf (closeAllPositions .bitget acceptingVenue "BTC/USDT:USDT").2).map
        (fun req => (req.side, req.amount, req.price))
      = [(.sell, some 3, some (999 / 10)), (.buy, some 2, some (1001 / 10))] :=
  ⟨rfl, rfl, fun _ => ⟨_, rfl⟩,
    (congrArg (List.map (fun req : OrderRequest => (req.side, req.amount, req.price)))
      ((close_orders_per_open_position acceptingVenue "BTC/USDT:USDT" samplePositions 100
        rfl rfl (fun _ => ⟨_, rfl⟩)).1 .bitget (by decide))).trans (by decide!)⟩

/-- C20. For every positionSize, current price, contract size and venue minimum such
that the computed contract count `floor(positionSize / price / contractSize)` is below
the venue minimum, `GateExchange.createMarketOrderWithSlippage` raises an error before
submission: neither `setLeverage` nor `createOrder` is invoked.  The last part says that
with a price and a contract size other than zero the count is the finite number
`⌊positionSize / price / contractSize⌋`. -/
theorem gate_insufficient_size_raises (venue : Venue) (symbol : String) (side : OrderSide)
    (positionSize currentPrice : Option ℚ) (leverage m : ℚ) (market : Market)
    (hmarket : venue.market symbol = .ok market)
    (hticker : venue.fetchTicker symbol = .ok currentPrice)
    (hmin : market.amountMin = some m)
    (hlow : (gateContracts positionSize currentPrice market.contractSize).ltFinite m = true) :
    (∃ message, (gateCreateMarketOrderWithSlippage venue symbol side positionSize
        leverage).1 = .error message) ∧
    (∀ call ∈ (gateCreateMarketOrderWithSlippage venue symbol side positionSize leverage).2,
      (∀ l sym, call ≠ .setLeverage l sym) ∧ (∀ req, call ≠ .createOrder req)) ∧
    (∀ size price contractSize : ℚ, price ≠ 0 → contractSize ≠ 0 →
      ((gateContracts (some size) (some price) (some contractSize)).ltFinite m = true ↔
        ((⌊size / price / contractSize⌋ : ℤ) : ℚ) < m)) := by
  have hlow' : (gateContracts positionSize currentPrice market.contractSize).ltFinite
      (jsOrNum market.amountMin 1) = true := by
    rw [hmin]
    unfold jsOrNum
    simp only
    split
    · rename_i hm0
      rw [hm0] at hlow
      cases hcount : gateContracts positionSize currentPrice market.contractSize with
      | fin x =>
        rw [hcount] at hlow
        simp only [ExtNum.ltFinite, decide_eq_true_eq] at hlow ⊢
        linarith
      | negInf => rfl
      | posInf => rw [hcount] at hlow; simp [ExtNum.ltFinite] at hlow
      | nan => rw [hcount] at hlow; simp [ExtNum.ltFinite] at hlow
    · exact hlow
  have hrun : gateCreateMarketOrderWithSlippage venue symbol side positionSize leverage
      = (.error "计算出的合约张数小于最小交易数量", [.fetchTicker symbol]) := by
    unfold gateCreateMarketOrderWithSlippage
    rw [hmarket]
    simp only
    rw [hticker]
    simp only [hlow', if_true]
  refine ⟨⟨_, by rw [hrun]⟩, ?_, ?_⟩
  · intro call hcall
    rw [hrun] at hcall
    simp only [List.mem_singleton] at hcall
    rw [hcall]
    exact ⟨fun _ _ h => (by cases h), fun _ h => (by cases h)⟩
  · intro size price contractSize hprice hcs
    simp [gateContracts, ExtNum.ofOption, ExtNum.divBy, ExtNum.floor, ExtNum.ltFinite,
      hprice, hcs]

/-- Witness of C20: 5 units at the price 100 with contracts of size 1 make 0 contracts,
below the minimum of 1. -/
theorem gate_insufficient_size_raises_witness :
    acceptingVenue.market "BTC/USDT:USDT" = .ok ⟨some 1, some 1⟩ ∧
    acceptingVenue.fetchTicker "BTC/USDT:USDT" = .ok (some 100) ∧
    (gateContracts (some 5) (some 100) (some 1)).ltFinite 1 = true ∧
    (gateCreateMarketOrderWithSlippage acceptingVenue "BTC/USDT:USDT" .buy (some 5) 1).2
      = [.fetchTicker "BTC/USDT:USDT"] ∧
    ∃ message, (gateCreateMarketOrderWithSlippage acceptingVenue "BTC/USDT:USDT" .buy
      (some 5) 1).1 = .error message :=
  ⟨rfl, rfl, by decide!, by decide!,
    (gate_insufficient_size_raises acceptingVenue "BTC/USDT:USDT" .buy (some 5) (some 100)
      1 1 ⟨some 1, some 1⟩ rfl rfl rfl (by decide!)).1⟩

/-- C11, at the input on which the code departs from it: with gate and bitget enabled
and the batch call of gate failing, `getFundingRates` of gate swallows the error and is
fulfilled with `undefined`, and `fetchFundingRates` throws instead of returning the rows
of bitget.  When it is the batch call of bitget that fails, whose adapter throws the
error again, the rows of gate are returned. -/
theorem fetchFundingRates_throws_on_swallowed_failure :
    getFundingRates .gate (gateDownEnv.rates .gate) = .fulfilled none ∧
    fetchFundingRates gateDownEnv ["gate", "bitget"]
      = .error "TypeError: Cannot convert undefined or null to object" ∧
    getFundingRates .bitget (bitgetDownEnv.rates .bitget) = .rejected "request timeout" ∧
    (fetchFundingRates bitgetDownEnv ["gate", "bitget"]).toOption.map
        (fun r => r.fundingRates.map (fun x => (x.exchange, x.symbol)))
      = some [("gate", "BTC/USDT:USDT")] := by
  decide!

/-- C12, refuted as stated: a long on gate, a long on bitget and a short on hyperliquid,
all of BTC, make one group with `hasHedge = true`, although the group has two long
rows. -/
theorem hasHedge_counterexample :
    (groupOpenPositions twoLongsOneShort).toOption.map
        (fun groups => groups.map (fun g => (g.baseSymbol, g.hasHedge)))
      = some [("BTC", true)] ∧
    ((openPositionsOf twoLongsOneShort "BTC").filter
      (fun p => decide (p.side = "long"))).length = 2 := by
  decide!

/-- C12, amended. For every list of positions, the grouping computed by OpenPositions
puts no position with `contracts == 0` into any group (only positions with
`contracts > 0`), and a group's `hasHedge` is true if and only if the group has at least
one long row and at least one short row. -/
theorem open_position_groups (positions : List Position) (groups : List PositionGroup)
    (g : PositionGroup) (h : groupOpenPositions positions = .ok groups) (hg : g ∈ groups) :
    (∀ p, (g.long = some p ∨ g.short = some p) →
      p ∈ positions ∧ 0 < p.contracts ∧ beforeFirst '/' p.symbol = g.baseSymbol) ∧
    (∀ p ∈ openPositionsOf positions g.baseSymbol, p ∈ positions ∧ 0 < p.contracts) ∧
    (g.hasHedge = true ↔
      (∃ p ∈ openPositionsOf positions g.baseSymbol, p.side = "long") ∧
      (∃ p ∈ openPositionsOf positions g.baseSymbol, p.side = "short")) := by
  have hmem : ∀ p ∈ openPositionsOf positions g.baseSymbol,
      p ∈ positions ∧ 0 < p.contracts ∧ beforeFirst '/' p.symbol = g.baseSymbol := by
    intro p hp
    simp only [openPositionsOf, List.mem_filter, decide_eq_true_eq] at hp
    exact ⟨hp.1.1, hp.1.2, hp.2⟩
  have hgeq := mem_groupOpenPositions h hg
  refine ⟨?_, fun p hp => ⟨(hmem p hp).1, (hmem p hp).2.1⟩, ?_⟩
  · intro p hp
    rw [hgeq] at hp
    rcases hp with hp | hp
    · exact hmem p (List.mem_of_find?_eq_some hp)
    · exact hmem p (List.mem_of_find?_eq_some hp)
  · rw [hgeq]
    simp only [toPositionGroup, Bool.and_eq_true, List.find?_isSome, decide_eq_true_eq]

/-- Witness of C12 amended: the group of `twoLongsOneShort`. -/
theorem open_position_groups_witness :
    groupOpenPositions twoLongsOneShort
      = .ok [toPositionGroup ("BTC", twoLongsOneShort)] ∧
    toPositionGroup ("BTC", twoLongsOneShort) ∈ [toPositionGroup ("BTC", twoLongsOneShort)] ∧
    ((toPositionGroup ("BTC", twoLongsOneShort)).hasHedge = true ↔
      (∃ p ∈ openPositionsOf twoLongsOneShort
          (toPositionGroup ("BTC", twoLongsOneShort)).baseSymbol, p.side = "long") ∧
      (∃ p ∈ openPositionsOf twoLongsOneShort
          (toPositionGroup ("BTC", twoLongsOneShort)).baseSymbol, p.side = "short")) :=
  ⟨by decide!, List.mem_singleton.2 rfl,
    (open_position_groups twoLongsOneShort [toPositionGroup ("BTC", twoLongsOneShort)]
      (toPositionGroup ("BTC", twoLongsOneShort)) (by decide!)
      (List.mem_singleton.2 rfl)).2.2⟩

/-- C15, refuted as stated: a cached value whose age is exactly 60 000 ms, which does
not exceed the TTL, is not returned: the pipeline runs and the slot is replaced.  And
when the pipeline has to run and throws, nothing is stored and an error is returned. -/
theorem cache_age_boundary_counterexample :
    filledSlot.cachedData = some emptySnapshot ∧
    ((1700000060000 : ℤ) - (filledSlot.lastUpdateTime : ℤ) ≤ 60000) ∧
    (GET sampleConfig allUpEnv filledSlot false 1700000060000).fetched = true ∧
    (GET sampleConfig allUpEnv filledSlot false 1700000060000).response
      ≠ .json emptySnapshot ∧
    (GET sampleConfig allUpEnv filledSlot false 1700000060000).slot ≠ filledSlot ∧
    GET sampleConfig gateDownEnv filledSlot true 1700000000001
      = { response := .failure 500 "获取数据时发生错误", slot := filledSlot, fetched := true } := by
  decide!

/-- C15, amended. For every cache state and every snapshot request at time `now`: if a
cached value exists, refresh is not forced and the cached value's age
(`now − lastUpdateTime`) is below the 60 000 ms TTL, `GET` returns the cached value
without running the pipeline and leaves the slot unchanged; otherwise it runs the
aggregation pipeline and, when the pipeline completes, stores the new result with its
time in the slot and returns that result. -/
theorem snapshot_cache (config : DataConfig) (env : AggregatorEnv) (slot : CacheSlot)
    (forceRefresh : Bool) (now : ℕ) :
    (∀ cached, slot.cachedData = some cached → forceRefresh = false →
      (now : ℤ) - (slot.lastUpdateTime : ℤ) < 60000 →
      GET config env slot forceRefresh now
        = { response := .json cached, slot := slot, fetched := false }) ∧
    ((slot.cachedData = none ∨ forceRefresh = true ∨
        (60000 : ℤ) ≤ (now : ℤ) - (slot.lastUpdateTime : ℤ)) →
      (GET config env slot forceRefresh now).fetched = true ∧
      ∀ r, fetchFundingRates env config.enabledExchanges = .ok r →
        (GET config env slot forceRefresh now).response
          = .json (buildSnapshot config env now r) ∧
        (GET config env slot forceRefresh now).slot
          = { cachedData := some (buildSnapshot config env now r), lastUpdateTime := now }) := by
  have hfetched : (refreshSnapshot config env slot now).fetched = true := by
    unfold refreshSnapshot
    cases fetchFundingRates env config.enabledExchanges <;> rfl
  have hstore : ∀ r, fetchFundingRates env config.enabledExchanges = .ok r →
      (refreshSnapshot config env slot now).response
        = .json (buildSnapshot config env now r) ∧
      (refreshSnapshot config env slot now).slot
        = { cachedData := some (buildSnapshot config env now r), lastUpdateTime := now } := by
    intro r hr
    unfold refreshSnapshot
    rw [hr]
    exact ⟨rfl, rfl⟩
  constructor
  · intro cached hc hf hage
    unfold GET
    rw [hc]
    have hcond : (now : ℤ) - (slot.lastUpdateTime : ℤ) < CACHE_DURATION ∧
        forceRefresh = false := ⟨by unfold CACHE_DURATION; omega, hf⟩
    simp only [hcond, and_self, if_true]
  · intro hcase
    have hrun : GET config env slot forceRefresh now = refreshSnapshot config env slot now := by
      unfold GET
      cases hc : slot.cachedData with
      | none => rfl
      | some cached =>
        have hcond : ¬ ((now : ℤ) - (slot.lastUpdateTime : ℤ) < CACHE_DURATION ∧
            forceRefresh = false) := by
          rintro ⟨h1, h2⟩
          rcases hcase with h | h | h
          · rw [hc] at h; cases h
          · rw [h2] at h; cases h
          · unfold CACHE_DURATION at h1; omega
        simp only [hcond, if_false]
    rw [hrun]
    exact ⟨hfetched, hstore⟩

/-- Witness of C15 amended: `filledSlot` asked again 59 999 ms later answers from the
cache. -/
theorem snapshot_cache_witness :
    filledSlot.cachedData = some emptySnapshot ∧
    ((1700000059999 : ℕ) : ℤ) - (filledSlot.lastUpdateTime : ℤ) < 60000 ∧
    GET sampleConfig allUpEnv filledSlot false 1700000059999
      = { response := .json emptySnapshot, slot := filledSlot, fetched := false } :=
  ⟨rfl, by decide,
    (snapshot_cache sampleConfig allUpEnv filledSlot false 1700000059999).1 emptySnapshot
      rfl rfl (by decide)⟩

/-- C24, at the input on which the code departs from it: when the batch call throws,
`getFundingRates` of the gate and hyperliquid adapters (the code of `BaseExchange`)
raises nothing and resolves to `undefined`, which is no mapping; the bitget adapter
raises the error. -/
theorem getFundingRates_resolves_to_undefined :
    failingRatesVenue.fetchFundingRates = .error "request timeout" ∧
    getFundingRates .gate failingRatesVenue = .fulfilled none ∧
    getFundingRates .hyperliquid failingRatesVenue = .fulfilled none ∧
    getFundingRates .bitget failingRatesVenue = .rejected "request timeout" := by
  decide

/-- C26. In the execute operation both legs are dispatched before either is awaited: on
supported exchanges the run of the handler begins with the call of the long leg and the
call of the short leg, both at the tick of the request, and only then suspends on its
`await`; after that no call is made.  This holds for every behaviour of the two
promises, so the dispatch of the short leg does not wait for the long leg to complete,
whether it completes late or never. -/
theorem both_legs_dispatched (req : TradeIntent) (env : SchedulerEnv) (start : ℕ)
    (longId shortId : ExchangeId)
    (hl : req.longExchange = some longId.name) (hs : req.shortExchange = some shortId.name) :
    ∃ rest,
      runHandler env (executeHandler req env.isoNow) start
        = .called start (.long longId (legCall req longId)) ::
          .called start (.short shortId (legCall req shortId)) ::
          .suspended start :: rest ∧
      ∀ e ∈ rest, ∀ t d, e ≠ .called t d := by
  rw [runHandler_execute_supported req env start longId shortId hl hs]
  cases promiseAll [⟨start, env.executeLongOrder longId (legCall req longId)⟩,
      ⟨start, env.executeShortOrder shortId (legCall req shortId)⟩] with
  | none => exact ⟨[], rfl, fun e he => absurd he (List.not_mem_nil e)⟩
  | some settled =>
    obtain ⟨t, result⟩ := settled
    cases result with
    | error m =>
      refine ⟨_, rfl, ?_⟩
      intro e he t' d h
      simp only [List.mem_cons, List.mem_singleton, List.not_mem_nil, or_false] at he
      rcases he with rfl | rfl <;> cases h
    | ok results =>
      refine ⟨_, rfl, ?_⟩
      intro e he t' d h
      simp only [List.mem_cons, List.mem_singleton, List.not_mem_nil, or_false] at he
      rcases he with rfl | rfl
      · cases h
      · split at h <;> cases h

/-- Witness of C26: the long leg of `sampleIntent` never settles; the short leg has been
called at the tick of the request all the same, and the handler stays suspended. -/
theorem both_legs_dispatched_witness :
    sampleIntent.longExchange = some ExchangeId.gate.name ∧
    sampleIntent.shortExchange = some ExchangeId.bitget.name ∧
    (longHangsEnv.executeLongOrder .gate (legCall sampleIntent .gate)).settlesAfter = none ∧
    runHandler longHangsEnv (executeHandler sampleIntent longHangsEnv.isoNow) 0
      = [.called 0 (.long .gate (legCall sampleIntent .gate)),
         .called 0 (.short .bitget (legCall sampleIntent .bitget)),
         .suspended 0] ∧
    ∃ rest,
      runHandler longHangsEnv (executeHandler sampleIntent longHangsEnv.isoNow) 0
        = .called 0 (.long .gate (legCall sampleIntent .gate)) ::
          .called 0 (.short .bitget (legCall sampleIntent .bitget)) ::
          .suspended 0 :: rest ∧
      ∀ e ∈ rest, ∀ t d, e ≠ .called t d :=
  ⟨rfl, rfl, rfl, by decide!,
    both_legs_dispatched sampleIntent longHangsEnv 0 .gate .bitget rfl rfl⟩

/-- C27, refuted as stated: for the symbol `BTC:USDT` the reconciler's key is the whole
symbol while `extractBaseToken` gives `BTC`. -/
theorem grouping_key_counterexample :
    beforeFirst '/' "BTC:USDT" = "BTC:USDT" ∧ extractBaseToken "BTC:USDT" = "BTC" ∧
    beforeFirst '/' "BTC:USDT" ≠ extractBaseToken "BTC:USDT" := by
  decide

/-- C27, amended. For every position symbol in which no `:` comes before the first `/`
(every symbol of the form `base/quote` or `base/quote:settle`), the key under which
OpenPositions groups the position, `symbol.split('/')[0]`, equals
`extractBaseToken(symbol)`. -/
theorem grouping_key_is_base_token (symbol : String)
    (h : ':' ∉ (beforeFirst '/' symbol).data) :
    beforeFirst '/' symbol = extractBaseToken symbol := by
  have key : ∀ l : List Char, ':' ∉ l.takeWhile (fun c => c ≠ '/') →
      (l.takeWhile (fun c => c ≠ ':')).takeWhile (fun c => c ≠ '/')
        = l.takeWhile (fun c => c ≠ '/') := by
    intro l
    induction l with
    | nil => intro _; rfl
    | cons c l ih =>
      intro hc
      by_cases hslash : c = '/'
      · subst hslash
        have h1 : decide ('/' ≠ ':') = true := by decide
        have h2 : decide ('/' ≠ '/') = false := by decide
        rw [List.takeWhile_cons, h1]
        simp only [if_true]
        rw [List.takeWhile_cons, List.takeWhile_cons, h2]
        rfl
      · have h2 : decide (c ≠ '/') = true := by simp [hslash]
        rw [List.takeWhile_cons, h2] at hc
        simp only [if_true, List.mem_cons, not_or] at hc
        have hcolon : c ≠ ':' := fun e => hc.1 e.symm
        have h1 : decide (c ≠ ':') = true := by simp [hcolon]
        rw [List.takeWhile_cons, h1]
        simp only [if_true]
        rw [List.takeWhile_cons, List.takeWhile_cons, h2]
        simp only [if_true]
        rw [ih hc.2]
  unfold extractBaseToken beforeFirst
  simp only
  unfold beforeFirst at h
  rw [key symbol.data h]

/-- Witness of C27 amended: a perpetual symbol. -/
theorem grouping_key_is_base_token_witness :
    ':' ∉ (beforeFirst '/' "BTC/USDT:USDT").data ∧
    beforeFirst '/' "BTC/USDT:USDT" = "BTC" ∧
    beforeFirst '/' "BTC/USDT:USDT" = extractBaseToken "BTC/USDT:USDT" :=
  ⟨by decide, by decide, grouping_key_is_base_token "BTC/USDT:USDT" (by decide)⟩

/-- C28, at the input on which the code departs from it: with `ENABLED_EXCHANGES` unset
or empty, `EXCHANGE_NAMES` is the empty list, not the default list: the array on the
left of `||` is empty but truthy. -/
theorem exchange_names_empty_when_unset :
    EXCHANGE_NAMES none = [] ∧ EXCHANGE_NAMES (some "") = [] ∧
    EXCHANGE_NAMES (some "Gate, BITGET") = ["gate", "bitget"] ∧
    defaultExchanges = ["hyperliquid", "gate", "bitget"] ∧
    EXCHANGE_NAMES none ≠ defaultExchanges := by
  decide!

/-- C30. For every cache state, if a snapshot request has to run the pipeline and the
pipeline fails, the cache slot is left exactly as it was and the request returns an
error response (first part); the slot is only ever replaced as a whole, by the result
of a completed pipeline with the time of the request (second part). -/
theorem failed_pipeline_keeps_slot (config : DataConfig) (env : AggregatorEnv)
    (slot : CacheSlot) (forceRefresh : Bool) (now : ℕ) :
    (∀ e, fetchFundingRates env config.enabledExchanges = .error e →
      (GET config env slot forceRefresh now).fetched = true →
      (GET config env slot forceRefresh now).slot = slot ∧
      (GET config env slot forceRefresh now).response = .failure 500 "获取数据时发生错误") ∧
    ((GET config env slot forceRefresh now).slot = slot ∨
      ∃ r, fetchFundingRates env config.enabledExchanges = .ok r ∧
        (GET config env slot forceRefresh now).slot
          = { cachedData := some (buildSnapshot config env now r), lastUpdateTime := now } ∧
        (GET config env slot forceRefresh now).response
          = .json (buildSnapshot config env now r)) := by
  have hcases : GET config env slot forceRefresh now
        = refreshSnapshot config env slot now ∨
      ((GET config env slot forceRefresh now).fetched = false ∧
        (GET config env slot forceRefresh now).slot = slot) := by
    unfold GET
    cases slot.cachedData with
    | none => exact Or.inl rfl
    | some cached =>
      simp only
      split
      · exact Or.inr ⟨rfl, rfl⟩
      · exact Or.inl rfl
  constructor
  · intro e he hf
    rcases hcases with hrun | ⟨hnot, _⟩
    · rw [hrun]
      unfold refreshSnapshot
      rw [he]
      exact ⟨rfl, rfl⟩
    · rw [hnot] at hf
      cases hf
  · rcases hcases with hrun | ⟨_, hsame⟩
    · rw [hrun]
      unfold refreshSnapshot
      cases hr : fetchFundingRates env config.enabledExchanges with
      | error e => exact Or.inl rfl
      | ok r => exact Or.inr ⟨r, rfl, rfl, rfl⟩
    · exact Or.inl hsame

/-- Witness of C30: a forced refresh of `filledSlot` while the batch call of gate fails. -/
theorem failed_pipeline_keeps_slot_witness :
    fetchFundingRates gateDownEnv sampleConfig.enabledExchanges
      = .error "TypeError: Cannot convert undefined or null to object" ∧
    (GET sampleConfig gateDownEnv filledSlot true 1700000000001).fetched = true ∧
    (GET sampleConfig gateDownEnv filledSlot true 1700000000001).slot = filledSlot ∧
    (GET sampleConfig gateDownEnv filledSlot true 1700000000001).response
      = .failure 500 "获取数据时发生错误" :=
  ⟨by decide!, by decide!,
    ((failed_pipeline_keeps_slot sampleConfig gateDownEnv filledSlot true
      1700000000001).1 "TypeError: Cannot convert undefined or null to object"
      (by decide!) (by decide!)).1,
    ((failed_pipeline_keeps_slot sampleConfig gateDownEnv filledSlot true
      1700000000001).1 "TypeError: Cannot convert undefined or null to object"
      (by decide!) (by decide!)).2⟩

/-- C21, counterexample. On a venue that rejects the close of the first open position
(3 contracts long) of `samplePositions`, the bitget adapter returns normally but has
submitted that one order only, and the gate adapter raises the error: the short position
of 2 contracts gets no close order from either. -/
theorem close_continues_counterexample :
    (closeAllPositions .bitget rejectingVenue "BTC/USDT:USDT").1 = .ok () ∧
    ordersOf (closeAllPositions .bitget rejectingVenue "BTC/USDT:USDT").2
      = [baseCloseOrder "BTC/USDT:USDT" 100 ⟨"BTC/USDT:USDT", "long", 3, none⟩] ∧
    (closeAllPositions .gate rejectingVenue "BTC/USDT:USDT").1 = .error "order rejected" ∧
    ordersOf (closeAllPositions .gate rejectingVenue "BTC/USDT:USDT").2
      = [gateCloseOrder "BTC/USDT:USDT" ⟨"BTC/USDT:USDT", "long", 3, none⟩] := by
  decide!

/-- C21, amended. For every symbol with several open positions, if the close order of
one position fails, `closeAllPositions` stops there: the positions before it with
`contracts > 0` got their close order, the failing order was submitted, and no position
after it gets a close order.  The hyperliquid and bitget adapters log the failure and do
not raise; the gate adapter logs it and raises it again. -/
theorem close_stops_at_first_failure (venue : Venue) (symbol : String) (p : ℚ) (m : String)
    (pre : List Position) (pos : Position) (rest : List Position)
    (hf : venue.fetchPositions symbol = .ok (pre ++ pos :: rest))
    (ht : venue.fetchTicker symbol = .ok (some p))
    (hpos : 0 < pos.contracts)
    (hpreB : ∀ q ∈ pre, ∃ r, venue.createOrder (baseCloseOrder symbol p q) = .ok r)
    (hpreG : ∀ q ∈ pre, ∃ r, venue.createOrder (gateCloseOrder symbol q) = .ok r)
    (hfailB : venue.createOrder (baseCloseOrder symbol p pos) = .error m)
    (hfailG : venue.createOrder (gateCloseOrder symbol pos) = .error m) :
    (∀ id : ExchangeId, id ≠ .gate →
      (closeAllPositions id venue symbol).1 = .ok () ∧
      ordersOf (closeAllPositions id venue symbol).2
        = (pre.filter (fun q => decide (0 < q.contracts))).map (baseCloseOrder symbol p)
            ++ [baseCloseOrder symbol p pos]) ∧
    (closeAllPositions .gate venue symbol).1 = .error m ∧
    ordersOf (closeAllPositions .gate venue symbol).2
      = (pre.filter (fun q => decide (0 < q.contracts))).map (gateCloseOrder symbol)
          ++ [gateCloseOrder symbol pos] := by
  have hb := baseCloseLoop_stops ht pos rest hpos hfailB pre hpreB
  have hg := gateCloseLoop_stops pos rest hpos hfailG pre hpreG
  have hbase : (baseCloseAllPositions venue symbol).1 = .ok () ∧
      ordersOf (baseCloseAllPositions venue symbol).2
        = (pre.filter (fun q => decide (0 < q.contracts))).map (baseCloseOrder symbol p)
            ++ [baseCloseOrder symbol p pos] := by
    unfold baseCloseAllPositions
    rw [hf]
    exact ⟨rfl, by simp only [ordersOf_cons_fetchPositions]; exact hb.2⟩
  refine ⟨?_, ?_, ?_⟩
  · intro id hid
    cases id with
    | gate => exact absurd rfl hid
    | hyperliquid => exact hbase
    | bitget => exact hbase
  · simp only [closeAllPositions]
    unfold gateCloseAllPositions
    rw [hf]
    exact hg.1
  · simp only [closeAllPositions]
    unfold gateCloseAllPositions
    rw [hf]
    simp only [ordersOf_cons_fetchPositions]
    exact hg.2

/-- Witness of C21 amended: a short position of 2 contracts is closed, the close of the
long position of 3 contracts is rejected, and the last position is not attempted. -/
theorem close_stops_at_first_failure_witness :
    (∀ id : ExchangeId, id ≠ .gate →
      (closeAllPositions id laterRejectingVenue "BTC/USDT:USDT").1 = .ok () ∧
      ordersOf (closeAllPositions id laterRejectingVenue "BTC/USDT:USDT").2
        = ([(⟨"BTC/USDT:USDT", "short", 2, none⟩ : Position)].filter
              (fun q => decide (0 < q.contracts))).map (baseCloseOrder "BTC/USDT:USDT" 100)
            ++ [baseCloseOrder "BTC/USDT:USDT" 100 ⟨"BTC/USDT:USDT", "long", 3, none⟩]) ∧
    (closeAllPositions .gate laterRejectingVenue "BTC/USDT:USDT").1
      = .error "order rejected" ∧
    ordersOf (closeAllPositions .gate laterRejectingVenue "BTC/USDT:USDT").2
      = ([(⟨"BTC/USDT:USDT", "short", 2, none⟩ : Position)].filter
            (fun q => decide (0 < q.contracts))).map (gateCloseOrder "BTC/USDT:USDT")
          ++ [gateCloseOrder "BTC/USDT:USDT" ⟨"BTC/USDT:USDT", "long", 3, none⟩] :=
  close_stops_at_first_failure laterRejectingVenue "BTC/USDT:USDT" 100 "order rejected"
    [⟨"BTC/USDT:USDT", "short", 2, none⟩] ⟨"BTC/USDT:USDT", "long", 3, none⟩
    [⟨"BTC/USDT:USDT", "short", 1, none⟩] rfl rfl (by decide!)
    (by intro q hq; rw [List.mem_singleton] at hq; subst hq; exact ⟨_, rfl⟩)
    (by intro q hq; rw [List.mem_singleton] at hq; subst hq; exact ⟨_, rfl⟩)
    (by decide!) (by decide!)

/-- C22. For every combination of per-adapter `getPositions` outcomes, the positions
operation does not fail: the response is a success whose positions are the
concatenation, in the order in which the enabled names first appear, of what each name
contributes, namely the positions of its adapter tagged with the name, or the empty list
when the fetch throws.  The enabled names are those for which `getExchangeApi` returns
something. -/
theorem positions_route_never_fails (env : RoutesEnv)
    (hnames : ∀ name ∈ env.exchangeNames,
      name ∈ objectPrototypeKeys ∨ ∃ id : ExchangeId, name = id.name) :
    positionsGET env
      = .success ((firstAppearance
            (env.exchangeNames.filter (fun n => decide (n ≠ "__proto__")))).flatMap
          (contributedPositions env)) ∧
    (∀ id : ExchangeId, ∀ m, env.getPositions id = .error m →
      contributedPositions env id.name = []) ∧
    (∀ id : ExchangeId, ∀ positions, env.getPositions id = .ok positions →
      contributedPositions env id.name
        = positions.map (fun position => { position with exchange := some id.name })) := by
  have hb : ∀ name ∈ env.exchangeNames, name ∈ bindableNames :=
    fun name h => mem_bindableNames (hnames name h)
  obtain ⟨apis, hapis, hent, -⟩ := entries_of_bindable env.exchangeNames hb
  refine ⟨?_, ?_, ?_⟩
  · unfold positionsGET
    rw [hapis]
    simp only [hent, List.flatMap_map]
    congr 1
    apply List.flatMap_congr
    intro name hname
    exact positionsOfEntry_handleOf env
      (hb name (List.mem_filter.mp (mem_firstAppearance.mp hname)).1)
  · intro id m hm
    cases id <;> simp [contributedPositions, exchangeIdOfName?, ExchangeId.name, hm]
  · intro id positions hp
    cases id <;>
      simp [contributedPositions, exchangeIdOfName?, ExchangeId.name, hp, tagPositions]

/-- Witness of C22: the fetch of gate throws, so the positions are those of bitget
alone, tagged `bitget`. -/
theorem positions_route_never_fails_witness :
    (∀ name ∈ troubledRoutesEnv.exchangeNames,
      name ∈ objectPrototypeKeys ∨ ∃ id : ExchangeId, name = id.name) ∧
    positionsGET troubledRoutesEnv
      = .success
          [⟨"BTC/USDT:USDT", "long", 3, some "bitget"⟩,
           ⟨"BTC/USDT:USDT", "short", 0, some "bitget"⟩,
           ⟨"BTC/USDT:USDT", "short", 2, some "bitget"⟩] :=
  ⟨troubledRoutesEnv_names,
    (positions_route_never_fails troubledRoutesEnv troubledRoutesEnv_names).1.trans
      (by decide!)⟩

/-- C23, counterexample. With the position fetch of gate failing and the venue of bitget
rejecting the close of the long position, the close-all route answers the bare success
message; and the close-hedged route answers success for BTC although the one close it
started had its order rejected and left the short position open. -/
theorem close_out_masks_failure_counterexample :
    troubledRoutesEnv.getPositions .gate = .error "request timeout" ∧
    (closeAllPOST troubledRoutesEnv).response = .success "所有仓位已平仓" ∧
    (closeHedgedPOST swallowingRoutesEnv sampleCloseRequest).response
      = .success "BTC 的对冲仓位已平仓" ∧
    ordersOf (closeAllPositions .bitget (swallowingRoutesEnv.venue .bitget) "BTC/USDT:USDT").2
      = [baseCloseOrder "BTC/USDT:USDT" 100 ⟨"BTC/USDT:USDT", "long", 3, none⟩] ∧
    rejectingVenue.createOrder
        (baseCloseOrder "BTC/USDT:USDT" 100 ⟨"BTC/USDT:USDT", "long", 3, none⟩)
      = .error "order rejected" := by
  decide!

/-- C23, amended. For every close-out run the report is one flag with one text and no
per-adapter outcome: the close-all route answers success with the fixed message whatever
the position fetches and the closes did, and the close-hedged route answers either
success with the message naming the base token or a failure with status 500 and one error
message. -/
theorem close_out_reports_one_flag (env : RoutesEnv)
    (hnames : ∀ name ∈ env.exchangeNames,
      name ∈ objectPrototypeKeys ∨ ∃ id : ExchangeId, name = id.name) :
    (closeAllPOST env).response = .success "所有仓位已平仓" ∧
    ∀ req : CloseHedgedRequest,
      (∃ baseSymbol, truthyString req.baseSymbol = some baseSymbol ∧
          (closeHedgedPOST env req).response
            = .success (baseSymbol ++ " 的对冲仓位已平仓")) ∨
        ∃ m, (closeHedgedPOST env req).response = .failure 500 m := by
  have hb : ∀ name ∈ env.exchangeNames, name ∈ bindableNames :=
    fun name h => mem_bindableNames (hnames name h)
  refine ⟨?_, closeHedgedPOST_shape env⟩
  unfold closeAllPOST
  rw [getAllExchangeApis_ok env.exchangeNames hb]

/-- Witness of C23 amended: the environment in which the fetch of gate fails. -/
theorem close_out_reports_one_flag_witness :
    (∀ name ∈ troubledRoutesEnv.exchangeNames,
      name ∈ objectPrototypeKeys ∨ ∃ id : ExchangeId, name = id.name) ∧
    (closeAllPOST troubledRoutesEnv).response = .success "所有仓位已平仓" ∧
    (closeHedgedPOST troubledRoutesEnv sampleCloseRequest).response
      = .failure 500 "request timeout" :=
  ⟨troubledRoutesEnv_names,
    (close_out_reports_one_flag troubledRoutesEnv troubledRoutesEnv_names).1, by decide!⟩

/-- C25, counterexample. Hyperliquid answers a rate whose parsed `fundingRate` is the
number 0 and whose raw `info.funding` is the text "0.0": the row of the aggregation has
the text as its `fundingRate`, not a number. -/
theorem aggregated_string_counterexample :
    (fetchFundingRates zeroFundingEnv ["hyperliquid"]).map
        (fun r => r.fundingRates.map
          (fun row => (row.markPrice, row.indexPrice, row.fundingRate)))
      = .ok [(.num 100, .num 100, .str "0.0")] := by
  decide!

/-- C25, amended. For every adapter response, every row output by the aggregation has
`baseToken = extractBaseToken(symbol)` and is the normalisation of one value of the
mapping of an enabled exchange; its `markPrice`, `indexPrice` and `fundingRate` are 0
when every source field is absent, and they are numbers whenever the raw `info` holds no
string in `markPx`, `oraclePx` and `funding` (a string found there is passed on as it
is). -/
theorem aggregated_rows_normalized (env : AggregatorEnv) (enabled : List String)
    (r : FetchResult) (h : fetchFundingRates env enabled = .ok r) :
    ∀ row ∈ r.fundingRates,
      row.baseToken = extractBaseToken row.symbol ∧
      ∃ exchange ∈ enabled, ∃ value, ratePromise env exchange = .fulfilled (some value) ∧
        ∃ rate ∈ value, row = normalizeAggregated env exchange rate ∧
          (rate.markPrice = none → rate.info.bind RawInfo.markPx = none →
            row.markPrice = .num 0) ∧
          (rate.indexPrice = none → rate.info.bind RawInfo.oraclePx = none →
            row.indexPrice = .num 0) ∧
          (rate.fundingRate = none → rate.rate = none →
            rate.info.bind RawInfo.funding = none → row.fundingRate = .num 0) ∧
          (infoHoldsNoString rate = true →
            row.markPrice.isNum = true ∧ row.indexPrice.isNum = true ∧
            row.fundingRate.isNum = true) := by
  intro row hrow
  unfold fetchFundingRates at h
  cases hm : mergeRates env [] enabled with
  | error m => rw [hm] at h; simp at h
  | ok allRates =>
    rw [hm] at h
    simp only [Except.ok.injEq] at h
    subst h
    rcases mem_mergeRates env enabled [] allRates hm row hrow with hnil | hex
    · simp at hnil
    · obtain ⟨exchange, hexchange, value, hvalue, rate, hrate, rfl⟩ := hex
      refine ⟨rfl, exchange, hexchange, value, hvalue, rate, hrate, rfl, ?_, ?_, ?_, ?_⟩
      · intro h1 h2
        simp [normalizeAggregated, h1, h2, firstTruthy]
      · intro h1 h2
        simp [normalizeAggregated, h1, h2, firstTruthy]
      · intro h1 h2 h3
        simp [normalizeAggregated, h1, h2, h3, firstTruthy]
      · exact normalizeAggregated_isNum env exchange rate

/-- Witness of C25 amended: gate alone enabled, answering one BTC rate without prices. -/
theorem aggregated_rows_normalized_witness :
    fetchFundingRates allUpEnv ["gate"] = .ok gateOnlyResult ∧
    ∀ row ∈ gateOnlyResult.fundingRates, row.baseToken = extractBaseToken row.symbol :=
  ⟨by decide!, fun row hrow =>
    (aggregated_rows_normalized allUpEnv ["gate"] gateOnlyResult (by decide!) row hrow).1⟩

/-- C29, at the input on which the code departs from it: two rows of the one symbol
`constructor` with rates 0.0001 and 0.0006 and the limit 1.  The first opportunity of
`calculateArbitrageOpportunities` has `rateDifference` 0.0005, the largest rate minus
the smallest, but `filterArbitrageOpportunities` with threshold 0 returns no opportunity
to compare it with: it throws. -/
theorem policies_part_on_prototype_symbol :
    (∀ r ∈ prototypeRows, r.symbol = "constructor") ∧ 2 ≤ prototypeRows.length ∧
    ((calculateArbitrageOpportunities prototypeRows (some 1)).head?).map
        Opportunity.rateDifference = some (6 / 10000 - 1 / 10000) ∧
    filterArbitrageOpportunities prototypeRows (some 0) 0
      = .error "TypeError: symbolGroups[item.symbol].push is not a function" := by
  decide!

end FundingArb
